import Mathlib

/-! Paging simulator with FIFO replacement (`simulador_paginacion.c`).

A shallow embedding of the memory manager of the simulator: the frame pool, the swap
pool, the FIFO ledger, the process table, and the operations `init_memory`,
`create_process`, `kill_random_process`, `simulate_random_access`, `end_simulation`.

Conventions of the embedding.

* The global variables of the C file are the fields of `State`; every operation is a
  function `State → … → State`.
* Every call of `rand()` is an extra argument (`r`, `r1`, `r2`) ranging over all naturals.
* `printf` is dropped; the `elapsed` argument, which is only printed, is dropped too.
* C `int` flags that only ever hold 0 or 1 (`occupied`, `alive`, `in_ram`, `in_swap`,
  `simulation_running`) are `Bool` (`true` is 1).
* A `Page *` is a `PagePtr`: the index of the process in `processes` together with the
  index of the page in that process's `pages` array; `NULL` is `none`.
* `calloc`ed arrays are lists of the allocated length; the two static arrays
  (`processes`, `alive_indices`) are lists that hold the prefix written so far, every
  entry beyond it being the zero value (`arrGet`, `arrSet`).  `free(p->pages)` followed
  by `p->pages = NULL` leaves the empty list.
* `int` values that may be `-1` are `Int`; counters that the code only increments, or
  decrements behind a positivity test, are `Nat`.  The statistics (`long`), `fifo_size`
  and `next_pid` are unbounded here: they grow by one per event and each event takes
  seconds of wall-clock time.
* The product `physical_mem_bytes * factor` is computed in `double`; its result
  `virtual_mem_bytes` is an argument of `init_memory`.
* `calloc` and `malloc` succeed.  An index that the C code would read or write out of
  bounds reads the zero value and writes nothing (`getD`, `set`); the invariant `Inv` is
  what keeps the accesses through page pointers, page numbers and the indices stored in
  pages within bounds in the reachable states.

The file has four parts: the embedding of the code, the vocabulary of the statements
(invariants, free lists, concrete states), the lemmas, and the theorems of the claims.
-/

namespace SimPag

def MIN_PROC_MB : Nat := 1
def MAX_PROC_MB : Nat := 20
def MAX_PROCESSES : Nat := 1000

/-- Position of a page: index in `processes`, index in that process's `pages`. -/
abbrev PagePtr := Nat × Nat

structure Page where
  pid : Nat
  page_number : Nat
  in_ram : Bool
  frame_index : Int
  in_swap : Bool
  swap_index : Int
deriving DecidableEq, Repr

structure Process where
  pid : Nat
  size_bytes : Nat
  num_pages : Int
  pages : List Page
  alive : Bool
deriving DecidableEq, Repr

structure Frame where
  occupied : Bool
  page : Option PagePtr
deriving DecidableEq, Repr

/-- The C `SwapSlot` has the same two fields as `Frame`. -/
abbrev SwapSlot := Frame

/-- Zero-filled page, as `calloc` returns it. -/
instance : Inhabited Page := ⟨⟨0, 0, false, 0, false, 0⟩⟩

/-- Zero-filled entry of the static array `processes`. -/
instance : Inhabited Process := ⟨⟨0, 0, 0, [], false⟩⟩

/-- Zero-filled frame or slot, as `calloc` returns it. -/
instance : Inhabited Frame := ⟨⟨false, none⟩⟩

structure State where
  processes : List Process
  process_count : Nat
  alive_indices : List Nat
  alive_count : Nat
  next_pid : Nat
  ram_frames : List Frame
  ram_frame_count : Int
  free_ram_frames : Int
  swap_slots : List SwapSlot
  swap_slot_count : Int
  free_swap_slots : Int
  fifo_queue : List Int
  fifo_head : Nat
  fifo_size : Nat
  fifo_capacity : Nat
  page_size_bytes : Nat
  physical_mem_bytes : Nat
  virtual_mem_bytes : Nat
  simulation_running : Bool
  total_page_faults : Nat
  total_fifo_replacements : Nat
  total_pages_loaded_from_swap : Nat
  total_pages_evicted_to_swap : Nat
deriving DecidableEq, Repr

/-- Read of a static zero-initialised array. -/
def arrGet {α : Type} [Inhabited α] (l : List α) (i : Nat) : α := l.getD i default

/-- Write into a static zero-initialised array (the list grows up to the written index). -/
def arrSet {α : Type} [Inhabited α] (l : List α) (i : Nat) (v : α) : List α :=
  if i < l.length then l.set i v else l ++ List.replicate (i - l.length) default ++ [v]

/-- Conversion of a `size_t` value to `int` (two's complement wrap). -/
def toInt32 (n : Nat) : Int :=
  if n % 2 ^ 32 < 2 ^ 31 then ((n % 2 ^ 32 : Nat) : Int) else ((n % 2 ^ 32 : Nat) : Int) - 2 ^ 32

/-- Lines 103-105: `(size_t)mb * 1024ULL * 1024ULL`, in 64-bit unsigned arithmetic. -/
def mb_to_bytes (mb : Int) : Nat := ((mb * 1024 * 1024) % 2 ^ 64).toNat

/-- Lines 199-219.  The `double` product is the argument `virtual_mem_bytes`.  A division
by `page_size_bytes = 0` traps in C and yields 0 here; `calloc` of a negative count fails
in C and yields the empty list here.  The ledger array, which `malloc` leaves
uninitialised, is filled with zeros; `fifo_capacity` is a `Nat`, the value 0 standing for
a non-positive `ram_frame_count`, with which the code never enqueues. -/
def init_memory (physical_mem_mb page_size_kb : Int) (virtual_mem_bytes : Nat) : State :=
  let page_size_bytes : Nat := ((page_size_kb * 1024) % 2 ^ 64).toNat
  let physical_mem_bytes : Nat := mb_to_bytes physical_mem_mb
  let ram_frame_count : Int := toInt32 (physical_mem_bytes / page_size_bytes)
  let total_pages : Int := toInt32 (virtual_mem_bytes / page_size_bytes)
  let swap_slot_count : Int := total_pages - ram_frame_count
  { processes := []
    process_count := 0
    alive_indices := []
    alive_count := 0
    next_pid := 1
    ram_frames := List.replicate ram_frame_count.toNat default
    ram_frame_count := ram_frame_count
    free_ram_frames := ram_frame_count
    swap_slots := List.replicate swap_slot_count.toNat default
    swap_slot_count := swap_slot_count
    free_swap_slots := swap_slot_count
    fifo_queue := List.replicate ram_frame_count.toNat 0
    fifo_head := 0
    fifo_size := 0
    fifo_capacity := ram_frame_count.toNat
    page_size_bytes := page_size_bytes
    physical_mem_bytes := physical_mem_bytes
    virtual_mem_bytes := virtual_mem_bytes
    simulation_running := true
    total_page_faults := 0
    total_fifo_replacements := 0
    total_pages_loaded_from_swap := 0
    total_pages_evicted_to_swap := 0 }

/-- Lines 479-486. -/
def end_simulation (st : State) : State :=
  if !st.simulation_running then st else { st with simulation_running := false }

/-- Lines 225-229. -/
def enqueue_frame_fifo (st : State) (frame_index : Int) : State :=
  let pos := (st.fifo_head + st.fifo_size) % st.fifo_capacity
  { st with fifo_queue := st.fifo_queue.set pos frame_index
            fifo_size := st.fifo_size + 1 }

/-- The `while (fifo_size > 0)` loop of lines 232-239; the first argument bounds the
number of iterations and is `fifo_size` at the call. -/
def dequeue_loop : Nat → State → Int × State
  | 0, st => (-1, st)
  | n + 1, st =>
    if 0 < st.fifo_size then
      let frame_index := st.fifo_queue.getD st.fifo_head 0
      let st1 := { st with fifo_head := (st.fifo_head + 1) % st.fifo_capacity
                           fifo_size := st.fifo_size - 1 }
      if (st1.ram_frames.getD frame_index.toNat default).occupied then (frame_index, st1)
      else dequeue_loop n st1
    else (-1, st)

/-- Lines 231-241. -/
def dequeue_frame_fifo (st : State) : Int × State := dequeue_loop st.fifo_size st

/-- The loop `for (i = …; i < count; i++) if (!a[i].occupied) return i; return -1;`
with `remaining = count - i` iterations left. -/
def scan_free (a : List Frame) : Nat → Nat → Int
  | 0, _ => -1
  | remaining + 1, i =>
    if !(a.getD i default).occupied then (i : Int) else scan_free a remaining (i + 1)

/-- Lines 247-252. -/
def get_free_ram_frame (st : State) : Int :=
  scan_free st.ram_frames st.ram_frame_count.toNat 0

/-- Lines 254-259. -/
def get_free_swap_slot (st : State) : Int :=
  scan_free st.swap_slots st.swap_slot_count.toNat 0

/-- Read through a `Page *`. -/
def getPage (st : State) (ptr : PagePtr) : Page :=
  (arrGet st.processes ptr.1).pages.getD ptr.2 default

/-- Field writes through a `Page *`: the page at `ptr` becomes `g` of itself. -/
def modPage (st : State) (ptr : PagePtr) (g : Page → Page) : State :=
  let p := arrGet st.processes ptr.1
  { st with processes :=
      st.processes.set ptr.1 { p with pages := p.pages.set ptr.2 (g (getPage st ptr)) } }

/-- Field writes through the `Page *` stored in a frame (`none` is `NULL`, which the code
never dereferences in a reachable state). -/
def modPageOpt (st : State) (ptr : Option PagePtr) (g : Page → Page) : State :=
  match ptr with
  | some p => modPage st p g
  | none => st

/-- Lines 310-314 and 406-410: slot `s` takes the page at `ptr`. -/
def put_in_swap (st : State) (ptr : PagePtr) (s : Int) : State :=
  let st := { st with swap_slots := st.swap_slots.set s.toNat ⟨true, some ptr⟩ }
  let st := modPage st ptr (fun pg => { pg with in_swap := true, swap_index := s })
  { st with free_swap_slots := st.free_swap_slots - 1 }

/-- Lines 297-302: frame `f` takes the page at `ptr`, which goes to the ledger. -/
def put_in_ram (st : State) (ptr : PagePtr) (f : Int) : State :=
  let st := { st with ram_frames := st.ram_frames.set f.toNat ⟨true, some ptr⟩ }
  let st := modPage st ptr (fun pg => { pg with in_ram := true, frame_index := f })
  let st := enqueue_frame_fifo st f
  { st with free_ram_frames := st.free_ram_frames - 1 }

/-- Lines 288-317: the iterations `i, i + 1, …` of the placement loop, `remaining` of
them.  `Except.error` is the early `return` that follows `end_simulation`. -/
def create_pages (idx : Nat) : Nat → Nat → State → Except State State
  | 0, _, st => .ok st
  | remaining + 1, i, st =>
    let ptr : PagePtr := (idx, i)
    let pid := (arrGet st.processes idx).pid
    let st := modPage st ptr
      (fun pg => { pg with pid := pid, page_number := i, frame_index := -1, swap_index := -1 })
    let f := get_free_ram_frame st
    if 0 ≤ f then
      create_pages idx remaining (i + 1) (put_in_ram st ptr f)
    else
      let s := get_free_swap_slot st
      if s < 0 then .error (end_simulation st)
      else create_pages idx remaining (i + 1) (put_in_swap st ptr s)

/-- The `int num_pages` of line 273, in `size_t` arithmetic. -/
def num_pages_of (size_bytes page_size_bytes : Nat) : Int :=
  toInt32 (((size_bytes + page_size_bytes - 1) % 2 ^ 64) / page_size_bytes)

/-- Lines 265-323; `r` is the value of `rand()`. -/
def create_process (st : State) (r : Nat) : State :=
  if !st.simulation_running then st
  else if MAX_PROCESSES ≤ st.process_count then st
  else
    let proc_mb := MIN_PROC_MB + r % (MAX_PROC_MB - MIN_PROC_MB + 1)
    let size_bytes := mb_to_bytes proc_mb
    let num_pages := num_pages_of size_bytes st.page_size_bytes
    let p : Process :=
      { pid := st.next_pid
        size_bytes := size_bytes
        num_pages := num_pages
        pages := List.replicate num_pages.toNat default
        alive := true }
    let st := { st with processes := arrSet st.processes st.process_count p
                        next_pid := st.next_pid + 1 }
    match create_pages st.process_count num_pages.toNat 0 st with
    | .error st => st
    | .ok st =>
      { st with alive_indices := arrSet st.alive_indices st.alive_count st.process_count
                alive_count := st.alive_count + 1
                process_count := st.process_count + 1 }

/-- Lines 345-354: the body of the release loop for one page. -/
def release_page (st : State) (pg : Page) : State :=
  let st :=
    if pg.in_ram then
      { st with ram_frames := st.ram_frames.set pg.frame_index.toNat ⟨false, none⟩
                free_ram_frames := st.free_ram_frames + 1 }
    else st
  if pg.in_swap then
    { st with swap_slots := st.swap_slots.set pg.swap_index.toNat ⟨false, none⟩
              free_swap_slots := st.free_swap_slots + 1 }
  else st

/-- Lines 343-355: the iterations `i, i + 1, …` of the release loop. -/
def kill_pages (idx : Nat) : Nat → Nat → State → State
  | 0, _, st => st
  | remaining + 1, i, st =>
    kill_pages idx remaining (i + 1) (release_page st (getPage st (idx, i)))

/-- Lines 329-365; `r` is the value of `rand()`. -/
def kill_random_process (st : State) (r : Nat) : State :=
  if !st.simulation_running then st
  else if st.alive_count = 0 then st
  else
    let pos := r % st.alive_count
    let idx := arrGet st.alive_indices pos
    let p := arrGet st.processes idx
    if !p.alive then st
    else
      let st := kill_pages idx p.num_pages.toNat 0 st
      let st := { st with processes :=
                    arrSet st.processes idx { arrGet st.processes idx with alive := false, pages := [] } }
      { st with alive_indices :=
                  arrSet st.alive_indices pos (arrGet st.alive_indices (st.alive_count - 1))
                alive_count := st.alive_count - 1 }

/-- Lines 453-472: the page at `ptr` leaves its swap slot and is loaded into frame `f`. -/
def load_page (st : State) (ptr : PagePtr) (f : Int) : State :=
  let old_s := (getPage st ptr).swap_index
  let st :=
    if 0 ≤ old_s then
      { st with swap_slots := st.swap_slots.set old_s.toNat ⟨false, none⟩
                free_swap_slots := st.free_swap_slots + 1 }
    else st
  let st := { st with ram_frames := st.ram_frames.set f.toNat ⟨true, some ptr⟩ }
  let st := modPage st ptr
    (fun pg => { pg with in_ram := true, frame_index := f, in_swap := false, swap_index := -1 })
  let st := { st with free_ram_frames := st.free_ram_frames - 1 }
  let st := enqueue_frame_fifo st f
  { st with total_pages_loaded_from_swap := st.total_pages_loaded_from_swap + 1 }

/-- Lines 432-445: the page in `victim_frame` moves to swap slot `s`. -/
def evict_victim (st : State) (victim_frame s : Int) : State :=
  let victim := (st.ram_frames.getD victim_frame.toNat default).page
  let st := { st with swap_slots := st.swap_slots.set s.toNat ⟨true, victim⟩ }
  let st := modPageOpt st victim (fun pg => { pg with in_ram := false, in_swap := true, swap_index := s })
  let st := { st with free_swap_slots := st.free_swap_slots - 1 }
  let st := { st with ram_frames := st.ram_frames.set victim_frame.toNat ⟨false, none⟩
                      free_ram_frames := st.free_ram_frames + 1 }
  { st with total_fifo_replacements := st.total_fifo_replacements + 1
            total_pages_evicted_to_swap := st.total_pages_evicted_to_swap + 1 }

/-- Lines 413-473: find a frame for the page at `ptr`, evicting if none is free. -/
def fault_load (st : State) (ptr : PagePtr) : State :=
  let f := get_free_ram_frame st
  if f < 0 then
    let (victim_frame, st) := dequeue_frame_fifo st
    if victim_frame < 0 then end_simulation st
    else
      let s := get_free_swap_slot st
      if s < 0 then end_simulation st
      else load_page (evict_victim st victim_frame s) ptr victim_frame
  else load_page st ptr f

/-- Lines 371-473; `r1` and `r2` are the values of the two calls of `rand()`. -/
def simulate_random_access (st : State) (r1 r2 : Nat) : State :=
  if !st.simulation_running then st
  else if st.alive_count = 0 then st
  else
    let pos := r1 % st.alive_count
    let idx := arrGet st.alive_indices pos
    let p := arrGet st.processes idx
    if !p.alive then st
    else
      let addr := r2 % p.size_bytes
      let page_num := toInt32 (addr / st.page_size_bytes)
      let ptr : PagePtr := (idx, page_num.toNat)
      if (getPage st ptr).in_ram then st
      else
        let st := { st with total_page_faults := st.total_page_faults + 1 }
        if !(getPage st ptr).in_swap then
          let s := get_free_swap_slot st
          if s < 0 then end_simulation st
          else fault_load (put_in_swap st ptr s) ptr
        else fault_load st ptr

/-- One call of the driver into the memory manager, with the `rand()` values it draws. -/
inductive Op where
  | create (r : Nat)
  | kill (r : Nat)
  | access (r1 r2 : Nat)
  | stop
deriving DecidableEq, Repr

def step (st : State) : Op → State
  | .create r => create_process st r
  | .kill r => kill_random_process st r
  | .access r1 r2 => simulate_random_access st r1 r2
  | .stop => end_simulation st

def run (st : State) (ops : List Op) : State := ops.foldl step st

/-- Inputs on which `init_memory` and what follows it are defined in C and the derived
pool sizes are non-negative: both inputs are `int`s, the page size is positive (no
division by zero), the physical size is not negative. -/
def ValidConfig (physical_mem_mb page_size_kb : Int) (virtual_mem_bytes : Nat) : Prop :=
  0 ≤ physical_mem_mb ∧ physical_mem_mb < 2 ^ 31 ∧ 0 < page_size_kb ∧ page_size_kb < 2 ^ 31 ∧
  0 ≤ (init_memory physical_mem_mb page_size_kb virtual_mem_bytes).ram_frame_count ∧
  0 ≤ (init_memory physical_mem_mb page_size_kb virtual_mem_bytes).swap_slot_count

/-- States the simulator can be in: `init_memory` on a valid configuration, followed by
any sequence of operations with any `rand()` values. -/
inductive Reachable : State → Prop
  | init (pm pk : Int) (vm : Nat) (h : ValidConfig pm pk vm) : Reachable (init_memory pm pk vm)
  | step (st : State) (op : Op) (h : Reachable st) : Reachable (step st op)

/-! ## Auxiliary definitions for the statements -/

/-- Frees the listed entries of a pool, one after the other. -/
def freeAll (pool : List Frame) (l : List Nat) : List Frame :=
  l.foldl (fun p f => p.set f ⟨false, none⟩) pool


/-- The page at position `(i, j)` of the process table, if there is one. -/
def pageAt (st : State) (i j : Nat) : Option Page :=
  (st.processes[i]?).bind (fun p => p.pages[j]?)

/-- What a pool sees of the pages: for each page, its flag and its index for that pool. -/
abbrev View := Nat → Nat → Option (Bool × Int)

def ramView (st : State) : View :=
  fun i j => (pageAt st i j).map (fun pg => (pg.in_ram, pg.frame_index))

def swapView (st : State) : View :=
  fun i j => (pageAt st i j).map (fun pg => (pg.in_swap, pg.swap_index))

/-- Back-pointers between a pool and the pages: an occupied entry `f` holds a page whose
flag is set and whose index is `f`, and a page whose flag is set sits in the occupied
entry its index names, which points back at it. -/
def Linked (pool : List Frame) (V : View) : Prop :=
  (∀ (f : Nat) (fr : Frame), pool[f]? = some fr → fr.occupied = true →
      ∃ i j, fr.page = some (i, j) ∧ V i j = some (true, (f : Int))) ∧
  (∀ (i j : Nat) (x : Int), V i j = some (true, x) →
      ∃ f : Nat, x = (f : Int) ∧ pool[f]? = some ⟨true, some (i, j)⟩)

/-- Number of occupied entries of a pool. -/
def occupiedCount (pool : List Frame) : Nat := pool.countP (fun x => x.occupied)

/-- Pool invariants; they also hold in the middle of the placement loop of
`create_process`. -/
structure Core (st : State) : Prop where
  ram_len : (st.ram_frames.length : Int) = st.ram_frame_count
  swap_len : (st.swap_slots.length : Int) = st.swap_slot_count
  ram_occ : (occupiedCount st.ram_frames : Int) + st.free_ram_frames = st.ram_frame_count
  swap_occ : (occupiedCount st.swap_slots : Int) + st.free_swap_slots = st.swap_slot_count
  ram_link : Linked st.ram_frames (ramView st)
  swap_link : Linked st.swap_slots (swapView st)
  not_both : ∀ i j pg, pageAt st i j = some pg → ¬ (pg.in_ram = true ∧ pg.in_swap = true)

/-- Every live process of the table has a positive size below `2 ^ 31`, a page array of
`num_pages` entries that covers the size, and each of its pages is in one of the pools. -/
def TableOk (procs : List Process) (process_count page_size_bytes : Nat) : Prop :=
  ∀ (i : Nat) (p : Process), procs[i]? = some p → i < process_count → p.alive = true →
    0 < p.size_bytes ∧ p.size_bytes < 2 ^ 31 ∧
    p.size_bytes ≤ p.pages.length * page_size_bytes ∧
    (p.pages.length : Int) = p.num_pages ∧
    ∀ (j : Nat) (pg : Page), p.pages[j]? = some pg → pg.in_ram = true ∨ pg.in_swap = true

/-- Invariant of the reachable states. -/
structure Inv (st : State) : Prop where
  core : Core st
  psz_pos : 0 < st.page_size_bytes
  psz_lt : st.page_size_bytes < 2 ^ 41
  table_len : st.simulation_running = true → st.processes.length = st.process_count
  procs : TableOk st.processes st.process_count st.page_size_bytes
  alive_lt : ∀ k, k < st.alive_count → arrGet st.alive_indices k < st.process_count
  fifo_len : st.fifo_queue.length = st.fifo_capacity
  fifo_cap : (st.fifo_capacity : Int) = st.ram_frame_count

/-- The fields that only `create_process`, `kill_random_process` and `end_simulation`
write are equal, and the two arrays kept their lengths. -/
structure SameParams (st st' : State) : Prop where
  process_count : st'.process_count = st.process_count
  page_size_bytes : st'.page_size_bytes = st.page_size_bytes
  simulation_running : st'.simulation_running = st.simulation_running
  processes_len : st'.processes.length = st.processes.length
  alive_indices : st'.alive_indices = st.alive_indices
  alive_count : st'.alive_count = st.alive_count
  fifo_capacity : st'.fifo_capacity = st.fifo_capacity
  fifo_len : st'.fifo_queue.length = st.fifo_queue.length
  ram_frame_count : st'.ram_frame_count = st.ram_frame_count

/-- Frame indices of the pages of a list that are in RAM, in page order. -/
def ramIdxs (ps : List Page) : List Nat :=
  ps.filterMap (fun pg => if pg.in_ram then some pg.frame_index.toNat else none)

/-- Swap-slot indices of the pages of a list that are in swap, in page order. -/
def swapIdxs (ps : List Page) : List Nat :=
  ps.filterMap (fun pg => if pg.in_swap then some pg.swap_index.toNat else none)

/-- The flag and index of a page for the frame pool. -/
def ramSel (pg : Page) : Bool × Int := (pg.in_ram, pg.frame_index)

/-- The flag and index of a page for the swap pool. -/
def swapSel (pg : Page) : Bool × Int := (pg.in_swap, pg.swap_index)

/-- Pool indices of the pages of a list whose flag is set; `ramIdxs` and `swapIdxs` are
the two instances. -/
def poolIdxs (sel : Page → Bool × Int) (ps : List Page) : List Nat :=
  ps.filterMap (fun pg => if (sel pg).1 then some (sel pg).2.toNat else none)

/-- The fields of a process that no write through a page pointer changes. -/
def Process.hdr (p : Process) : Nat × Nat × Int × Bool × Nat :=
  (p.pid, p.size_bytes, p.num_pages, p.alive, p.pages.length)

/-- Invariant of the placement loop of `create_process` before iteration `i`, for the
process at table index `idx` with `n` pages; `st0` is the state at loop entry. -/
structure CreateLoop (st0 : State) (idx n i : Nat) (cur : State) : Prop where
  core : Core cur
  params : SameParams st0 cur
  table : TableOk cur.processes st0.process_count st0.page_size_bytes
  entry : (cur.processes[idx]?).map Process.hdr = (st0.processes[idx]?).map Process.hdr
  len : ∃ q, cur.processes[idx]? = some q ∧ q.pages.length = n
  placed : ∀ (j : Nat) (pg : Page), pageAt cur idx j = some pg →
    (j < i → pg.in_ram = true ∨ pg.in_swap = true) ∧
    (i ≤ j → pg.in_ram = false ∧ pg.in_swap = false)

/-- The size in bytes that `create_process` draws from the `rand()` value `r` (lines
271-272). -/
def proc_size (r : Nat) : Nat :=
  mb_to_bytes ((MIN_PROC_MB + r % (MAX_PROC_MB - MIN_PROC_MB + 1) : Nat) : Int)

/-- The page count `create_process` computes for the `rand()` value `r` (line 273). -/
def proc_pages (st : State) (r : Nat) : Int := num_pages_of (proc_size r) st.page_size_bytes

/-- The table entry `create_process` writes before its loop (lines 275-281). -/
def new_process (st : State) (r : Nat) : Process :=
  { pid := st.next_pid
    size_bytes := proc_size r
    num_pages := proc_pages st r
    pages := List.replicate (proc_pages st r).toNat default
    alive := true }

/-- The state of `create_process` at the entry of its placement loop. -/
def create_entry (st : State) (r : Nat) : State :=
  { st with processes := arrSet st.processes st.process_count (new_process st r)
            next_pid := st.next_pid + 1 }

/-! ## Concrete states -/

/-- One frame and one swap slot of 1 MB: `init_memory` with 1 MB of physical memory,
pages of 1024 KB and 2 MB of virtual memory. -/
def smallInit : State := init_memory 1 1024 (2 * 2 ^ 20)

/-- Scenario A: in `smallInit`, a process of 2 MB, that is of two pages. -/
def scenarioA : State := create_process smallInit 1

/-- Scenario B: in `scenarioA`, an access to address `2 ^ 20`, the first byte of page 1. -/
def scenarioB : State := simulate_random_access scenarioA 0 (2 ^ 20)

/-- Scenario D: in `scenarioA`, the only process is terminated. -/
def scenarioD : State := kill_random_process scenarioA 0

/-! ## Vocabulary for the placement of a new process -/

/-- Indices of the free entries of a pool in increasing order; the first entry of the
list `a` has index `i`. -/
def freeFrom : List Frame → Nat → List Nat
  | [], _ => []
  | fr :: t, i => if fr.occupied then freeFrom t (i + 1) else i :: freeFrom t (i + 1)

/-- Indices of the free entries of a pool, lowest first. -/
def freeIdxs (pool : List Frame) : List Nat := freeFrom pool 0

/-- The ledger fields after `enqueue_frame_fifo` of each frame of `l`, in order. -/
def enqueueAll (st : State) (l : List Nat) : List Int × Nat × Nat :=
  let fin := l.foldl (fun s f => enqueue_frame_fifo s (f : Int)) st
  (fin.fifo_queue, fin.fifo_head, fin.fifo_size)

/-- The page record with number `j` of process `pid` that has been placed in the `m`-th
position of the placement order: the free frames `F` first, then the free slots `S`. -/
def placedPage (pid j : Nat) (F S : List Nat) (m : Nat) : Page :=
  if m < F.length then
    { pid := pid, page_number := j, in_ram := true, frame_index := (F.getD m 0 : Nat),
      in_swap := false, swap_index := -1 }
  else
    { pid := pid, page_number := j, in_ram := false, frame_index := -1,
      in_swap := true, swap_index := (S.getD (m - F.length) 0 : Nat) }

/-- The page that `simulate_random_access` addresses when the two `rand()` values are
`r1` and `r2` (lines 375-384): table index of the process, page number. -/
def accessed_ptr (st : State) (r1 r2 : Nat) : PagePtr :=
  (arrGet st.alive_indices (r1 % st.alive_count),
   (toInt32 ((r2 % (arrGet st.processes
      (arrGet st.alive_indices (r1 % st.alive_count))).size_bytes) /
        st.page_size_bytes)).toNat)

/-- Four frames and fourteen swap slots of 20 MB, so that every process has one page:
`init_memory` with 80 MB of physical memory, pages of 20480 KB and 4.5 times 80 MB of
virtual memory, which is what the `double` product gives for `rand() = RAND_MAX`. -/
def fourFrames : State := init_memory 80 20480 377487360

/-- The fifteen creations that `main` issues at seconds 2, 4, …, 30: P1 to P4 go to the
frames 0 to 3, P5 to P15 to the swap slots 0 to 10. -/
def fifoEarly : State := run fourFrames (List.replicate 15 (Op.create 0))

/-- What `main` issues next: at second 30 P1 is terminated (frame 0 becomes free) and the
page of P5 is accessed (it is loaded into frame 0); at seconds 32 and 34 P16 and P17 are
created (into swap); at second 35 P6, which is in swap, is terminated. -/
def fifoBefore : State :=
  run fifoEarly [Op.kill 0, Op.access 4 0, Op.create 0, Op.create 0, Op.kill 5]

/-- The access of second 35: the page of P7, which is in swap, is accessed. -/
def fifoAfter : State := simulate_random_access fifoBefore 6 0

/-! ## Vocabulary for the ledger and the live set -/

/-- The `n` ledger entries that `dequeue_frame_fifo` would read in turn, starting at cell
`h`: it reads `fifo_queue[fifo_head]` and moves to `(fifo_head + 1) % fifo_capacity`. -/
def ledger_from (q : List Int) (cap : Nat) : Nat → Nat → List Int
  | 0, _ => []
  | n + 1, h => q.getD h 0 :: ledger_from q cap n ((h + 1) % cap)

/-- The current entries of the FIFO ledger: the `fifo_size` entries starting at
`fifo_head`, in queue order. -/
def ledger (st : State) : List Int :=
  ledger_from st.fifo_queue st.fifo_capacity st.fifo_size st.fifo_head

/-- The test `ram_frames[frame_index].occupied` of line 237. -/
def frame_occupied (st : State) (e : Int) : Bool :=
  (st.ram_frames.getD e.toNat default).occupied

/-- Four frames, two one-page processes created, the first one terminated: the ledger
holds the stale entry of frame 0 and then the entry of frame 1. -/
def staleHead : State := run fourFrames [Op.create 0, Op.create 0, Op.kill 0]

/-- The ledger entry at distance `i` from the head. -/
def ledger_entry (st : State) (i : Nat) : Int :=
  st.fifo_queue.getD ((st.fifo_head + i) % st.fifo_capacity) 0

/-- Invariant of the ledger, with `k` entries of slack: the head is inside the buffer,
each of the `fifo_size` entries is a frame index that `enqueue_frame_fifo` wrote, and while
the simulation runs there are at most `fifo_size + k` occupied frames. -/
structure LedgerInv (k : Nat) (st : State) : Prop where
  ram_len : (st.ram_frames.length : Int) = st.ram_frame_count
  fifo_len : st.fifo_queue.length = st.fifo_capacity
  fifo_cap : (st.fifo_capacity : Int) = st.ram_frame_count
  head_lt : 0 < st.fifo_capacity → st.fifo_head < st.fifo_capacity
  entries : ∀ i, i < st.fifo_size → 0 ≤ ledger_entry st i ∧ ledger_entry st i < st.ram_frame_count
  size_ge : st.simulation_running = true → occupiedCount st.ram_frames ≤ st.fifo_size + k

/-- Invariant of the live set: the first `alive_count` entries of `alive_indices` are
table indices below `process_count` of processes with `alive = 1`, pairwise distinct, and
every such table index is among them. -/
structure LiveOk (st : State) : Prop where
  count_le : st.alive_count ≤ st.process_count
  procs_le : st.process_count ≤ MAX_PROCESSES
  lt : ∀ k, k < st.alive_count → arrGet st.alive_indices k < st.process_count
  alive : ∀ k, k < st.alive_count →
    (arrGet st.processes (arrGet st.alive_indices k)).alive = true
  distinct : ∀ k l, k < st.alive_count → l < st.alive_count →
    arrGet st.alive_indices k = arrGet st.alive_indices l → k = l
  cover : ∀ i, i < st.process_count → (arrGet st.processes i).alive = true →
    ∃ k, k < st.alive_count ∧ arrGet st.alive_indices k = i

/-- The live set and the `alive` flags of the table entries are the same in both
states. -/
structure LiveSame (st st' : State) : Prop where
  alive_indices : st'.alive_indices = st.alive_indices
  alive_count : st'.alive_count = st.alive_count
  process_count : st'.process_count = st.process_count
  flags : ∀ i, (arrGet st'.processes i).alive = (arrGet st.processes i).alive

/-! ## The start of `main` -/

/-- The two inputs that `main` rejects: a `scanf` that reads no `int` (lines 119-122 and
125-128). -/
inductive InputError where
  | physical_mem
  | page_size
deriving DecidableEq, Repr

/-- Lines 119-130 of `main`: the two `scanf` calls, then `init_memory`; `none` is an input
that `scanf` cannot read as an `int`.  There is no other exit before the simulation
loop. -/
def main_start (physical_mem_mb page_size_kb : Option Int) (virtual_mem_bytes : Nat) :
    Except InputError State :=
  match physical_mem_mb with
  | none => .error .physical_mem
  | some pm =>
    match page_size_kb with
    | none => .error .page_size
    | some pk => .ok (init_memory pm pk virtual_mem_bytes)

/-- Lines 171-175 of `main`: the check at the end of each iteration of the simulation
loop. -/
def main_memory_check (st : State) : State :=
  if st.simulation_running && st.free_ram_frames == 0 && st.free_swap_slots == 0 then
    end_simulation st
  else st

/-- A configuration with a negative swap-slot count: `init_memory` with `10 ^ 9` MB of
physical memory, pages of 1024 KB and 4.5 times the physical memory as virtual memory
(`rand() = RAND_MAX`); the `int` conversion of the `4.5 * 10 ^ 9` virtual pages wraps. -/
def hugeConfig : State := init_memory 1000000000 1024 4718592000000000

/-! ## The operations after the draw -/

/-- Lines 336-364: `kill_random_process` after it has drawn the position `pos` and read
the table index `idx = alive_indices[pos]`. -/
def kill_process (st : State) (pos idx : Nat) : State :=
  let p := arrGet st.processes idx
  if !p.alive then st
  else
    let st := kill_pages idx p.num_pages.toNat 0 st
    let st := { st with processes :=
                  arrSet st.processes idx { arrGet st.processes idx with alive := false, pages := [] } }
    { st with alive_indices :=
                arrSet st.alive_indices pos (arrGet st.alive_indices (st.alive_count - 1))
              alive_count := st.alive_count - 1 }

/-- Lines 378-473: `simulate_random_access` after it has read the table index
`idx = alive_indices[pos]`; `r2` is the value of the second call of `rand()`. -/
def access_process (st : State) (idx r2 : Nat) : State :=
  let p := arrGet st.processes idx
  if !p.alive then st
  else
    let addr := r2 % p.size_bytes
    let page_num := toInt32 (addr / st.page_size_bytes)
    let ptr : PagePtr := (idx, page_num.toNat)
    if (getPage st ptr).in_ram then st
    else
      let st := { st with total_page_faults := st.total_page_faults + 1 }
      if !(getPage st ptr).in_swap then
        let s := get_free_swap_slot st
        if s < 0 then end_simulation st
        else fault_load (put_in_swap st ptr s) ptr
      else fault_load st ptr

/-! ## Configurations whose counts wrap -/

/-- A configuration with a negative frame count: `init_memory` with 1073741823 MB of
physical memory and pages of 256 KB, so that the `int` conversion of the 4294967292 frames
wraps to `-4`, and the virtual memory that `rand() = 357913944` gives, which leaves 13
swap slots. -/
def wrappedFrames : State := init_memory 1073741823 256 2251799816044544

/-- A configuration with four frames and a negative swap-slot count: `init_memory` with
1073741825 MB of physical memory and pages of 256 KB, so that the 4294967300 frames wrap
to 4, and 1.5 times the physical memory as virtual memory (`rand() = 0`), whose page count
wraps to a negative `int`. -/
def wrappedSwap : State := init_memory 1073741825 256 1688849861836800

/-! ## A trace of `main` that loses a ledger entry -/

theorem countP_set_occ (l : List Frame) (f : Nat) (fr v : Frame) (h : l[f]? = some fr) :
    (occupiedCount (l.set f v) : Int) + (if fr.occupied then 1 else 0) =
    (occupiedCount l : Int) + (if v.occupied then 1 else 0) := by
  induction l generalizing f with
  | nil => simp at h
  | cons a t ih =>
    cases f with
    | zero =>
      simp at h
      subst h
      simp only [occupiedCount, List.set_cons_zero, List.countP_cons]
      push_cast
      omega
    | succ n =>
      simp at h
      have := ih n h
      simp only [occupiedCount, List.set_cons_succ, List.countP_cons] at this ⊢
      push_cast
      omega

theorem freeAll_length (l : List Nat) (pool : List Frame) :
    (freeAll pool l).length = pool.length := by
  induction l generalizing pool with
  | nil => rfl
  | cons a t ih => simp [freeAll, List.foldl] at ih ⊢; rw [ih]; simp

theorem getElem?_set_self_map {α : Type} (l : List α) (a : Nat) (v : α) :
    (l.set a v)[a]? = (l[a]?).map (fun _ => v) := by
  rw [List.getElem?_set]
  by_cases h : a < l.length
  · simp [h, List.getElem?_eq_getElem]
  · simp [h, List.getElem?_eq_none (not_lt.mp h)]

theorem freeAll_getElem? (l : List Nat) (pool : List Frame) (f : Nat) :
    (freeAll pool l)[f]? =
      if f ∈ l then (pool[f]?).map (fun _ => (⟨false, none⟩ : Frame)) else pool[f]? := by
  induction l generalizing pool with
  | nil => simp [freeAll]
  | cons a t ih =>
    have h1 : freeAll pool (a :: t) = freeAll (pool.set a ⟨false, none⟩) t := rfl
    rw [h1, ih]
    by_cases haf : a = f
    · subst haf
      rw [getElem?_set_self_map]
      by_cases hft : a ∈ t
      · simp only [hft, List.mem_cons, true_or, if_true]
        cases pool[a]? <;> rfl
      · simp [hft]
    · rw [List.getElem?_set_ne haf]
      have hfa : ¬ f = a := fun h => haf h.symm
      simp [hfa]

theorem freeAll_countP (l : List Nat) (pool : List Frame) (hnd : l.Nodup)
    (hocc : ∀ f ∈ l, ∃ fr, pool[f]? = some fr ∧ fr.occupied = true) :
    (occupiedCount (freeAll pool l) : Int) + l.length =
      (occupiedCount pool : Int) := by
  induction l generalizing pool with
  | nil => simp [freeAll]
  | cons a t ih =>
    have h1 : freeAll pool (a :: t) = freeAll (pool.set a ⟨false, none⟩) t := rfl
    rw [h1]
    obtain ⟨fr, hfr, hfo⟩ := hocc a (by simp)
    have hc := countP_set_occ pool a fr ⟨false, none⟩ hfr
    simp [hfo] at hc
    have hnd' := (List.nodup_cons.mp hnd)
    have := ih (pool.set a ⟨false, none⟩) hnd'.2 (by
      intro f hf
      obtain ⟨fr', hfr', hfo'⟩ := hocc f (by simp [hf])
      refine ⟨fr', ?_, hfo'⟩
      have : a ≠ f := by
        intro h; subst h; exact hnd'.1 hf
      rw [List.getElem?_set_ne this]; exact hfr')
    simp only [List.length_cons]
    push_cast
    omega


/-! ## Back-pointers under the elementary updates -/

theorem Linked.of_true_iff {pool : List Frame} {V V' : View} (h : Linked pool V)
    (hV : ∀ i j x, V' i j = some (true, x) ↔ V i j = some (true, x)) : Linked pool V' := by
  refine ⟨?_, ?_⟩
  · intro f fr hf ho
    obtain ⟨i, j, hp, hv⟩ := h.1 f fr hf ho
    exact ⟨i, j, hp, (hV i j _).mpr hv⟩
  · intro i j x hx
    exact h.2 i j x ((hV i j x).mp hx)

theorem Linked.occupy {pool : List Frame} {V V' : View} (h : Linked pool V)
    {f0 : Nat} {fr0 : Frame} {i0 j0 : Nat}
    (hf : pool[f0]? = some fr0) (hfree : fr0.occupied = false)
    (hnot : ∀ x, V i0 j0 ≠ some (true, x))
    (hnew : V' i0 j0 = some (true, (f0 : Int)))
    (hother : ∀ i j, (i, j) ≠ (i0, j0) → V' i j = V i j) :
    Linked (pool.set f0 ⟨true, some (i0, j0)⟩) V' := by
  have hlt : f0 < pool.length := (List.getElem?_eq_some.mp hf).1
  refine ⟨?_, ?_⟩
  · intro f fr hfr ho
    by_cases hff : f0 = f
    · subst hff
      rw [getElem?_set_self_map, hf] at hfr
      simp at hfr
      subst hfr
      exact ⟨i0, j0, rfl, hnew⟩
    · rw [List.getElem?_set_ne hff] at hfr
      obtain ⟨i, j, hp, hv⟩ := h.1 f fr hfr ho
      have hne : (i, j) ≠ (i0, j0) := by
        intro he
        simp only [Prod.mk.injEq] at he
        obtain ⟨rfl, rfl⟩ := he
        exact hnot _ hv
      exact ⟨i, j, hp, by rw [hother i j hne]; exact hv⟩
  · intro i j x hx
    by_cases he : (i, j) = (i0, j0)
    · simp only [Prod.mk.injEq] at he
      obtain ⟨rfl, rfl⟩ := he
      rw [hnew] at hx
      simp at hx
      refine ⟨f0, hx.symm, ?_⟩
      rw [getElem?_set_self_map, hf]; rfl
    · rw [hother i j he] at hx
      obtain ⟨f, hxf, hpf⟩ := h.2 i j x hx
      refine ⟨f, hxf, ?_⟩
      have hff : f0 ≠ f := by
        intro hff; subst hff
        rw [hf] at hpf
        simp at hpf
        rw [hpf] at hfree
        simp at hfree
      rw [List.getElem?_set_ne hff]; exact hpf

theorem Linked.release {pool : List Frame} {V V' : View} (h : Linked pool V)
    {f0 : Nat} {i0 j0 : Nat}
    (hold : V i0 j0 = some (true, (f0 : Int)))
    (hnew : ∀ x, V' i0 j0 ≠ some (true, x))
    (hother : ∀ i j, (i, j) ≠ (i0, j0) → V' i j = V i j) :
    Linked (pool.set f0 ⟨false, none⟩) V' := by
  obtain ⟨g, hg, hpg⟩ := h.2 i0 j0 _ hold
  have hgf : g = f0 := by exact_mod_cast hg.symm
  subst hgf
  refine ⟨?_, ?_⟩
  · intro f fr hfr ho
    by_cases hff : g = f
    · subst hff
      rw [getElem?_set_self_map, hpg] at hfr
      simp at hfr
      subst hfr
      simp at ho
    · rw [List.getElem?_set_ne hff] at hfr
      obtain ⟨i, j, hp, hv⟩ := h.1 f fr hfr ho
      have hne : (i, j) ≠ (i0, j0) := by
        intro he
        simp only [Prod.mk.injEq] at he
        obtain ⟨rfl, rfl⟩ := he
        rw [hold] at hv
        simp at hv
        exact hff hv
      exact ⟨i, j, hp, by rw [hother i j hne]; exact hv⟩
  · intro i j x hx
    have hne : (i, j) ≠ (i0, j0) := by
      intro he
      simp only [Prod.mk.injEq] at he
      obtain ⟨rfl, rfl⟩ := he
      exact hnew x hx
    rw [hother i j hne] at hx
    obtain ⟨f, hxf, hpf⟩ := h.2 i j x hx
    refine ⟨f, hxf, ?_⟩
    have hff : g ≠ f := by
      intro hff; subst hff
      rw [hpg] at hpf
      simp at hpf
      exact hne (by simp [hpf.1, hpf.2])
    rw [List.getElem?_set_ne hff]; exact hpf

/-! ## Reading the table after a write through a page pointer -/

theorem arrGet_eq_of_getElem? {α : Type} [Inhabited α] {l : List α} {i : Nat} {a : α}
    (h : l[i]? = some a) : arrGet l i = a := by
  simp [arrGet, h]

theorem modPage_processes_getElem? (st : State) (ptr : PagePtr) (g : Page → Page) (i : Nat) :
    (modPage st ptr g).processes[i]? =
      (st.processes[i]?).map (fun p =>
        if i = ptr.1 then { p with pages := p.pages.set ptr.2 (g (p.pages.getD ptr.2 default)) }
        else p) := by
  unfold modPage
  simp only
  by_cases hi : ptr.1 = i
  · subst hi
    rw [getElem?_set_self_map]
    cases hp : st.processes[ptr.1]? with
    | none => simp
    | some p =>
      simp [getPage, arrGet_eq_of_getElem? hp]
  · rw [List.getElem?_set_ne hi]
    have : ¬ i = ptr.1 := fun h => hi h.symm
    cases hp : st.processes[i]? <;> simp [this]

theorem pageAt_modPage (st : State) (i0 j0 : Nat) (g : Page → Page) (i j : Nat) :
    pageAt (modPage st (i0, j0) g) i j =
      if i = i0 ∧ j = j0 then (pageAt st i j).map g else pageAt st i j := by
  unfold pageAt
  rw [modPage_processes_getElem?]
  cases hp : st.processes[i]? with
  | none => simp
  | some p =>
    by_cases hi : i = i0
    · subst hi
      by_cases hj : j = j0
      · subst hj
        simp only [Option.map_some', if_true, Option.some_bind, and_self]
        rw [getElem?_set_self_map]
        cases hq : p.pages[j]? <;> simp [hq]
      · have : j0 ≠ j := fun h => hj h.symm
        simp [hj, List.getElem?_set_ne this]
    · simp [hi]

theorem scan_free_spec (a : List Frame) : ∀ (k i : Nat),
    (scan_free a k i = -1 ∧ ∀ j, i ≤ j → j < i + k → (a.getD j default).occupied = true) ∨
    (∃ f : Nat, scan_free a k i = (f : Int) ∧ i ≤ f ∧ f < i + k ∧
      (a.getD f default).occupied = false ∧
      ∀ j, i ≤ j → j < f → (a.getD j default).occupied = true) := by
  intro k
  induction k with
  | zero =>
    intro i
    left
    refine ⟨rfl, ?_⟩
    intro j h1 h2
    omega
  | succ n ih =>
    intro i
    unfold scan_free
    by_cases ho : (a.getD i default).occupied = true
    · simp only [ho, Bool.not_true, Bool.false_eq_true, if_false]
      rcases ih (i + 1) with ⟨h1, h2⟩ | ⟨f, h1, h2, h3, h4, h5⟩
      · left
        refine ⟨h1, ?_⟩
        intro j hj1 hj2
        by_cases hji : j = i
        · subst hji; exact ho
        · exact h2 j (by omega) (by omega)
      · right
        refine ⟨f, h1, by omega, by omega, h4, ?_⟩
        intro j hj1 hj2
        by_cases hji : j = i
        · subst hji; exact ho
        · exact h5 j (by omega) hj2
    · right
      simp only [Bool.not_eq_true] at ho
      refine ⟨i, by rw [ho]; rfl, le_refl _, by omega, ho, ?_⟩
      intro j h1 h2
      omega

/-- What a successful scan of a pool of the stated length returns. -/
theorem scan_free_found {a : List Frame} {n : Nat} {f : Int} (hlen : a.length = n)
    (h : scan_free a n 0 = f) (hf : 0 ≤ f) :
    ∃ fr, a[f.toNat]? = some fr ∧ fr.occupied = false ∧ f = (f.toNat : Int) := by
  rcases scan_free_spec a n 0 with ⟨h1, _⟩ | ⟨g, h1, _, h3, h4, _⟩
  · rw [h] at h1; omega
  · rw [h] at h1
    subst h1
    have hlt : g < a.length := by omega
    refine ⟨a[g], by simp [List.getElem?_eq_getElem hlt], ?_, by simp⟩
    simpa [List.getD_eq_getElem?_getD, List.getElem?_eq_getElem hlt] using h4

/-- A failed scan of a pool of the stated length: every entry is occupied. -/
theorem scan_free_none {a : List Frame} {n : Nat} {f : Int} (hlen : a.length = n)
    (h : scan_free a n 0 = f) (hf : f < 0) :
    ∀ (j : Nat) (fr : Frame), a[j]? = some fr → fr.occupied = true := by
  rcases scan_free_spec a n 0 with ⟨_, h2⟩ | ⟨g, h1, _, _, _, _⟩
  · intro j fr hj
    have hlt : j < a.length := (List.getElem?_eq_some.mp hj).1
    have := h2 j (Nat.zero_le _) (by omega)
    simpa [List.getD_eq_getElem?_getD, hj] using this
  · rw [h] at h1; omega

theorem pageAt_congr {st st' : State} (h : st'.processes = st.processes) (i j : Nat) :
    pageAt st' i j = pageAt st i j := by
  unfold pageAt; rw [h]

theorem Core.free_frame {st : State} (h : Core st) {f : Int}
    (hf : get_free_ram_frame st = f) (h0 : 0 ≤ f) :
    ∃ fr, st.ram_frames[f.toNat]? = some fr ∧ fr.occupied = false ∧ f = (f.toNat : Int) :=
  scan_free_found (by have := h.ram_len; omega) hf h0

theorem Core.free_slot {st : State} (h : Core st) {s : Int}
    (hs : get_free_swap_slot st = s) (h0 : 0 ≤ s) :
    ∃ fr, st.swap_slots[s.toNat]? = some fr ∧ fr.occupied = false ∧ s = (s.toNat : Int) :=
  scan_free_found (by have := h.swap_len; omega) hs h0

/-- Placing a page that is in neither pool into a free frame keeps the pool invariants. -/
theorem core_put_in_ram {st : State} (h : Core st) {i0 j0 : Nat} {pg : Page} {f : Int}
    (hpg : pageAt st i0 j0 = some pg) (hnr : pg.in_ram = false) (hns : pg.in_swap = false)
    (hf : get_free_ram_frame st = f) (h0 : 0 ≤ f) :
    Core (put_in_ram st (i0, j0) f) := by
  obtain ⟨fr, hfr, hfree, hfn⟩ := h.free_frame hf h0
  have hP : ∀ i j, pageAt (put_in_ram st (i0, j0) f) i j =
      if i = i0 ∧ j = j0 then
        (pageAt st i j).map (fun pg => { pg with in_ram := true, frame_index := f })
      else pageAt st i j := by
    intro i j
    rw [← pageAt_modPage]
    exact pageAt_congr rfl i j
  have hram : (put_in_ram st (i0, j0) f).ram_frames =
      st.ram_frames.set f.toNat ⟨true, some (i0, j0)⟩ := rfl
  have hswap : (put_in_ram st (i0, j0) f).swap_slots = st.swap_slots := rfl
  have hc := countP_set_occ st.ram_frames f.toNat fr ⟨true, some (i0, j0)⟩ hfr
  simp only [hfree, Bool.false_eq_true, if_false, if_true] at hc
  refine ⟨?_, h.swap_len, ?_, h.swap_occ, ?_, ?_, ?_⟩
  · rw [hram, List.length_set]; exact h.ram_len
  · rw [hram]
    show _ + (st.free_ram_frames - 1) = st.ram_frame_count
    have := h.ram_occ
    omega
  · rw [hram]
    refine h.ram_link.occupy hfr hfree ?_ ?_ ?_
    · intro x hx
      simp [ramView, hpg, hnr] at hx
    · simp only [ramView, hP, and_self, if_true, hpg, Option.map_some']
      rw [← hfn]
    · intro i j hne
      have : ¬ (i = i0 ∧ j = j0) := by
        intro ⟨h1, h2⟩; exact hne (by rw [h1, h2])
      simp only [ramView, hP, this, if_false]
  · rw [hswap]
    refine h.swap_link.of_true_iff ?_
    intro i j x
    simp only [swapView, hP]
    by_cases he : i = i0 ∧ j = j0
    · obtain ⟨rfl, rfl⟩ := he
      simp [hpg]
    · simp [he]
  · intro i j q hq
    rw [hP] at hq
    by_cases he : i = i0 ∧ j = j0
    · obtain ⟨rfl, rfl⟩ := he
      simp [hpg] at hq
      subst hq
      simp [hns]
    · simp only [he, if_false] at hq
      exact h.not_both i j q hq

/-- Placing a page that is in neither pool into a free swap slot keeps the pool
invariants. -/
theorem core_put_in_swap {st : State} (h : Core st) {i0 j0 : Nat} {pg : Page} {s : Int}
    (hpg : pageAt st i0 j0 = some pg) (hnr : pg.in_ram = false) (hns : pg.in_swap = false)
    (hs : get_free_swap_slot st = s) (h0 : 0 ≤ s) :
    Core (put_in_swap st (i0, j0) s) := by
  obtain ⟨fr, hfr, hfree, hfn⟩ := h.free_slot hs h0
  have hP : ∀ i j, pageAt (put_in_swap st (i0, j0) s) i j =
      if i = i0 ∧ j = j0 then
        (pageAt st i j).map (fun pg => { pg with in_swap := true, swap_index := s })
      else pageAt st i j := by
    intro i j
    rw [← pageAt_modPage]
    exact pageAt_congr rfl i j
  have hswap : (put_in_swap st (i0, j0) s).swap_slots =
      st.swap_slots.set s.toNat ⟨true, some (i0, j0)⟩ := rfl
  have hram : (put_in_swap st (i0, j0) s).ram_frames = st.ram_frames := rfl
  have hc := countP_set_occ st.swap_slots s.toNat fr ⟨true, some (i0, j0)⟩ hfr
  simp only [hfree, Bool.false_eq_true, if_false, if_true] at hc
  refine ⟨h.ram_len, ?_, h.ram_occ, ?_, ?_, ?_, ?_⟩
  · rw [hswap, List.length_set]; exact h.swap_len
  · rw [hswap]
    show _ + (st.free_swap_slots - 1) = st.swap_slot_count
    have := h.swap_occ
    omega
  · rw [hram]
    refine h.ram_link.of_true_iff ?_
    intro i j x
    simp only [ramView, hP]
    by_cases he : i = i0 ∧ j = j0
    · obtain ⟨rfl, rfl⟩ := he
      simp [hpg]
    · simp [he]
  · rw [hswap]
    refine h.swap_link.occupy hfr hfree ?_ ?_ ?_
    · intro x hx
      simp [swapView, hpg, hns] at hx
    · simp only [swapView, hP, and_self, if_true, hpg, Option.map_some']
      rw [← hfn]
    · intro i j hne
      have : ¬ (i = i0 ∧ j = j0) := by
        intro ⟨h1, h2⟩; exact hne (by rw [h1, h2])
      simp only [swapView, hP, this, if_false]
  · intro i j q hq
    rw [hP] at hq
    by_cases he : i = i0 ∧ j = j0
    · obtain ⟨rfl, rfl⟩ := he
      simp [hpg] at hq
      subst hq
      simp [hnr]
    · simp only [he, if_false] at hq
      exact h.not_both i j q hq

/-- Evicting the page of an occupied frame into a free swap slot keeps the pool
invariants, leaves the frame free and touches no page that is not in RAM. -/
theorem core_evict_victim {st : State} (h : Core st) {vf s : Int} {fr : Frame}
    (hvf : st.ram_frames[vf.toNat]? = some fr) (hocc : fr.occupied = true)
    (hs : get_free_swap_slot st = s) (h0 : 0 ≤ s) :
    Core (evict_victim st vf s) ∧
    (evict_victim st vf s).ram_frames[vf.toNat]? = some ⟨false, none⟩ ∧
    ∃ iv jv, fr.page = some (iv, jv) ∧
      (evict_victim st vf s).processes =
        (modPage st (iv, jv)
          (fun pg => { pg with in_ram := false, in_swap := true, swap_index := s })).processes ∧
      ∃ pv, pageAt st iv jv = some pv ∧ pv.in_ram = true := by
  obtain ⟨sl, hsl, hfree, hsn⟩ := h.free_slot hs h0
  obtain ⟨iv, jv, hpage, hview⟩ := h.ram_link.1 _ fr hvf hocc
  have hview' := hview
  simp only [ramView, Option.map_eq_some'] at hview
  obtain ⟨pv, hpv, hpv2⟩ := hview
  simp only [Prod.mk.injEq] at hpv2
  obtain ⟨hpr, hpf⟩ := hpv2
  have hps : pv.in_swap = false := by
    have := h.not_both iv jv pv hpv
    simp [hpr] at this
    exact this
  have hvic : (st.ram_frames.getD vf.toNat default).page = some (iv, jv) := by
    simp [List.getD_eq_getElem?_getD, hvf, hpage]
  have hprocs : (evict_victim st vf s).processes =
        (modPage st (iv, jv)
          (fun pg => { pg with in_ram := false, in_swap := true, swap_index := s })).processes := by
    simp only [evict_victim, hvic, modPageOpt]
    rfl
  have hP : ∀ i j, pageAt (evict_victim st vf s) i j =
      if i = iv ∧ j = jv then
        (pageAt st i j).map
          (fun pg => { pg with in_ram := false, in_swap := true, swap_index := s })
      else pageAt st i j := by
    intro i j
    rw [← pageAt_modPage]
    exact pageAt_congr hprocs i j
  have hram : (evict_victim st vf s).ram_frames =
      st.ram_frames.set vf.toNat ⟨false, none⟩ := by
    simp only [evict_victim, hvic, modPageOpt]
    rfl
  have hswap : (evict_victim st vf s).swap_slots =
      st.swap_slots.set s.toNat ⟨true, some (iv, jv)⟩ := by
    simp only [evict_victim, hvic, modPageOpt]
    rfl
  have hfr : (evict_victim st vf s).free_ram_frames = st.free_ram_frames + 1 := by
    simp only [evict_victim, hvic, modPageOpt]
    rfl
  have hfs : (evict_victim st vf s).free_swap_slots = st.free_swap_slots - 1 := by
    simp only [evict_victim, hvic, modPageOpt]
    rfl
  have hrc : (evict_victim st vf s).ram_frame_count = st.ram_frame_count := by
    simp only [evict_victim, hvic, modPageOpt]
    rfl
  have hsc : (evict_victim st vf s).swap_slot_count = st.swap_slot_count := by
    simp only [evict_victim, hvic, modPageOpt]
    rfl
  have hc1 := countP_set_occ st.ram_frames vf.toNat fr ⟨false, none⟩ hvf
  have hc2 := countP_set_occ st.swap_slots s.toNat sl ⟨true, some (iv, jv)⟩ hsl
  simp only [hfree, hocc, Bool.false_eq_true, if_false, if_true] at hc1 hc2
  refine ⟨⟨?_, ?_, ?_, ?_, ?_, ?_, ?_⟩, ?_, iv, jv, hpage, hprocs, pv, hpv, hpr⟩
  · rw [hram, List.length_set, hrc]; exact h.ram_len
  · rw [hswap, List.length_set, hsc]; exact h.swap_len
  · rw [hram, hfr, hrc]
    have := h.ram_occ
    omega
  · rw [hswap, hfs, hsc]
    have := h.swap_occ
    omega
  · rw [hram]
    refine h.ram_link.release hview' ?_ ?_
    · intro x hx
      simp [ramView, hP, hpv] at hx
    · intro i j hne
      have : ¬ (i = iv ∧ j = jv) := by
        intro ⟨h1, h2⟩; exact hne (by rw [h1, h2])
      simp only [ramView, hP, this, if_false]
  · rw [hswap]
    refine h.swap_link.occupy hsl hfree ?_ ?_ ?_
    · intro x hx
      simp [swapView, hpv, hps] at hx
    · simp only [swapView, hP, and_self, if_true, hpv, Option.map_some']
      rw [← hsn]
    · intro i j hne
      have : ¬ (i = iv ∧ j = jv) := by
        intro ⟨h1, h2⟩; exact hne (by rw [h1, h2])
      simp only [swapView, hP, this, if_false]
  · intro i j q hq
    rw [hP] at hq
    by_cases he : i = iv ∧ j = jv
    · obtain ⟨rfl, rfl⟩ := he
      simp [hpv] at hq
      subst hq
      simp
    · simp only [he, if_false] at hq
      exact h.not_both i j q hq
  · rw [hram, getElem?_set_self_map, hvf]; rfl

theorem getPage_of_pageAt {st : State} {i j : Nat} {pg : Page}
    (h : pageAt st i j = some pg) : getPage st (i, j) = pg := by
  unfold pageAt at h
  cases hp : st.processes[i]? with
  | none => simp [hp] at h
  | some p =>
    simp [hp] at h
    simp [getPage, arrGet, hp, h]

/-- The state after `load_page`, when the page has a swap slot. -/
theorem load_page_eq {st : State} {i0 j0 : Nat} {pg : Page} (f : Int)
    (hpg : pageAt st i0 j0 = some pg) (hold : 0 ≤ pg.swap_index) :
    load_page st (i0, j0) f =
      { modPage st (i0, j0)
          (fun pg => { pg with in_ram := true, frame_index := f, in_swap := false,
                               swap_index := -1 }) with
        swap_slots := st.swap_slots.set pg.swap_index.toNat ⟨false, none⟩
        free_swap_slots := st.free_swap_slots + 1
        ram_frames := st.ram_frames.set f.toNat ⟨true, some (i0, j0)⟩
        free_ram_frames := st.free_ram_frames - 1
        fifo_queue := st.fifo_queue.set ((st.fifo_head + st.fifo_size) % st.fifo_capacity) f
        fifo_size := st.fifo_size + 1
        total_pages_loaded_from_swap := st.total_pages_loaded_from_swap + 1 } := by
  simp only [load_page, getPage_of_pageAt hpg, hold, if_true]
  rfl

/-- Loading a swapped-out page into a free frame keeps the pool invariants. -/
theorem core_load_page {st : State} (h : Core st) {i0 j0 : Nat} {pg : Page} {f : Int}
    {fr : Frame}
    (hpg : pageAt st i0 j0 = some pg) (hnr : pg.in_ram = false) (hsw : pg.in_swap = true)
    (hf : st.ram_frames[f.toNat]? = some fr) (hfree : fr.occupied = false)
    (hfn : f = (f.toNat : Int)) :
    Core (load_page st (i0, j0) f) ∧ 0 ≤ pg.swap_index := by
  have hview : swapView st i0 j0 = some (true, pg.swap_index) := by
    simp [swapView, hpg, hsw]
  obtain ⟨k, hk, hslot⟩ := h.swap_link.2 i0 j0 _ hview
  have hold : 0 ≤ pg.swap_index := by omega
  have hkn : pg.swap_index.toNat = k := by omega
  refine ⟨?_, hold⟩
  have hP : ∀ i j, pageAt (load_page st (i0, j0) f) i j =
      if i = i0 ∧ j = j0 then
        (pageAt st i j).map
          (fun pg => { pg with in_ram := true, frame_index := f, in_swap := false,
                               swap_index := -1 })
      else pageAt st i j := by
    intro i j
    rw [load_page_eq f hpg hold, ← pageAt_modPage]
    exact pageAt_congr rfl i j
  have hram : (load_page st (i0, j0) f).ram_frames =
      st.ram_frames.set f.toNat ⟨true, some (i0, j0)⟩ := by
    rw [load_page_eq f hpg hold]
  have hswap : (load_page st (i0, j0) f).swap_slots =
      st.swap_slots.set k ⟨false, none⟩ := by
    rw [load_page_eq f hpg hold, hkn]
  have hfr : (load_page st (i0, j0) f).free_ram_frames = st.free_ram_frames - 1 := by
    rw [load_page_eq f hpg hold]
  have hfs : (load_page st (i0, j0) f).free_swap_slots = st.free_swap_slots + 1 := by
    rw [load_page_eq f hpg hold]
  have hrc : (load_page st (i0, j0) f).ram_frame_count = st.ram_frame_count := by
    rw [load_page_eq f hpg hold]; rfl
  have hsc : (load_page st (i0, j0) f).swap_slot_count = st.swap_slot_count := by
    rw [load_page_eq f hpg hold]; rfl
  have hc1 := countP_set_occ st.ram_frames f.toNat fr ⟨true, some (i0, j0)⟩ hf
  have hc2 := countP_set_occ st.swap_slots k _ ⟨false, none⟩ hslot
  simp only [hfree, Bool.false_eq_true, if_false, if_true] at hc1 hc2
  refine ⟨?_, ?_, ?_, ?_, ?_, ?_, ?_⟩
  · rw [hram, List.length_set, hrc]; exact h.ram_len
  · rw [hswap, List.length_set, hsc]; exact h.swap_len
  · rw [hram, hfr, hrc]
    have := h.ram_occ
    omega
  · rw [hswap, hfs, hsc]
    have := h.swap_occ
    omega
  · rw [hram]
    refine h.ram_link.occupy hf hfree ?_ ?_ ?_
    · intro x hx
      simp [ramView, hpg, hnr] at hx
    · simp only [ramView, hP, and_self, if_true, hpg, Option.map_some']
      rw [← hfn]
    · intro i j hne
      have : ¬ (i = i0 ∧ j = j0) := by
        intro ⟨h1, h2⟩; exact hne (by rw [h1, h2])
      simp only [ramView, hP, this, if_false]
  · rw [hswap]
    rw [hk] at hview
    refine h.swap_link.release hview ?_ ?_
    · intro x hx
      simp [swapView, hP, hpg] at hx
    · intro i j hne
      have : ¬ (i = i0 ∧ j = j0) := by
        intro ⟨h1, h2⟩; exact hne (by rw [h1, h2])
      simp only [swapView, hP, this, if_false]
  · intro i j q hq
    rw [hP] at hq
    by_cases he : i = i0 ∧ j = j0
    · obtain ⟨rfl, rfl⟩ := he
      simp [hpg] at hq
      subst hq
      simp
    · simp only [he, if_false] at hq
      exact h.not_both i j q hq

/-! ## The invariant under the access path -/

theorem modPage_sameParams (st : State) (ptr : PagePtr) (g : Page → Page) :
    SameParams st (modPage st ptr g) :=
  ⟨rfl, rfl, rfl, by simp [modPage], rfl, rfl, rfl, rfl, rfl⟩

theorem SameParams.trans {a b c : State} (h1 : SameParams a b) (h2 : SameParams b c) :
    SameParams a c :=
  ⟨h2.1.trans h1.1, h2.2.trans h1.2, h2.3.trans h1.3, h2.4.trans h1.4, h2.5.trans h1.5,
    h2.6.trans h1.6, h2.7.trans h1.7, h2.8.trans h1.8, h2.9.trans h1.9⟩

theorem put_in_swap_sameParams (st : State) (ptr : PagePtr) (s : Int) :
    SameParams st (put_in_swap st ptr s) :=
  ⟨rfl, rfl, rfl, by simp [put_in_swap, modPage], rfl, rfl, rfl, rfl, rfl⟩

theorem put_in_ram_sameParams (st : State) (ptr : PagePtr) (f : Int) :
    SameParams st (put_in_ram st ptr f) :=
  ⟨rfl, rfl, rfl, by simp [put_in_ram, enqueue_frame_fifo, modPage], rfl, rfl, rfl,
    by simp [put_in_ram, enqueue_frame_fifo, modPage], rfl⟩

theorem evict_victim_sameParams (st : State) (vf s : Int) :
    SameParams st (evict_victim st vf s) := by
  unfold evict_victim
  cases (st.ram_frames.getD vf.toNat default).page with
  | none => exact ⟨rfl, rfl, rfl, rfl, rfl, rfl, rfl, rfl, rfl⟩
  | some p => exact ⟨rfl, rfl, rfl, by simp [modPageOpt, modPage], rfl, rfl, rfl, rfl, rfl⟩

theorem load_page_sameParams (st : State) (ptr : PagePtr) (f : Int) :
    SameParams st (load_page st ptr f) := by
  unfold load_page
  by_cases h : 0 ≤ (getPage st ptr).swap_index
  · simp only [h, if_true]
    exact ⟨rfl, rfl, rfl, by simp [enqueue_frame_fifo, modPage], rfl, rfl, rfl,
      by simp [enqueue_frame_fifo, modPage], rfl⟩
  · simp only [h, if_false]
    exact ⟨rfl, rfl, rfl, by simp [enqueue_frame_fifo, modPage], rfl, rfl, rfl,
      by simp [enqueue_frame_fifo, modPage], rfl⟩

theorem tableOk_modPage {st : State} {n psz : Nat} (h : TableOk st.processes n psz)
    (ptr : PagePtr) (g : Page → Page)
    (hg : ∀ pg : Page, (pg.in_ram = true ∨ pg.in_swap = true) →
      ((g pg).in_ram = true ∨ (g pg).in_swap = true)) :
    TableOk (modPage st ptr g).processes n psz := by
  intro i p hp hi ha
  rw [modPage_processes_getElem?] at hp
  cases hq : st.processes[i]? with
  | none => simp [hq] at hp
  | some q =>
    simp only [hq, Option.map_some', Option.some.injEq] at hp
    by_cases hptr : i = ptr.1
    · simp only [hptr, if_true] at hp
      subst hp
      obtain ⟨h1, h2, h3, h4, h5⟩ := h i q hq hi ha
      refine ⟨h1, h2, by simpa using h3, by simpa using h4, ?_⟩
      intro j pg hj
      simp only at hj
      by_cases hjj : ptr.2 = j
      · subst hjj
        rw [getElem?_set_self_map] at hj
        cases hqp : q.pages[ptr.2]? with
        | none => simp [hqp] at hj
        | some q0 =>
          simp [hqp] at hj
          subst hj
          exact hg q0 (h5 _ q0 hqp)
      · rw [List.getElem?_set_ne hjj] at hj
        exact h5 j pg hj
    · simp only [hptr, if_false] at hp
      subst hp
      exact h i q hq hi ha

theorem Inv.of_parts {st st' : State} (h : Inv st) (hc : Core st') (hp : SameParams st st')
    (ht : TableOk st'.processes st.process_count st.page_size_bytes) : Inv st' := by
  refine ⟨hc, by rw [hp.2]; exact h.psz_pos, by rw [hp.2]; exact h.psz_lt, ?_, ?_, ?_, ?_, ?_⟩
  · intro hr
    rw [hp.3] at hr
    rw [hp.4, hp.1]
    exact h.table_len hr
  · rw [hp.1, hp.2]; exact ht
  · rw [hp.5, hp.6, hp.1]; exact h.alive_lt
  · rw [hp.8, hp.7]; exact h.fifo_len
  · rw [hp.7, hp.9]; exact h.fifo_cap

theorem Inv.end_simulation {st : State} (h : Inv st) : Inv (end_simulation st) := by
  unfold SimPag.end_simulation
  by_cases hr : st.simulation_running = true
  · simp only [hr, Bool.not_true, Bool.false_eq_true, if_false]
    exact ⟨⟨h.core.ram_len, h.core.swap_len, h.core.ram_occ, h.core.swap_occ,
      h.core.ram_link, h.core.swap_link, h.core.not_both⟩, h.psz_pos, h.psz_lt,
      by intro hc; simp at hc, h.procs, h.alive_lt, h.fifo_len, h.fifo_cap⟩
  · simp only [Bool.not_eq_true] at hr
    simp only [hr, Bool.not_false, if_true]
    exact h

theorem toInt32_of_lt {n : Nat} (h : n < 2 ^ 31) : toInt32 n = (n : Int) := by
  unfold toInt32
  have h1 : n % 2 ^ 32 = n := Nat.mod_eq_of_lt (by omega)
  rw [h1, if_pos h]

theorem dequeue_loop_spec : ∀ (n : Nat) (st : State),
    (dequeue_loop n st).2 =
      { st with fifo_head := (dequeue_loop n st).2.fifo_head
                fifo_size := (dequeue_loop n st).2.fifo_size } ∧
    (0 ≤ (dequeue_loop n st).1 →
      ∃ fr, st.ram_frames[(dequeue_loop n st).1.toNat]? = some fr ∧ fr.occupied = true) := by
  intro n
  induction n with
  | zero =>
    intro st
    refine ⟨rfl, ?_⟩
    intro h
    simp [dequeue_loop] at h
  | succ n ih =>
    intro st
    unfold dequeue_loop
    by_cases hs : 0 < st.fifo_size
    · simp only [hs, if_true]
      by_cases ho : (st.ram_frames.getD (st.fifo_queue.getD st.fifo_head 0).toNat default).occupied
          = true
      · simp only [ho, if_true]
        refine ⟨trivial, ?_⟩
        intro _
        cases hfr : st.ram_frames[(st.fifo_queue.getD st.fifo_head 0).toNat]? with
        | none =>
          rw [List.getD_eq_getElem?_getD, hfr] at ho
          simp at ho
        | some fr =>
          rw [List.getD_eq_getElem?_getD, hfr] at ho
          exact ⟨fr, rfl, by simpa using ho⟩
      · simp only [ho, Bool.false_eq_true, if_false]
        have := ih { st with fifo_head := (st.fifo_head + 1) % st.fifo_capacity
                             fifo_size := st.fifo_size - 1 }
        refine ⟨?_, this.2⟩
        have h1 := this.1
        rw [h1]
    · simp only [hs, if_false]
      refine ⟨trivial, ?_⟩
      intro h
      simp at h

theorem Inv.set_fifo {st : State} (h : Inv st) (a b : Nat) :
    Inv { st with fifo_head := a, fifo_size := b } :=
  ⟨⟨h.core.ram_len, h.core.swap_len, h.core.ram_occ, h.core.swap_occ,
      h.core.ram_link, h.core.swap_link, h.core.not_both⟩, h.psz_pos, h.psz_lt,
      h.table_len, h.procs, h.alive_lt, h.fifo_len, h.fifo_cap⟩

theorem load_page_processes (st : State) (ptr : PagePtr) (f : Int) :
    (load_page st ptr f).processes =
      (modPage st ptr (fun pg => { pg with in_ram := true, frame_index := f, in_swap := false,
                                           swap_index := -1 })).processes := by
  unfold load_page
  by_cases h : 0 ≤ (getPage st ptr).swap_index
  · simp only [h, if_true]; rfl
  · simp only [h, if_false]; rfl

/-- The fault path keeps the invariant when the faulting page is in swap. -/
theorem inv_fault_load {st : State} (h : Inv st) {i0 j0 : Nat} {pg : Page}
    (hpg : pageAt st i0 j0 = some pg) (hnr : pg.in_ram = false) (hsw : pg.in_swap = true) :
    Inv (fault_load st (i0, j0)) := by
  unfold fault_load
  by_cases hf : get_free_ram_frame st < 0
  · simp only [hf, if_true, show dequeue_frame_fifo st = dequeue_loop st.fifo_size st from rfl]
    obtain ⟨heq, hocc⟩ := dequeue_loop_spec st.fifo_size st
    have h1 : Inv (dequeue_loop st.fifo_size st).2 := by
      rw [heq]
      exact h.set_fifo _ _
    have hram : (dequeue_loop st.fifo_size st).2.ram_frames = st.ram_frames := by
      rw [heq]
    have hpr : (dequeue_loop st.fifo_size st).2.processes = st.processes := by
      rw [heq]
    by_cases hv : (dequeue_loop st.fifo_size st).1 < 0
    · simp only [hv, if_true]
      exact h1.end_simulation
    · simp only [hv, if_false]
      by_cases hs : get_free_swap_slot (dequeue_loop st.fifo_size st).2 < 0
      · simp only [hs, if_true]
        exact h1.end_simulation
      · simp only [hs, if_false]
        obtain ⟨fr, hfr, hfo⟩ := hocc (by omega)
        rw [← hram] at hfr
        obtain ⟨hc, hfree, iv, jv, _, hprocs, pv, hpv, hpvr⟩ :=
          core_evict_victim h1.core hfr hfo rfl (by omega)
        have hpg1 : pageAt (dequeue_loop st.fifo_size st).2 i0 j0 = some pg := by
          rw [pageAt_congr hpr]; exact hpg
        have hpg2 : pageAt (evict_victim (dequeue_loop st.fifo_size st).2 (dequeue_loop st.fifo_size st).1
            (get_free_swap_slot (dequeue_loop st.fifo_size st).2)) i0 j0 = some pg := by
          rw [pageAt_congr hprocs, pageAt_modPage]
          have : ¬ (i0 = iv ∧ j0 = jv) := by
            intro ⟨h1, h2⟩
            subst h1; subst h2
            rw [hpg1] at hpv
            simp at hpv
            subst hpv
            rw [hnr] at hpvr
            simp at hpvr
          simp only [this, if_false]
          exact hpg1
        have hcl := (core_load_page hc hpg2 hnr hsw hfree rfl
          (by omega)).1
        refine h1.of_parts hcl
          ((evict_victim_sameParams _ _ _).trans (load_page_sameParams _ _ _)) ?_
        rw [load_page_processes]
        refine tableOk_modPage ?_ _ _ (by intro q _; simp)
        rw [hprocs]
        exact tableOk_modPage h1.procs _ _ (by intro q _; simp)
  · simp only [hf, if_false]
    obtain ⟨fr, hfr, hfree, hfn⟩ := h.core.free_frame rfl (by omega)
    have hcl := (core_load_page h.core hpg hnr hsw hfr hfree hfn).1
    refine h.of_parts hcl (load_page_sameParams _ _ _) ?_
    rw [load_page_processes]
    exact tableOk_modPage h.procs _ _ (by intro q _; simp)

theorem getElem?_of_alive {st : State} {idx : Nat}
    (hal : (arrGet st.processes idx).alive = true) :
    st.processes[idx]? = some (arrGet st.processes idx) := by
  unfold arrGet at hal ⊢
  rw [List.getD_eq_getElem?_getD] at hal ⊢
  cases hp : st.processes[idx]? with
  | none =>
    rw [hp] at hal
    exact absurd hal (by decide)
  | some p => rfl

/-- The page that `simulate_random_access` addresses exists and is in one of the pools. -/
theorem selected_page {st : State} (h : Inv st) (hrun : st.simulation_running = true)
    {idx : Nat} (hal : (arrGet st.processes idx).alive = true) (r2 : Nat) :
    ∃ pg, pageAt st idx
        (toInt32 ((r2 % (arrGet st.processes idx).size_bytes) / st.page_size_bytes)).toNat =
          some pg ∧
      (pg.in_ram = true ∨ pg.in_swap = true) ∧
      toInt32 ((r2 % (arrGet st.processes idx).size_bytes) / st.page_size_bytes) =
        (((r2 % (arrGet st.processes idx).size_bytes) / st.page_size_bytes : Nat) : Int) := by
  have hp := getElem?_of_alive hal
  have hlt : idx < st.process_count := by
    rw [← h.table_len hrun]
    exact (List.getElem?_eq_some.mp hp).1
  obtain ⟨h1, h2, h3, _, h5⟩ := h.procs idx _ hp hlt hal
  have haddr : r2 % (arrGet st.processes idx).size_bytes < (arrGet st.processes idx).size_bytes :=
    Nat.mod_lt _ h1
  have hj : (r2 % (arrGet st.processes idx).size_bytes) / st.page_size_bytes <
      (arrGet st.processes idx).pages.length := by
    apply Nat.div_lt_of_lt_mul
    rw [Nat.mul_comm]
    omega
  have hle : (r2 % (arrGet st.processes idx).size_bytes) / st.page_size_bytes ≤
      r2 % (arrGet st.processes idx).size_bytes := Nat.div_le_self _ _
  have ht := toInt32_of_lt (n := (r2 % (arrGet st.processes idx).size_bytes) / st.page_size_bytes)
    (by omega)
  rw [ht]
  simp only [Int.toNat_ofNat]
  refine ⟨(arrGet st.processes idx).pages[(r2 % (arrGet st.processes idx).size_bytes) /
    st.page_size_bytes], ?_, ?_, trivial⟩
  · simp [pageAt, hp, List.getElem?_eq_getElem hj]
  · exact h5 _ _ (List.getElem?_eq_getElem hj)

theorem Inv.set_faults {st : State} (h : Inv st) (a : Nat) :
    Inv { st with total_page_faults := a } :=
  ⟨⟨h.core.ram_len, h.core.swap_len, h.core.ram_occ, h.core.swap_occ,
      h.core.ram_link, h.core.swap_link, h.core.not_both⟩, h.psz_pos, h.psz_lt,
      h.table_len, h.procs, h.alive_lt, h.fifo_len, h.fifo_cap⟩

/-- The three guards of `simulate_random_access` passed: what the rest computes. -/
theorem access_eq {st : State} {r1 : Nat} (r2 : Nat) (hrun : st.simulation_running = true)
    (hac : st.alive_count ≠ 0)
    (hal : (arrGet st.processes (arrGet st.alive_indices (r1 % st.alive_count))).alive = true) :
    simulate_random_access st r1 r2 =
      if (getPage st (arrGet st.alive_indices (r1 % st.alive_count),
          (toInt32 ((r2 % (arrGet st.processes
            (arrGet st.alive_indices (r1 % st.alive_count))).size_bytes) /
              st.page_size_bytes)).toNat)).in_ram = true then st
      else if (getPage st (arrGet st.alive_indices (r1 % st.alive_count),
          (toInt32 ((r2 % (arrGet st.processes
            (arrGet st.alive_indices (r1 % st.alive_count))).size_bytes) /
              st.page_size_bytes)).toNat)).in_swap = true then
        fault_load { st with total_page_faults := st.total_page_faults + 1 }
          (arrGet st.alive_indices (r1 % st.alive_count),
          (toInt32 ((r2 % (arrGet st.processes
            (arrGet st.alive_indices (r1 % st.alive_count))).size_bytes) /
              st.page_size_bytes)).toNat)
      else if get_free_swap_slot { st with total_page_faults := st.total_page_faults + 1 } < 0
        then end_simulation { st with total_page_faults := st.total_page_faults + 1 }
      else fault_load (put_in_swap { st with total_page_faults := st.total_page_faults + 1 }
          (arrGet st.alive_indices (r1 % st.alive_count),
          (toInt32 ((r2 % (arrGet st.processes
            (arrGet st.alive_indices (r1 % st.alive_count))).size_bytes) /
              st.page_size_bytes)).toNat)
          (get_free_swap_slot { st with total_page_faults := st.total_page_faults + 1 }))
          (arrGet st.alive_indices (r1 % st.alive_count),
          (toInt32 ((r2 % (arrGet st.processes
            (arrGet st.alive_indices (r1 % st.alive_count))).size_bytes) /
              st.page_size_bytes)).toNat) := by
  unfold simulate_random_access
  have c1 : ¬ ((!st.simulation_running) = true) := by simp [hrun]
  have c3 : ¬ ((!(arrGet st.processes
      (arrGet st.alive_indices (r1 % st.alive_count))).alive) = true) := by simp [hal]
  rw [if_neg c1, if_neg hac]
  dsimp only
  rw [if_neg c3]
  have hg : ∀ ptr, getPage { st with total_page_faults := st.total_page_faults + 1 } ptr =
      getPage st ptr := fun _ => rfl
  simp only [hg]
  by_cases h1 : (getPage st (arrGet st.alive_indices (r1 % st.alive_count),
          (toInt32 ((r2 % (arrGet st.processes
            (arrGet st.alive_indices (r1 % st.alive_count))).size_bytes) /
              st.page_size_bytes)).toNat)).in_ram = true
  · rw [if_pos h1, if_pos h1]
  · rw [if_neg h1, if_neg h1]
    by_cases h2 : (getPage st (arrGet st.alive_indices (r1 % st.alive_count),
          (toInt32 ((r2 % (arrGet st.processes
            (arrGet st.alive_indices (r1 % st.alive_count))).size_bytes) /
              st.page_size_bytes)).toNat)).in_swap = true
    · rw [if_pos h2, if_neg (by simp [h2])]
    · rw [if_neg h2, if_pos (by simpa using h2)]

theorem inv_access {st : State} (h : Inv st) (r1 r2 : Nat) :
    Inv (simulate_random_access st r1 r2) := by
  by_cases hrun : st.simulation_running = true
  · by_cases hac : st.alive_count = 0
    · have : simulate_random_access st r1 r2 = st := by
        simp [simulate_random_access, hac]
      rw [this]; exact h
    · by_cases hal : (arrGet st.processes (arrGet st.alive_indices (r1 % st.alive_count))).alive
          = true
      · rw [access_eq r2 hrun hac hal]
        obtain ⟨pg, hpg, hplaced, _⟩ := selected_page h hrun hal r2
        rw [getPage_of_pageAt hpg]
        by_cases hir : pg.in_ram = true
        · rw [if_pos hir]; exact h
        · rw [if_neg hir]
          have hsw : pg.in_swap = true := by
            rcases hplaced with h1 | h1
            · exact absurd h1 hir
            · exact h1
          rw [if_pos hsw]
          exact inv_fault_load (h.set_faults _) hpg (by simpa using hir) hsw
      · have : simulate_random_access st r1 r2 = st := by
          simp only [Bool.not_eq_true] at hal
          simp [simulate_random_access, hal]
        rw [this]; exact h
  · have : simulate_random_access st r1 r2 = st := by
      simp only [Bool.not_eq_true] at hrun
      simp [simulate_random_access, hrun]
    rw [this]; exact h

/-! ## The release loop of `kill_random_process` -/

theorem release_page_default (st : State) : release_page st default = st := rfl

theorem release_page_eq (st : State) (pg : Page) :
    release_page st pg =
      { st with
        ram_frames := freeAll st.ram_frames (ramIdxs [pg])
        free_ram_frames := st.free_ram_frames + ((ramIdxs [pg]).length : Nat)
        swap_slots := freeAll st.swap_slots (swapIdxs [pg])
        free_swap_slots := st.free_swap_slots + ((swapIdxs [pg]).length : Nat) } := by
  unfold release_page
  cases h1 : pg.in_ram <;> cases h2 : pg.in_swap <;>
    simp [ramIdxs, swapIdxs, freeAll, h1, h2]

theorem freeAll_append (pool : List Frame) (l1 l2 : List Nat) :
    freeAll pool (l1 ++ l2) = freeAll (freeAll pool l1) l2 := by
  simp [freeAll, List.foldl_append]

theorem ramIdxs_cons (pg : Page) (ps : List Page) :
    ramIdxs (pg :: ps) = ramIdxs [pg] ++ ramIdxs ps := by
  unfold ramIdxs
  rw [← List.filterMap_append]; rfl

theorem swapIdxs_cons (pg : Page) (ps : List Page) :
    swapIdxs (pg :: ps) = swapIdxs [pg] ++ swapIdxs ps := by
  unfold swapIdxs
  rw [← List.filterMap_append]; rfl

/-- The release loop frees the frames and slots of the pages it runs over and adds their
numbers to the two free counters; nothing else changes. -/
theorem kill_pages_eq (idx : Nat) : ∀ (k i : Nat) (st : State),
    kill_pages idx k i st =
      { st with
        ram_frames := freeAll st.ram_frames
          (ramIdxs (((arrGet st.processes idx).pages.drop i).take k))
        free_ram_frames := st.free_ram_frames +
          ((ramIdxs (((arrGet st.processes idx).pages.drop i).take k)).length : Nat)
        swap_slots := freeAll st.swap_slots
          (swapIdxs (((arrGet st.processes idx).pages.drop i).take k))
        free_swap_slots := st.free_swap_slots +
          ((swapIdxs (((arrGet st.processes idx).pages.drop i).take k)).length : Nat) } := by
  intro k
  induction k with
  | zero =>
    intro i st
    simp [kill_pages, ramIdxs, swapIdxs, freeAll]
  | succ n ih =>
    intro i st
    unfold kill_pages
    rw [ih]
    by_cases hi : i < (arrGet st.processes idx).pages.length
    · have hg : getPage st (idx, i) = (arrGet st.processes idx).pages[i] := by
        simp [getPage, List.getD_eq_getElem?_getD, List.getElem?_eq_getElem hi]
      have hd : ((arrGet st.processes idx).pages.drop i).take (n + 1) =
          (arrGet st.processes idx).pages[i] ::
            (((arrGet st.processes idx).pages.drop (i + 1)).take n) := by
        rw [List.drop_eq_getElem_cons hi, List.take_succ_cons]
      have hp : ∀ pg, (release_page st pg).processes = st.processes := by
        intro pg
        rw [release_page_eq]
      rw [hd, hg, ramIdxs_cons, swapIdxs_cons, freeAll_append, freeAll_append]
      simp only [hp]
      rw [release_page_eq]
      simp only [List.length_append, Nat.cast_add, add_assoc]
    · have hg : getPage st (idx, i) = default := by
        simp [getPage, List.getD_eq_getElem?_getD, List.getElem?_eq_none (not_lt.mp hi)]
      have hd : ((arrGet st.processes idx).pages.drop i) = [] :=
        List.drop_eq_nil_of_le (not_lt.mp hi)
      have hd' : ((arrGet st.processes idx).pages.drop (i + 1)) = [] :=
        List.drop_eq_nil_of_le (by omega)
      rw [hg, release_page_default, hd, hd']
      simp only [List.take_nil]

theorem ramIdxs_eq (ps : List Page) : ramIdxs ps = poolIdxs ramSel ps := rfl

theorem swapIdxs_eq (ps : List Page) : swapIdxs ps = poolIdxs swapSel ps := rfl

theorem mem_poolIdxs {sel : Page → Bool × Int} {ps : List Page} {f : Nat} :
    f ∈ poolIdxs sel ps ↔
      ∃ (j : Nat) (pg : Page), ps[j]? = some pg ∧ (sel pg).1 = true ∧ (sel pg).2.toNat = f := by
  unfold poolIdxs
  rw [List.mem_filterMap]
  constructor
  · rintro ⟨pg, hmem, hsel⟩
    obtain ⟨j, hj⟩ := List.mem_iff_getElem?.mp hmem
    by_cases h1 : (sel pg).1 = true
    · simp [h1] at hsel
      exact ⟨j, pg, hj, h1, hsel⟩
    · simp [h1] at hsel
  · rintro ⟨j, pg, hj, h1, h2⟩
    exact ⟨pg, List.mem_iff_getElem?.mpr ⟨j, hj⟩, by simp [h1, h2]⟩

theorem poolIdxs_cons (sel : Page → Bool × Int) (pg : Page) (ps : List Page) :
    poolIdxs sel (pg :: ps) =
      (if (sel pg).1 = true then [(sel pg).2.toNat] else []) ++ poolIdxs sel ps := by
  unfold poolIdxs
  by_cases h : (sel pg).1 = true <;> simp [List.filterMap_cons, h]

theorem nodup_poolIdxs (pool : List Frame) (idx : Nat) (sel : Page → Bool × Int) :
    ∀ (ps : List Page) (i : Nat),
      (∀ (k : Nat) (pg : Page), ps[k]? = some pg → (sel pg).1 = true →
        pool[(sel pg).2.toNat]? = some ⟨true, some (idx, i + k)⟩) →
      (poolIdxs sel ps).Nodup := by
  intro ps
  induction ps with
  | nil => intro i _; simp [poolIdxs]
  | cons a t ih =>
    intro i h
    have ht : (poolIdxs sel t).Nodup := by
      apply ih (i + 1)
      intro k pg hk hs
      have := h (k + 1) pg (by simpa using hk) hs
      rw [this, show i + (k + 1) = i + 1 + k by omega]
    rw [poolIdxs_cons]
    by_cases ha : (sel a).1 = true
    · simp only [ha, if_true, List.singleton_append, List.nodup_cons]
      refine ⟨?_, ht⟩
      intro hmem
      obtain ⟨j, pg, hj, h1, h2⟩ := mem_poolIdxs.mp hmem
      have e1 := h (j + 1) pg (by simpa using hj) h1
      have e2 := h 0 a (by simp) ha
      rw [h2, e2] at e1
      simp at e1
    · simp only [ha, if_false, List.nil_append]
      exact ht

/-- Releasing all the entries of the pages of one process, whose pages then disappear,
keeps the back-pointers and lowers the number of occupied entries by the number released. -/
theorem linked_kill {pool : List Frame} {V : View} (V' : View) (h : Linked pool V) (idx : Nat)
    (sel : Page → Bool × Int) (ps : List Page)
    (hV : ∀ j, V idx j = (ps[j]?).map sel)
    (hV' : ∀ i j, V' i j = if i = idx then none else V i j) :
    Linked (freeAll pool (poolIdxs sel ps)) V' ∧
    (occupiedCount (freeAll pool (poolIdxs sel ps)) : Int) + ((poolIdxs sel ps).length : Nat) =
      (occupiedCount pool : Int) := by
  have hown : ∀ (k : Nat) (pg : Page), ps[k]? = some pg → (sel pg).1 = true →
      pool[(sel pg).2.toNat]? = some ⟨true, some (idx, k)⟩ := by
    intro k pg hk hs
    have hv : V idx k = some (true, (sel pg).2) := by
      rw [hV, hk]
      simp only [Option.map_some', Option.some.injEq]
      rw [← hs]
    obtain ⟨g, hg, hpg⟩ := h.2 idx k _ hv
    rw [hg]
    simpa using hpg
  have hmem : ∀ f, f ∈ poolIdxs sel ps ↔ ∃ j, V idx j = some (true, (f : Int)) := by
    intro f
    rw [mem_poolIdxs]
    constructor
    · rintro ⟨j, pg, hj, h1, h2⟩
      refine ⟨j, ?_⟩
      have hv : V idx j = some (true, (sel pg).2) := by
        rw [hV, hj]
        simp only [Option.map_some', Option.some.injEq]
        rw [← h1]
      obtain ⟨g, hg, _⟩ := h.2 idx j _ hv
      rw [hv]
      congr 2
      omega
    · rintro ⟨j, hj⟩
      rw [hV] at hj
      simp only [Option.map_eq_some'] at hj
      obtain ⟨pg, hpg, hs⟩ := hj
      refine ⟨j, pg, hpg, by rw [hs], by rw [hs]; simp⟩
  refine ⟨⟨?_, ?_⟩, ?_⟩
  · intro f fr hfr ho
    rw [freeAll_getElem?] at hfr
    by_cases hf : f ∈ poolIdxs sel ps
    · simp only [hf, if_true, Option.map_eq_some'] at hfr
      obtain ⟨_, _, he⟩ := hfr
      subst he
      simp at ho
    · simp only [hf, if_false] at hfr
      obtain ⟨i, j, hp, hv⟩ := h.1 f fr hfr ho
      have hne : ¬ i = idx := by
        intro he; subst he
        exact hf ((hmem f).mpr ⟨j, hv⟩)
      exact ⟨i, j, hp, by rw [hV']; simp only [hne, if_false]; exact hv⟩
  · intro i j x hx
    rw [hV'] at hx
    by_cases hi : i = idx
    · simp [hi] at hx
    · simp only [hi, if_false] at hx
      obtain ⟨f, hxf, hpf⟩ := h.2 i j x hx
      refine ⟨f, hxf, ?_⟩
      rw [freeAll_getElem?]
      have hf : ¬ f ∈ poolIdxs sel ps := by
        intro hf
        obtain ⟨j', hj'⟩ := (hmem f).mp hf
        obtain ⟨g, hg, hpg⟩ := h.2 idx j' _ hj'
        have : g = f := by omega
        subst this
        rw [hpf] at hpg
        simp at hpg
        exact hi hpg.1
      simp only [hf, if_false]
      exact hpf
  · apply freeAll_countP
    · exact nodup_poolIdxs pool idx sel ps 0
        (by intro k pg hk hs; simpa using hown k pg hk hs)
    · intro f hf
      obtain ⟨j, pg, hj, h1, h2⟩ := mem_poolIdxs.mp hf
      exact ⟨_, by rw [← h2]; exact hown j pg hj h1, rfl⟩

theorem arrSet_of_lt {α : Type} [Inhabited α] {l : List α} {i : Nat} (h : i < l.length)
    (v : α) : arrSet l i v = l.set i v := by
  simp [arrSet, h]

theorem arrGet_arrSet {α : Type} [Inhabited α] (l : List α) (i k : Nat) (v : α) :
    arrGet (arrSet l i v) k = if k = i then v else arrGet l k := by
  unfold arrGet arrSet
  simp only [List.getD_eq_getElem?_getD]
  by_cases hi : i < l.length
  · simp only [hi, if_true]
    by_cases hk : k = i
    · subst hk
      rw [getElem?_set_self_map, List.getElem?_eq_getElem hi]
      simp
    · have : i ≠ k := fun e => hk e.symm
      rw [List.getElem?_set_ne this]
      simp [hk]
  · simp only [hi, if_false]
    by_cases hk : k = i
    · subst hk
      rw [List.getElem?_append_right (by simp; omega)]
      simp
      have : k - (l.length + (k - l.length)) = 0 := by omega
      simp [this]
    · simp only [hk, if_false]
      by_cases hk1 : k < l.length
      · rw [List.append_assoc, List.getElem?_append_left hk1]
      · rw [List.getElem?_eq_none (not_lt.mp hk1)]
        by_cases hk2 : k < i
        · rw [List.getElem?_append_left (by simp; omega),
            List.getElem?_append_right (not_lt.mp hk1), List.getElem?_replicate]
          have : k - l.length < i - l.length := by omega
          simp [this]
        · rw [List.getElem?_eq_none (by simp; omega)]

/-- The three guards of `kill_random_process` passed, in a state with the invariant: the
state it returns. -/
theorem kill_eq {st : State} (h : Inv st) {r : Nat} (hrun : st.simulation_running = true)
    (hac : st.alive_count ≠ 0)
    (hal : (arrGet st.processes (arrGet st.alive_indices (r % st.alive_count))).alive = true) :
    kill_random_process st r =
      { st with
        ram_frames := freeAll st.ram_frames
          (ramIdxs (arrGet st.processes (arrGet st.alive_indices (r % st.alive_count))).pages)
        free_ram_frames := st.free_ram_frames +
          ((ramIdxs (arrGet st.processes
            (arrGet st.alive_indices (r % st.alive_count))).pages).length : Nat)
        swap_slots := freeAll st.swap_slots
          (swapIdxs (arrGet st.processes (arrGet st.alive_indices (r % st.alive_count))).pages)
        free_swap_slots := st.free_swap_slots +
          ((swapIdxs (arrGet st.processes
            (arrGet st.alive_indices (r % st.alive_count))).pages).length : Nat)
        processes := st.processes.set (arrGet st.alive_indices (r % st.alive_count))
          { arrGet st.processes (arrGet st.alive_indices (r % st.alive_count)) with
            alive := false, pages := [] }
        alive_indices := arrSet st.alive_indices (r % st.alive_count)
          (arrGet st.alive_indices (st.alive_count - 1))
        alive_count := st.alive_count - 1 } := by
  have hp := getElem?_of_alive hal
  have hlt := (List.getElem?_eq_some.mp hp).1
  have hlt' : arrGet st.alive_indices (r % st.alive_count) < st.process_count := by
    rw [← h.table_len hrun]; exact hlt
  obtain ⟨_, _, _, h4, _⟩ := h.procs _ _ hp hlt' hal
  unfold kill_random_process
  have c1 : ¬ ((!st.simulation_running) = true) := by simp [hrun]
  have c3 : ¬ ((!(arrGet st.processes
      (arrGet st.alive_indices (r % st.alive_count))).alive) = true) := by simp [hal]
  rw [if_neg c1, if_neg hac]
  dsimp only
  rw [if_neg c3, kill_pages_eq]
  simp only [List.drop_zero]
  have ht : List.take (arrGet st.processes
      (arrGet st.alive_indices (r % st.alive_count))).num_pages.toNat
      (arrGet st.processes (arrGet st.alive_indices (r % st.alive_count))).pages =
      (arrGet st.processes (arrGet st.alive_indices (r % st.alive_count))).pages :=
    List.take_of_length_le (by omega)
  rw [ht, arrSet_of_lt hlt]

theorem inv_kill {st : State} (h : Inv st) (r : Nat) : Inv (kill_random_process st r) := by
  by_cases hrun : st.simulation_running = true
  · by_cases hac : st.alive_count = 0
    · have : kill_random_process st r = st := by
        simp [kill_random_process, hac]
      rw [this]; exact h
    · by_cases hal : (arrGet st.processes (arrGet st.alive_indices (r % st.alive_count))).alive
          = true
      · rw [kill_eq h hrun hac hal]
        have hp := getElem?_of_alive hal
        generalize hidx : arrGet st.alive_indices (r % st.alive_count) = idx at hp hal ⊢
        generalize hpp : arrGet st.processes idx = p at hp hal ⊢
        have hlt := (List.getElem?_eq_some.mp hp).1
        have hP : ∀ st' : State,
            st'.processes = st.processes.set idx { p with alive := false, pages := [] } →
            ∀ i j, pageAt st' i j = if i = idx then none else pageAt st i j := by
          intro st' hst' i j
          unfold pageAt
          rw [hst']
          by_cases hi : i = idx
          · subst hi
            rw [getElem?_set_self_map, hp]
            simp
          · have : idx ≠ i := fun e => hi e.symm
            rw [List.getElem?_set_ne this]
            simp [hi]
        have hVr : ∀ j, ramView st idx j = (p.pages[j]?).map ramSel := by
          intro j; simp [ramView, pageAt, hp]; rfl
        have hVs : ∀ j, swapView st idx j = (p.pages[j]?).map swapSel := by
          intro j; simp [swapView, pageAt, hp]; rfl
        have hr := linked_kill (fun i j => if i = idx then none else ramView st i j)
          h.core.ram_link idx ramSel p.pages hVr (fun _ _ => rfl)
        have hs := linked_kill (fun i j => if i = idx then none else swapView st i j)
          h.core.swap_link idx swapSel p.pages hVs (fun _ _ => rfl)
        rw [← ramIdxs_eq] at hr
        rw [← swapIdxs_eq] at hs
        refine ⟨⟨?_, ?_, ?_, ?_, ?_, ?_, ?_⟩, h.psz_pos, h.psz_lt, ?_, ?_, ?_, h.fifo_len,
          h.fifo_cap⟩
        · simp only [freeAll_length]; exact h.core.ram_len
        · simp only [freeAll_length]; exact h.core.swap_len
        · have := h.core.ram_occ
          have := hr.2
          simp only
          omega
        · have := h.core.swap_occ
          have := hs.2
          simp only
          omega
        · refine hr.1.of_true_iff ?_
          intro i j x
          simp only [ramView]
          rw [hP _ rfl]
          by_cases hi : i = idx <;> simp [hi]
        · refine hs.1.of_true_iff ?_
          intro i j x
          simp only [swapView]
          rw [hP _ rfl]
          by_cases hi : i = idx <;> simp [hi]
        · intro i j pg hpg
          rw [hP _ rfl] at hpg
          by_cases hi : i = idx
          · simp [hi] at hpg
          · simp only [hi, if_false] at hpg
            exact h.core.not_both i j pg hpg
        · intro _
          simp only [List.length_set]
          exact h.table_len hrun
        · intro i q hq hi ha
          simp only at hq
          by_cases hii : i = idx
          · subst hii
            rw [getElem?_set_self_map, hp] at hq
            simp at hq
            subst hq
            simp at ha
          · have : idx ≠ i := fun e => hii e.symm
            rw [List.getElem?_set_ne this] at hq
            exact h.procs i q hq hi ha
        · intro k hk
          simp only at hk ⊢
          rw [arrGet_arrSet]
          by_cases hkp : k = r % st.alive_count
          · simp only [hkp, if_true]
            exact h.alive_lt _ (by omega)
          · simp only [hkp, if_false]
            exact h.alive_lt _ (by omega)
      · have : kill_random_process st r = st := by
          simp only [Bool.not_eq_true] at hal
          simp [kill_random_process, hal]
        rw [this]; exact h
  · have : kill_random_process st r = st := by
      simp only [Bool.not_eq_true] at hrun
      simp [kill_random_process, hrun]
    rw [this]; exact h

/-! ## The placement loop of `create_process` -/

theorem modPage_hdr (st : State) (ptr : PagePtr) (g : Page → Page) (i : Nat) :
    ((modPage st ptr g).processes[i]?).map Process.hdr =
      (st.processes[i]?).map Process.hdr := by
  rw [modPage_processes_getElem?]
  cases st.processes[i]? with
  | none => rfl
  | some p =>
    by_cases h : i = ptr.1 <;> simp [h, Process.hdr]

theorem pageAt_put_in_ram (st : State) (i0 j0 : Nat) (f : Int) (i j : Nat) :
    pageAt (put_in_ram st (i0, j0) f) i j =
      if i = i0 ∧ j = j0 then
        (pageAt st i j).map (fun pg => { pg with in_ram := true, frame_index := f })
      else pageAt st i j := by
  rw [← pageAt_modPage]
  exact pageAt_congr rfl i j

theorem pageAt_put_in_swap (st : State) (i0 j0 : Nat) (s : Int) (i j : Nat) :
    pageAt (put_in_swap st (i0, j0) s) i j =
      if i = i0 ∧ j = j0 then
        (pageAt st i j).map (fun pg => { pg with in_swap := true, swap_index := s })
      else pageAt st i j := by
  rw [← pageAt_modPage]
  exact pageAt_congr rfl i j

/-- Writing the identity fields of a page that is in neither pool keeps the pool
invariants. -/
theorem core_modPage_init {st : State} (h : Core st) {i0 j0 : Nat}
    (hflags : ∀ pg, pageAt st i0 j0 = some pg → pg.in_ram = false ∧ pg.in_swap = false)
    (a b : Nat) (c d : Int) :
    Core (modPage st (i0, j0)
      (fun pg => { pg with pid := a, page_number := b, frame_index := c, swap_index := d })) := by
  refine ⟨h.ram_len, h.swap_len, h.ram_occ, h.swap_occ, ?_, ?_, ?_⟩
  · refine h.ram_link.of_true_iff ?_
    intro i j x
    simp only [ramView, pageAt_modPage]
    by_cases he : i = i0 ∧ j = j0
    · obtain ⟨rfl, rfl⟩ := he
      cases hq : pageAt st i j with
      | none => simp
      | some q => simp [(hflags q hq).1]
    · simp [he]
  · refine h.swap_link.of_true_iff ?_
    intro i j x
    simp only [swapView, pageAt_modPage]
    by_cases he : i = i0 ∧ j = j0
    · obtain ⟨rfl, rfl⟩ := he
      cases hq : pageAt st i j with
      | none => simp
      | some q => simp [(hflags q hq).2]
    · simp [he]
  · intro i j q hq
    rw [pageAt_modPage] at hq
    by_cases he : i = i0 ∧ j = j0
    · obtain ⟨rfl, rfl⟩ := he
      cases hq0 : pageAt st i j with
      | none => simp [hq0] at hq
      | some q0 =>
        simp [hq0] at hq
        subst hq
        simp [(hflags q0 hq0).1]
    · simp only [he, if_false] at hq
      exact h.not_both i j q hq

theorem CreateLoop.page {st0 cur : State} {idx n i : Nat} (L : CreateLoop st0 idx n i cur)
    {j : Nat} (hj : j < n) : ∃ pg, pageAt cur idx j = some pg := by
  obtain ⟨q, hq, hlen⟩ := L.len
  refine ⟨q.pages[j], ?_⟩
  simp [pageAt, hq, List.getElem?_eq_getElem (by omega : j < q.pages.length)]

theorem CreateLoop.common {st0 cur cur' : State} {idx n i : Nat}
    (L : CreateLoop st0 idx n i cur) (g : Page → Page)
    (hp : SameParams cur cur')
    (hprocs : cur'.processes = (modPage cur (idx, i) g).processes)
    (hg : ∀ pg : Page, (pg.in_ram = true ∨ pg.in_swap = true) →
      ((g pg).in_ram = true ∨ (g pg).in_swap = true)) :
    SameParams st0 cur' ∧ TableOk cur'.processes st0.process_count st0.page_size_bytes ∧
    (cur'.processes[idx]?).map Process.hdr = (st0.processes[idx]?).map Process.hdr ∧
    (∃ q, cur'.processes[idx]? = some q ∧ q.pages.length = n) ∧
    ∀ j, pageAt cur' idx j = if j = i then (pageAt cur idx j).map g else pageAt cur idx j := by
  refine ⟨L.params.trans hp, ?_, ?_, ?_, ?_⟩
  · rw [hprocs]; exact tableOk_modPage L.table _ _ hg
  · rw [hprocs, modPage_hdr]; exact L.entry
  · obtain ⟨q, hq, hlen⟩ := L.len
    rw [hprocs, modPage_processes_getElem?, hq]
    simp only [Option.map_some', if_true]
    exact ⟨_, rfl, by simpa using hlen⟩
  · intro j
    rw [pageAt_congr hprocs, pageAt_modPage]
    simp

theorem CreateLoop.keep {st0 cur cur' : State} {idx n i : Nat}
    (L : CreateLoop st0 idx n i cur) (g : Page → Page) (hc : Core cur')
    (hp : SameParams cur cur')
    (hprocs : cur'.processes = (modPage cur (idx, i) g).processes)
    (hg : ∀ pg : Page, (g pg).in_ram = pg.in_ram ∧ (g pg).in_swap = pg.in_swap) :
    CreateLoop st0 idx n i cur' := by
  obtain ⟨h1, h2, h3, h4, h5⟩ := L.common g hp hprocs
    (by intro pg h; rw [(hg pg).1, (hg pg).2]; exact h)
  refine ⟨hc, h1, h2, h3, h4, ?_⟩
  intro j pg hpg
  rw [h5] at hpg
  by_cases hj : j = i
  · subst hj
    simp only [if_true, Option.map_eq_some'] at hpg
    obtain ⟨q, hq, hgq⟩ := hpg
    subst hgq
    rw [(hg q).1, (hg q).2]
    exact L.placed j q hq
  · simp only [hj, if_false] at hpg
    exact L.placed j pg hpg

theorem CreateLoop.next {st0 cur cur' : State} {idx n i : Nat}
    (L : CreateLoop st0 idx n i cur) (g : Page → Page) (hc : Core cur')
    (hp : SameParams cur cur')
    (hprocs : cur'.processes = (modPage cur (idx, i) g).processes)
    (hg : ∀ pg : Page, (g pg).in_ram = true ∨ (g pg).in_swap = true) :
    CreateLoop st0 idx n (i + 1) cur' := by
  obtain ⟨h1, h2, h3, h4, h5⟩ := L.common g hp hprocs (fun pg _ => hg pg)
  refine ⟨hc, h1, h2, h3, h4, ?_⟩
  intro j pg hpg
  rw [h5] at hpg
  by_cases hj : j = i
  · subst hj
    simp only [if_true, Option.map_eq_some'] at hpg
    obtain ⟨q, hq, hgq⟩ := hpg
    subst hgq
    exact ⟨fun _ => hg q, fun h => absurd h (by omega)⟩
  · simp only [hj, if_false] at hpg
    have := L.placed j pg hpg
    exact ⟨fun h => this.1 (by omega), fun h => this.2 (by omega)⟩

/-- The placement loop keeps its invariant: a normal exit has placed all `n` pages, an
early exit is `end_simulation` of a state with the invariant. -/
theorem create_pages_loop (st0 : State) (idx n : Nat) : ∀ (k i : Nat) (cur : State),
    i + k = n → CreateLoop st0 idx n i cur →
    match create_pages idx k i cur with
    | .ok fin => CreateLoop st0 idx n n fin
    | .error fin => ∃ c i', CreateLoop st0 idx n i' c ∧ fin = end_simulation c := by
  intro k
  induction k with
  | zero =>
    intro i cur hik L
    have : i = n := by omega
    subst this
    exact L
  | succ k ih =>
    intro i cur hik L
    unfold create_pages
    obtain ⟨pg, hpg⟩ := L.page (j := i) (by omega)
    have hfl := (L.placed i pg hpg).2 (le_refl _)
    have hc1 : Core (modPage cur (idx, i) (fun pg =>
        { pg with pid := (arrGet cur.processes idx).pid, page_number := i,
                  frame_index := -1, swap_index := -1 })) :=
      core_modPage_init L.core (by intro q hq; rw [hpg] at hq; simp at hq; subst hq; exact hfl)
        _ _ _ _
    have L1 := L.keep _ hc1 (modPage_sameParams _ _ _) rfl (fun _ => ⟨rfl, rfl⟩)
    have hpg1 : pageAt (modPage cur (idx, i) (fun pg =>
        { pg with pid := (arrGet cur.processes idx).pid, page_number := i,
                  frame_index := -1, swap_index := -1 })) idx i =
        some { pg with pid := (arrGet cur.processes idx).pid, page_number := i,
                       frame_index := -1, swap_index := -1 } := by
      rw [pageAt_modPage]; simp [hpg]
    dsimp only
    generalize modPage cur (idx, i) (fun pg =>
        { pg with pid := (arrGet cur.processes idx).pid, page_number := i,
                  frame_index := -1, swap_index := -1 }) = cur1 at hc1 L1 hpg1 ⊢
    by_cases hf : 0 ≤ get_free_ram_frame cur1
    · rw [if_pos hf]
      apply ih (i + 1) _ (by omega)
      exact L1.next (fun pg => { pg with in_ram := true, frame_index := (get_free_ram_frame cur1) })
        (core_put_in_ram hc1 hpg1 hfl.1 hfl.2 rfl hf)
        (put_in_ram_sameParams _ _ _) rfl (fun _ => Or.inl rfl)
    · rw [if_neg hf]
      by_cases hs : get_free_swap_slot cur1 < 0
      · rw [if_pos hs]
        exact ⟨_, _, L1, rfl⟩
      · rw [if_neg hs]
        apply ih (i + 1) _ (by omega)
        exact L1.next (fun pg => { pg with in_swap := true, swap_index := (get_free_swap_slot cur1) })
          (core_put_in_swap hc1 hpg1 hfl.1 hfl.2 rfl (by omega))
          (put_in_swap_sameParams _ _ _) rfl (fun _ => Or.inr rfl)

/-! ## `create_process` -/

theorem mb_to_bytes_nat (m : Nat) (hm : m ≤ 20) : mb_to_bytes (m : Int) = m * 1048576 := by
  unfold mb_to_bytes
  norm_num
  omega

theorem arrSet_length {α : Type} [Inhabited α] (l : List α) (v : α) :
    arrSet l l.length v = l ++ [v] := by
  simp [arrSet]

/-- In a valid configuration the page count of line 273 is the ceiling of
`size / page_size`, without wrap-around. -/
theorem num_pages_spec {size psz : Nat} (hpsz : 0 < psz) (hpsz2 : psz < 2 ^ 41)
    (hs1 : 0 < size) (hs2 : size < 2 ^ 31) :
    ∃ q : Nat, num_pages_of size psz = (q : Int) ∧ 0 < q ∧ q < 2 ^ 31 ∧ size ≤ q * psz ∧
      (q - 1) * psz < size := by
  have hmod : (size + psz - 1) % 2 ^ 64 = size + psz - 1 := Nat.mod_eq_of_lt (by omega)
  refine ⟨(size + psz - 1) / psz, ?_, ?_, ?_, ?_, ?_⟩
  · unfold num_pages_of
    rw [hmod]
    apply toInt32_of_lt
    have h1 : (size + psz - 1) / psz ≤ (size * psz) / psz := by
      apply Nat.div_le_div_right
      have : size + psz ≤ size * psz + 1 := by nlinarith
      omega
    rw [Nat.mul_div_cancel _ hpsz] at h1
    omega
  · exact Nat.div_pos (by omega) hpsz
  · have h1 : (size + psz - 1) / psz ≤ (size * psz) / psz := by
      apply Nat.div_le_div_right
      have : size + psz ≤ size * psz + 1 := by nlinarith
      omega
    rw [Nat.mul_div_cancel _ hpsz] at h1
    omega
  · have := Nat.lt_mul_div_succ (size + psz - 1) hpsz
    have e : psz * ((size + psz - 1) / psz + 1) = (size + psz - 1) / psz * psz + psz := by ring
    omega
  · have h1 := Nat.div_mul_le_self (size + psz - 1) psz
    have h2 : 0 < (size + psz - 1) / psz := Nat.div_pos (by omega) hpsz
    have e : ((size + psz - 1) / psz - 1) * psz + psz = (size + psz - 1) / psz * psz := by
      have : (size + psz - 1) / psz = ((size + psz - 1) / psz - 1) + 1 := by omega
      nth_rewrite 2 [this]
      ring
    omega

/-- The two guards of `create_process` passed: what the rest computes. -/
theorem create_eq {st : State} (r : Nat) (hrun : st.simulation_running = true)
    (hcnt : st.process_count < MAX_PROCESSES) :
    create_process st r =
      match create_pages st.process_count (proc_pages st r).toNat 0 (create_entry st r) with
      | .error s => s
      | .ok s =>
        { s with alive_indices := arrSet s.alive_indices s.alive_count s.process_count
                 alive_count := s.alive_count + 1
                 process_count := s.process_count + 1 } := by
  unfold create_process
  have c1 : ¬ ((!st.simulation_running) = true) := by simp [hrun]
  have c2 : ¬ (MAX_PROCESSES ≤ st.process_count) := by omega
  rw [if_neg c1, if_neg c2]
  rfl

theorem proc_size_bounds (r : Nat) : 0 < proc_size r ∧ proc_size r < 2 ^ 31 := by
  unfold proc_size
  have hm : MIN_PROC_MB + r % (MAX_PROC_MB - MIN_PROC_MB + 1) ≤ 20 := by
    simp only [MIN_PROC_MB, MAX_PROC_MB]; omega
  have hm1 : 1 ≤ MIN_PROC_MB + r % (MAX_PROC_MB - MIN_PROC_MB + 1) := by
    simp only [MIN_PROC_MB]; omega
  rw [mb_to_bytes_nat _ hm]
  omega

/-- The state at loop entry satisfies the loop invariant with no page placed. -/
theorem createLoop_entry {st : State} (h : Inv st) (r : Nat)
    (hrun : st.simulation_running = true) {q : Nat} (hq : proc_pages st r = (q : Int)) :
    CreateLoop (create_entry st r) st.process_count q 0 (create_entry st r) := by
  have hlen := h.table_len hrun
  have hprocs : (create_entry st r).processes = st.processes ++ [new_process st r] := by
    show arrSet st.processes st.process_count (new_process st r) = _
    rw [← hlen, arrSet_length]
  have hnew : (new_process st r).pages = List.replicate q default := by
    simp [new_process, hq]
  have hP : ∀ i j, pageAt (create_entry st r) i j =
      if i = st.process_count then (if j < q then some default else none)
      else pageAt st i j := by
    intro i j
    unfold pageAt
    rw [hprocs, List.getElem?_append]
    by_cases hi : i < st.processes.length
    · have : ¬ i = st.process_count := by omega
      simp [hi, this]
    · by_cases hi2 : i = st.process_count
      · subst hi2
        simp [hlen, hnew, List.getElem?_replicate]
      · have h1 : st.processes[i]? = none := List.getElem?_eq_none (by omega)
        have h2 : [new_process st r][i - st.processes.length]? = none :=
          List.getElem?_eq_none (by simp; omega)
        simp [hi, hi2, h1, h2]
  have hnone : ∀ j, pageAt st st.process_count j = none := by
    intro j
    unfold pageAt
    rw [List.getElem?_eq_none (by omega)]
    rfl
  refine ⟨⟨h.core.ram_len, h.core.swap_len, h.core.ram_occ, h.core.swap_occ, ?_, ?_, ?_⟩,
    ⟨rfl, rfl, rfl, rfl, rfl, rfl, rfl, rfl, rfl⟩, ?_, rfl, ?_, ?_⟩
  · refine h.core.ram_link.of_true_iff ?_
    intro i j x
    simp only [ramView, hP]
    by_cases hi : i = st.process_count
    · subst hi
      rw [hnone]
      by_cases hj : j < q <;> simp [hj]
    · simp [hi]
  · refine h.core.swap_link.of_true_iff ?_
    intro i j x
    simp only [swapView, hP]
    by_cases hi : i = st.process_count
    · subst hi
      rw [hnone]
      by_cases hj : j < q <;> simp [hj]
    · simp [hi]
  · intro i j pg hpg
    rw [hP] at hpg
    by_cases hi : i = st.process_count
    · by_cases hj : j < q
      · simp [hi, hj] at hpg
        subst hpg
        simp
      · simp [hi, hj] at hpg
    · simp only [hi, if_false] at hpg
      exact h.core.not_both i j pg hpg
  · intro i p hp hi ha
    rw [hprocs, List.getElem?_append] at hp
    have : i < st.processes.length := by
      show i < st.processes.length
      have : i < st.process_count := hi
      omega
    simp only [this, if_true] at hp
    exact h.procs i p hp hi ha
  · refine ⟨new_process st r, ?_, by simp [hnew]⟩
    rw [hprocs, List.getElem?_append]
    simp [hlen]
  · intro j pg hpg
    rw [hP] at hpg
    by_cases hj : j < q
    · simp [hj] at hpg
      subst hpg
      refine ⟨fun h => absurd h (by omega), fun _ => ⟨rfl, rfl⟩⟩
    · simp [hj] at hpg

theorem inv_create {st : State} (h : Inv st) (r : Nat) : Inv (create_process st r) := by
  by_cases hrun : st.simulation_running = true
  · by_cases hcnt : st.process_count < MAX_PROCESSES
    · rw [create_eq r hrun hcnt]
      obtain ⟨hs1, hs2⟩ := proc_size_bounds r
      obtain ⟨q, hq, hq0, hq31, hqs, _⟩ := num_pages_spec h.psz_pos h.psz_lt hs1 hs2
      have hq' : proc_pages st r = (q : Int) := hq
      have L0 := createLoop_entry h r hrun hq'
      have hloop := create_pages_loop (create_entry st r) st.process_count q q 0
        (create_entry st r) (by omega) L0
      have hqn : (proc_pages st r).toNat = q := by omega
      rw [hqn]
      have hentry : (create_entry st r).processes[st.process_count]? =
          some (new_process st r) := by
        show (arrSet st.processes st.process_count (new_process st r))[st.process_count]? = _
        rw [← h.table_len hrun, arrSet_length]
        simp
      cases hres : create_pages st.process_count q 0 (create_entry st r) with
      | ok fin =>
        rw [hres] at hloop
        simp only at hloop ⊢
        obtain ⟨hc, hp, ht, he, hl, hpl⟩ := hloop
        have hp1 := hp.1
        have hp4 := hp.4
        have hp1' : fin.process_count = st.process_count := hp.1
        have hp2' : fin.page_size_bytes = st.page_size_bytes := hp.2
        have hp5' : fin.alive_indices = st.alive_indices := hp.5
        have hp6' : fin.alive_count = st.alive_count := hp.6
        have hp7' : fin.fifo_capacity = st.fifo_capacity := hp.7
        have hp8' : fin.fifo_queue.length = st.fifo_queue.length := hp.8
        have hp9' : fin.ram_frame_count = st.ram_frame_count := hp.9
        refine ⟨⟨hc.ram_len, hc.swap_len, hc.ram_occ, hc.swap_occ, hc.ram_link, hc.swap_link,
          hc.not_both⟩, ?_, ?_, ?_, ?_, ?_, ?_, ?_⟩
        · show 0 < fin.page_size_bytes
          rw [hp2']; exact h.psz_pos
        · show fin.page_size_bytes < 2 ^ 41
          rw [hp2']; exact h.psz_lt
        · intro _
          show fin.processes.length = fin.process_count + 1
          rw [hp4, hp1']
          show (arrSet st.processes st.process_count (new_process st r)).length = _
          rw [← h.table_len hrun, arrSet_length]
          simp
        · intro i p hip hi ha
          have hi' : i < st.process_count + 1 := by
            have : i < fin.process_count + 1 := hi
            omega
          show _ ∧ _ ∧ p.size_bytes ≤ p.pages.length * fin.page_size_bytes ∧ _
          rw [hp2']
          by_cases hii : i = st.process_count
          · subst hii
            obtain ⟨q', hq'1, hq'2⟩ := hl
            have hip' : fin.processes[st.process_count]? = some p := hip
            rw [hip'] at hq'1
            simp only [Option.some.injEq] at hq'1
            subst hq'1
            rw [hip', hentry] at he
            simp only [Option.map_some', Option.some.injEq, Process.hdr, new_process,
              Prod.mk.injEq] at he
            obtain ⟨_, e2, e3, _, _⟩ := he
            rw [e2, e3, hq'2, hq']
            refine ⟨hs1, hs2, hqs, rfl, ?_⟩
            intro j pg hj
            have hjlt : j < q := by
              have := (List.getElem?_eq_some.mp hj).1
              omega
            exact (hpl j pg (by simp [pageAt, hip', hj])).1 hjlt
          · exact ht i p hip (by show i < st.process_count; omega) ha
        · intro k hk
          show arrGet (arrSet fin.alive_indices fin.alive_count fin.process_count) k <
            fin.process_count + 1
          have hk' : k < fin.alive_count + 1 := hk
          rw [arrGet_arrSet, hp5', hp6', hp1']
          by_cases hkk : k = st.alive_count
          · simp [hkk]
          · simp only [hkk, if_false]
            have := h.alive_lt k (by omega)
            omega
        · show fin.fifo_queue.length = fin.fifo_capacity
          rw [hp8', hp7']; exact h.fifo_len
        · show (fin.fifo_capacity : Int) = fin.ram_frame_count
          rw [hp7', hp9']; exact h.fifo_cap
      | error fin =>
        rw [hres] at hloop
        simp only at hloop ⊢
        obtain ⟨c, i', L, hfin⟩ := hloop
        subst hfin
        have hp := L.params
        have hrunc : c.simulation_running = true := by rw [hp.3]; exact hrun
        have : end_simulation c = { c with simulation_running := false } := by
          simp [end_simulation, hrunc]
        rw [this]
        have hp1' : c.process_count = st.process_count := hp.1
        have hp2' : c.page_size_bytes = st.page_size_bytes := hp.2
        have hp5' : c.alive_indices = st.alive_indices := hp.5
        have hp6' : c.alive_count = st.alive_count := hp.6
        have hp7' : c.fifo_capacity = st.fifo_capacity := hp.7
        have hp8' : c.fifo_queue.length = st.fifo_queue.length := hp.8
        have hp9' : c.ram_frame_count = st.ram_frame_count := hp.9
        refine ⟨⟨L.core.ram_len, L.core.swap_len, L.core.ram_occ, L.core.swap_occ,
          L.core.ram_link, L.core.swap_link, L.core.not_both⟩, ?_, ?_, ?_, ?_, ?_, ?_, ?_⟩
        · show 0 < c.page_size_bytes
          rw [hp2']; exact h.psz_pos
        · show c.page_size_bytes < 2 ^ 41
          rw [hp2']; exact h.psz_lt
        · intro hh; simp at hh
        · show TableOk c.processes c.process_count c.page_size_bytes
          rw [hp1', hp2']
          exact L.table
        · show ∀ k, k < c.alive_count → arrGet c.alive_indices k < c.process_count
          rw [hp5', hp6', hp1']; exact h.alive_lt
        · show c.fifo_queue.length = c.fifo_capacity
          rw [hp8', hp7']; exact h.fifo_len
        · show (c.fifo_capacity : Int) = c.ram_frame_count
          rw [hp7', hp9']; exact h.fifo_cap
    · have : create_process st r = st := by
        have : MAX_PROCESSES ≤ st.process_count := by omega
        simp [create_process, this]
      rw [this]; exact h
  · have : create_process st r = st := by
      simp only [Bool.not_eq_true] at hrun
      simp [create_process, hrun]
    rw [this]; exact h

/-! ## Reachable states satisfy the invariant -/

theorem occupiedCount_replicate (n : Nat) : occupiedCount (List.replicate n default) = 0 := by
  induction n with
  | zero => rfl
  | succ k ih =>
    rw [List.replicate_succ]
    unfold occupiedCount at ih ⊢
    rw [List.countP_cons, ih]
    rfl

theorem linked_init (n : Nat) (V : View) (hV : ∀ i j, V i j = none) :
    Linked (List.replicate n default) V := by
  refine ⟨?_, ?_⟩
  · intro f fr hf ho
    rw [List.getElem?_replicate] at hf
    by_cases hlt : f < n
    · simp only [hlt, if_true, Option.some.injEq] at hf
      subst hf
      exact absurd ho (by decide)
    · simp [hlt] at hf
  · intro i j x hx
    rw [hV] at hx
    cases hx

theorem inv_init {pm pk : Int} {vm : Nat} (h : ValidConfig pm pk vm) :
    Inv (init_memory pm pk vm) := by
  obtain ⟨_, _, hk0, hk1, hr, hs⟩ := h
  have hpsz : ((pk * 1024) % 2 ^ 64).toNat = (pk * 1024).toNat := by
    norm_num
    omega
  refine ⟨⟨?_, ?_, ?_, ?_, ?_, ?_, ?_⟩, ?_, ?_, ?_, ?_, ?_, ?_, ?_⟩
  · show ((List.replicate _ _).length : Int) = (init_memory pm pk vm).ram_frame_count
    rw [List.length_replicate]
    exact Int.toNat_of_nonneg hr
  · show ((List.replicate _ _).length : Int) = (init_memory pm pk vm).swap_slot_count
    rw [List.length_replicate]
    exact Int.toNat_of_nonneg hs
  · show (occupiedCount (List.replicate _ default) : Int) + _ = _
    rw [occupiedCount_replicate]
    show ((0 : Nat) : Int) + (init_memory pm pk vm).ram_frame_count = _
    simp
  · show (occupiedCount (List.replicate _ default) : Int) + _ = _
    rw [occupiedCount_replicate]
    show ((0 : Nat) : Int) + (init_memory pm pk vm).swap_slot_count = _
    simp
  · exact linked_init _ _ (fun _ _ => rfl)
  · exact linked_init _ _ (fun _ _ => rfl)
  · intro i j pg hpg
    cases hpg
  · show 0 < ((pk * 1024) % 2 ^ 64).toNat
    rw [hpsz]; omega
  · show ((pk * 1024) % 2 ^ 64).toNat < 2 ^ 41
    rw [hpsz]; omega
  · intro _; rfl
  · intro i p hp
    cases hp
  · intro k hk
    exact absurd hk (Nat.not_lt_zero _)
  · show (List.replicate _ (0 : Int)).length = _
    rw [List.length_replicate]; rfl
  · exact Int.toNat_of_nonneg hr

theorem inv_step {st : State} (h : Inv st) (op : Op) : Inv (step st op) := by
  cases op with
  | create r => exact inv_create h r
  | kill r => exact inv_kill h r
  | access r1 r2 => exact inv_access h r1 r2
  | stop => exact h.end_simulation

theorem Reachable.inv {st : State} (h : Reachable st) : Inv st := by
  induction h with
  | init pm pk vm hv => exact inv_init hv
  | step st op _ ih => exact inv_step ih op

/-! ## The free entries of a pool -/

theorem scan_free_eq (a : List Frame) : ∀ (k i : Nat), i + k = a.length →
    scan_free a k i =
      match freeFrom (a.drop i) i with
      | [] => -1
      | f :: _ => (f : Int) := by
  intro k
  induction k with
  | zero =>
    intro i hi
    rw [List.drop_eq_nil_of_le (by omega)]
    rfl
  | succ k ih =>
    intro i hi
    have hlt : i < a.length := by omega
    rw [List.drop_eq_getElem_cons hlt]
    unfold scan_free freeFrom
    have hg : a.getD i default = a[i] := by
      simp [List.getD_eq_getElem?_getD, List.getElem?_eq_getElem hlt]
    rw [hg]
    by_cases ho : a[i].occupied = true
    · simp only [ho, Bool.not_true, Bool.false_eq_true, if_false, if_true]
      exact ih (i + 1) (by omega)
    · simp only [Bool.not_eq_true] at ho
      simp only [ho, Bool.not_false, if_true, Bool.false_eq_true, if_false]

theorem freeFrom_ge (a : List Frame) : ∀ (i f : Nat), f ∈ freeFrom a i → i ≤ f := by
  induction a with
  | nil => intro i f h; simp [freeFrom] at h
  | cons fr t ih =>
    intro i f h
    unfold freeFrom at h
    by_cases ho : fr.occupied = true
    · simp only [ho, if_true] at h
      have := ih (i + 1) f h
      omega
    · simp only [ho, Bool.false_eq_true, if_false, List.mem_cons] at h
      rcases h with h | h
      · omega
      · have := ih (i + 1) f h
        omega

theorem freeFrom_set_head (a : List Frame) : ∀ (i f : Nat) (rest : List Nat) (p : Option PagePtr),
    freeFrom a i = f :: rest → freeFrom (a.set (f - i) ⟨true, p⟩) i = rest := by
  induction a with
  | nil => intro i f rest p h; simp [freeFrom] at h
  | cons fr t ih =>
    intro i f rest p h
    unfold freeFrom at h
    by_cases ho : fr.occupied = true
    · simp only [ho, if_true] at h
      have hge := freeFrom_ge t (i + 1) f (by rw [h]; simp)
      have e : f - i = (f - (i + 1)) + 1 := by omega
      rw [e, List.set_cons_succ]
      unfold freeFrom
      simp only [ho, if_true]
      exact ih (i + 1) f rest p h
    · simp only [ho, Bool.false_eq_true, if_false, List.cons.injEq] at h
      obtain ⟨h1, h2⟩ := h
      subst h1
      simp only [Nat.sub_self, List.set_cons_zero]
      unfold freeFrom
      simp only [if_true]
      exact h2

theorem occupiedCount_cons (fr : Frame) (t : List Frame) :
    occupiedCount (fr :: t) = occupiedCount t + if fr.occupied = true then 1 else 0 := by
  unfold occupiedCount
  exact List.countP_cons _ _ _

theorem freeFrom_length (a : List Frame) : ∀ i : Nat,
    (freeFrom a i).length + occupiedCount a = a.length := by
  induction a with
  | nil => intro i; rfl
  | cons fr t ih =>
    intro i
    have := ih (i + 1)
    rw [occupiedCount_cons]
    unfold freeFrom
    by_cases ho : fr.occupied = true
    · simp only [ho, if_true, List.length_cons]
      omega
    · simp only [ho, Bool.false_eq_true, if_false, List.length_cons]
      omega

theorem Core.free_ram_eq {st : State} (h : Core st) :
    st.free_ram_frames = ((freeIdxs st.ram_frames).length : Nat) := by
  have h1 := freeFrom_length st.ram_frames 0
  have h2 := h.ram_occ
  have h3 := h.ram_len
  unfold freeIdxs
  omega

theorem Core.free_swap_eq {st : State} (h : Core st) :
    st.free_swap_slots = ((freeIdxs st.swap_slots).length : Nat) := by
  have h1 := freeFrom_length st.swap_slots 0
  have h2 := h.swap_occ
  have h3 := h.swap_len
  unfold freeIdxs
  omega

theorem Core.get_free_ram_frame_eq {st : State} (h : Core st) :
    get_free_ram_frame st =
      match freeIdxs st.ram_frames with
      | [] => -1
      | f :: _ => (f : Int) := by
  unfold get_free_ram_frame freeIdxs
  have := scan_free_eq st.ram_frames st.ram_frame_count.toNat 0
    (by have := h.ram_len; omega)
  rw [this, List.drop_zero]

theorem Core.get_free_swap_slot_eq {st : State} (h : Core st) :
    get_free_swap_slot st =
      match freeIdxs st.swap_slots with
      | [] => -1
      | f :: _ => (f : Int) := by
  unfold get_free_swap_slot freeIdxs
  have := scan_free_eq st.swap_slots st.swap_slot_count.toNat 0
    (by have := h.swap_len; omega)
  rw [this, List.drop_zero]

/-! ## What the placement loop computes -/

theorem CreateLoop.pid_eq {st0 cur : State} {idx n i : Nat} (L : CreateLoop st0 idx n i cur) :
    (arrGet cur.processes idx).pid = (arrGet st0.processes idx).pid := by
  obtain ⟨q, hq, _⟩ := L.len
  have he := L.entry
  rw [hq] at he
  cases h0 : st0.processes[idx]? with
  | none => rw [h0] at he; cases he
  | some q0 =>
    rw [h0] at he
    simp only [Option.map_some', Option.some.injEq, Process.hdr, Prod.mk.injEq] at he
    rw [arrGet_eq_of_getElem? hq, arrGet_eq_of_getElem? h0]
    exact he.1

/-- One iteration of the placement loop that finds a free frame. -/
theorem CreateLoop.step_ram {st0 cur : State} {idx n i : Nat} (L : CreateLoop st0 idx n i cur)
    (hi : i < n) (a b : Nat) (f : Int)
    (hf : get_free_ram_frame cur = f) (h0 : 0 ≤ f) :
    CreateLoop st0 idx n (i + 1)
      (put_in_ram (modPage cur (idx, i) (fun pg =>
        { pg with pid := a, page_number := b, frame_index := -1, swap_index := -1 }))
        (idx, i) f) := by
  obtain ⟨pg, hpg⟩ := L.page hi
  have hfl := (L.placed i pg hpg).2 (le_refl _)
  have hc1 := core_modPage_init L.core
    (by intro q hq; rw [hpg] at hq; simp at hq; subst hq; exact hfl) a b (-1) (-1)
  have L1 := L.keep _ hc1 (modPage_sameParams _ _ _) rfl (fun _ => ⟨rfl, rfl⟩)
  have hpg1 : pageAt (modPage cur (idx, i) (fun pg =>
      { pg with pid := a, page_number := b, frame_index := -1, swap_index := -1 })) idx i =
      some { pg with pid := a, page_number := b, frame_index := -1, swap_index := -1 } := by
    rw [pageAt_modPage]; simp [hpg]
  exact L1.next (fun pg => { pg with in_ram := true, frame_index := f })
    (core_put_in_ram hc1 hpg1 hfl.1 hfl.2 hf h0)
    (put_in_ram_sameParams _ _ _) rfl (fun _ => Or.inl rfl)

/-- One iteration of the placement loop that finds a free swap slot. -/
theorem CreateLoop.step_swap {st0 cur : State} {idx n i : Nat}
    (L : CreateLoop st0 idx n i cur)
    (hi : i < n) (a b : Nat) (s : Int)
    (hs : get_free_swap_slot cur = s) (h0 : 0 ≤ s) :
    CreateLoop st0 idx n (i + 1)
      (put_in_swap (modPage cur (idx, i) (fun pg =>
        { pg with pid := a, page_number := b, frame_index := -1, swap_index := -1 }))
        (idx, i) s) := by
  obtain ⟨pg, hpg⟩ := L.page hi
  have hfl := (L.placed i pg hpg).2 (le_refl _)
  have hc1 := core_modPage_init L.core
    (by intro q hq; rw [hpg] at hq; simp at hq; subst hq; exact hfl) a b (-1) (-1)
  have L1 := L.keep _ hc1 (modPage_sameParams _ _ _) rfl (fun _ => ⟨rfl, rfl⟩)
  have hpg1 : pageAt (modPage cur (idx, i) (fun pg =>
      { pg with pid := a, page_number := b, frame_index := -1, swap_index := -1 })) idx i =
      some { pg with pid := a, page_number := b, frame_index := -1, swap_index := -1 } := by
    rw [pageAt_modPage]; simp [hpg]
  exact L1.next (fun pg => { pg with in_swap := true, swap_index := s })
    (core_put_in_swap hc1 hpg1 hfl.1 hfl.2 hs h0)
    (put_in_swap_sameParams _ _ _) rfl (fun _ => Or.inr rfl)

theorem enqueueAll_congr (l : List Nat) : ∀ (st1 st2 : State),
    st1.fifo_queue = st2.fifo_queue → st1.fifo_head = st2.fifo_head →
    st1.fifo_size = st2.fifo_size → st1.fifo_capacity = st2.fifo_capacity →
    enqueueAll st1 l = enqueueAll st2 l := by
  induction l with
  | nil =>
    intro st1 st2 h1 h2 h3 _
    simp [enqueueAll, h1, h2, h3]
  | cons f t ih =>
    intro st1 st2 h1 h2 h3 h4
    have := ih (enqueue_frame_fifo st1 f) (enqueue_frame_fifo st2 f)
      (by simp [enqueue_frame_fifo, h1, h2, h3, h4]) (by simp [enqueue_frame_fifo, h2])
      (by simp [enqueue_frame_fifo, h3]) (by simp [enqueue_frame_fifo, h4])
    simpa [enqueueAll] using this

theorem freeIdxs_set_head {a : List Frame} {f : Nat} {rest : List Nat}
    (h : freeIdxs a = f :: rest) (p : Option PagePtr) :
    freeIdxs (a.set f ⟨true, p⟩) = rest := by
  have := freeFrom_set_head a 0 f rest p h
  simpa [freeIdxs] using this

theorem pageAt_step_ram (cur : State) (idx i a b : Nat) (f : Int) (pg : Page)
    (hpg : pageAt cur idx i = some pg) (j : Nat) :
    pageAt (put_in_ram (modPage cur (idx, i) (fun pg =>
        { pg with pid := a, page_number := b, frame_index := -1, swap_index := -1 }))
        (idx, i) f) idx j =
      if j = i then
        some { pid := a, page_number := b, in_ram := true, frame_index := f,
               in_swap := pg.in_swap, swap_index := -1 }
      else pageAt cur idx j := by
  rw [pageAt_put_in_ram, pageAt_modPage]
  by_cases hj : j = i
  · subst hj; simp [hpg]
  · simp [hj]

theorem pageAt_step_swap (cur : State) (idx i a b : Nat) (s : Int) (pg : Page)
    (hpg : pageAt cur idx i = some pg) (j : Nat) :
    pageAt (put_in_swap (modPage cur (idx, i) (fun pg =>
        { pg with pid := a, page_number := b, frame_index := -1, swap_index := -1 }))
        (idx, i) s) idx j =
      if j = i then
        some { pid := a, page_number := b, in_ram := pg.in_ram, frame_index := -1,
               in_swap := true, swap_index := s }
      else pageAt cur idx j := by
  rw [pageAt_put_in_swap, pageAt_modPage]
  by_cases hj : j = i
  · subst hj; simp [hpg]
  · simp [hj]

theorem enqueueAll_cons (st : State) (f : Nat) (l : List Nat) :
    enqueueAll st (f :: l) = enqueueAll (enqueue_frame_fifo st (f : Int)) l := rfl

/-- The placement loop with enough room: it ends normally, the pages `i, …, i + k - 1` are
placed in order into the free frames `F`, lowest first, and then into the free slots `S`,
lowest first; each frame used is enqueued, and the counters drop accordingly. -/
theorem create_pages_ok (st0 : State) (idx n : Nat) :
    ∀ (k i : Nat) (cur : State) (F S : List Nat),
    i + k = n → CreateLoop st0 idx n i cur →
    freeIdxs cur.ram_frames = F → freeIdxs cur.swap_slots = S →
    k ≤ F.length + S.length →
    ∃ fin, create_pages idx k i cur = .ok fin ∧
      fin.free_ram_frames = cur.free_ram_frames - ((min k F.length : Nat) : Int) ∧
      fin.free_swap_slots = cur.free_swap_slots - ((k - min k F.length : Nat) : Int) ∧
      (fin.fifo_queue, fin.fifo_head, fin.fifo_size) = enqueueAll cur (F.take k) ∧
      (∀ j, j < i → pageAt fin idx j = pageAt cur idx j) ∧
      (∀ j, j < k → pageAt fin idx (i + j) =
        some (placedPage (arrGet st0.processes idx).pid (i + j) F S j)) := by
  intro k
  induction k with
  | zero =>
    intro i cur F S _ _ _ _ _
    refine ⟨cur, rfl, by simp, by simp, by simp [enqueueAll], fun _ _ => rfl, ?_⟩
    intro j hj
    omega
  | succ k ih =>
    intro i cur F S hik L hF hS hk
    have hi : i < n := by omega
    obtain ⟨pg, hpg⟩ := L.page hi
    have hfl := (L.placed i pg hpg).2 (le_refl _)
    have hpid := L.pid_eq
    have hgr := L.core.get_free_ram_frame_eq
    have hgs := L.core.get_free_swap_slot_eq
    rw [hF] at hgr
    rw [hS] at hgs
    unfold create_pages
    dsimp only
    have e1 : get_free_ram_frame (modPage cur (idx, i) (fun pg =>
        { pg with pid := (arrGet cur.processes idx).pid, page_number := i,
                  frame_index := -1, swap_index := -1 })) = get_free_ram_frame cur := rfl
    have e2 : get_free_swap_slot (modPage cur (idx, i) (fun pg =>
        { pg with pid := (arrGet cur.processes idx).pid, page_number := i,
                  frame_index := -1, swap_index := -1 })) = get_free_swap_slot cur := rfl
    rw [e1, e2]
    cases F with
    | cons f F' =>
      simp only at hgr
      have h0 : (0 : Int) ≤ (f : Int) := Int.ofNat_nonneg f
      rw [hgr, if_pos h0]
      have L2 := L.step_ram hi (arrGet cur.processes idx).pid i _ hgr h0
      have hF2 : freeIdxs (put_in_ram (modPage cur (idx, i) (fun pg =>
          { pg with pid := (arrGet cur.processes idx).pid, page_number := i,
                    frame_index := -1, swap_index := -1 })) (idx, i) (f : Int)).ram_frames = F' := by
        show freeIdxs (cur.ram_frames.set (f : Int).toNat _) = F'
        rw [Int.toNat_ofNat]
        exact freeIdxs_set_head hF _
      obtain ⟨fin, h1, h2, h3, h4, h5, h6⟩ := ih (i + 1) _ F' S (by omega) L2 hF2 hS
        (by simp only [List.length_cons] at hk; omega)
      refine ⟨fin, h1, ?_, ?_, ?_, ?_, ?_⟩
      · rw [h2]
        show cur.free_ram_frames - 1 - _ = _
        simp only [List.length_cons]
        omega
      · rw [h3]
        show cur.free_swap_slots - _ = _
        simp only [List.length_cons]
        omega
      · rw [h4, List.take_succ_cons, enqueueAll_cons]
        exact enqueueAll_congr _ _ _ rfl rfl rfl rfl
      · intro j hj
        rw [h5 j (by omega), pageAt_step_ram _ _ _ _ _ _ pg hpg]
        simp [show ¬ j = i by omega]
      · intro j hj
        cases j with
        | zero =>
          rw [Nat.add_zero, h5 i (by omega), pageAt_step_ram _ _ _ _ _ _ pg hpg]
          simp [placedPage, hfl.2, hpid]
        | succ j' =>
          have := h6 j' (by omega)
          rw [show i + (j' + 1) = i + 1 + j' by omega, this]
          simp [placedPage]
    | nil =>
      simp only at hgr
      rw [hgr, if_neg (by omega)]
      cases S with
      | nil => simp at hk
      | cons s S' =>
        simp only at hgs
        have h0 : ¬ ((s : Int) < 0) := by
          have := Int.ofNat_nonneg s
          omega
        rw [hgs, if_neg h0]
        have L2 := L.step_swap hi (arrGet cur.processes idx).pid i _ hgs (Int.ofNat_nonneg s)
        have hS2 : freeIdxs (put_in_swap (modPage cur (idx, i) (fun pg =>
            { pg with pid := (arrGet cur.processes idx).pid, page_number := i,
                      frame_index := -1, swap_index := -1 })) (idx, i) (s : Int)).swap_slots
            = S' := by
          show freeIdxs (cur.swap_slots.set (s : Int).toNat _) = S'
          rw [Int.toNat_ofNat]
          exact freeIdxs_set_head hS _
        obtain ⟨fin, h1, h2, h3, h4, h5, h6⟩ := ih (i + 1) _ [] S' (by omega) L2 hF hS2
          (by simp only [List.length_cons, List.length_nil] at hk ⊢; omega)
        refine ⟨fin, h1, ?_, ?_, ?_, ?_, ?_⟩
        · rw [h2]
          show cur.free_ram_frames - _ = _
          simp
        · rw [h3]
          show cur.free_swap_slots - 1 - _ = _
          simp only [List.length_nil, Nat.min_zero, Nat.sub_zero]
          push_cast
          omega
        · rw [h4]
          simp only [List.take_nil]
          exact enqueueAll_congr _ _ _ rfl rfl rfl rfl
        · intro j hj
          rw [h5 j (by omega), pageAt_step_swap _ _ _ _ _ _ pg hpg]
          simp [show ¬ j = i by omega]
        · intro j hj
          cases j with
          | zero =>
            rw [Nat.add_zero, h5 i (by omega), pageAt_step_swap _ _ _ _ _ _ pg hpg]
            simp [placedPage, hfl.1, hpid]
          | succ j' =>
            have := h6 j' (by omega)
            rw [show i + (j' + 1) = i + 1 + j' by omega, this]
            simp [placedPage]

theorem end_simulation_running (st : State) : (end_simulation st).simulation_running = false := by
  unfold end_simulation
  cases h : st.simulation_running <;> simp [h]

/-- The placement loop without enough room: it ends the simulation; when nothing at all is
free it does so before touching a frame or a slot. -/
theorem create_pages_error (st0 : State) (idx n : Nat) :
    ∀ (k i : Nat) (cur : State) (F S : List Nat),
    i + k = n → CreateLoop st0 idx n i cur →
    freeIdxs cur.ram_frames = F → freeIdxs cur.swap_slots = S →
    F.length + S.length < k →
    ∃ fin, create_pages idx k i cur = .error fin ∧ fin.simulation_running = false ∧
      (F = [] → S = [] → fin.ram_frames = cur.ram_frames ∧ fin.swap_slots = cur.swap_slots) := by
  intro k
  induction k with
  | zero =>
    intro i cur F S _ _ _ _ hk
    omega
  | succ k ih =>
    intro i cur F S hik L hF hS hk
    have hi : i < n := by omega
    have hgr := L.core.get_free_ram_frame_eq
    have hgs := L.core.get_free_swap_slot_eq
    rw [hF] at hgr
    rw [hS] at hgs
    unfold create_pages
    dsimp only
    have e1 : get_free_ram_frame (modPage cur (idx, i) (fun pg =>
        { pg with pid := (arrGet cur.processes idx).pid, page_number := i,
                  frame_index := -1, swap_index := -1 })) = get_free_ram_frame cur := rfl
    have e2 : get_free_swap_slot (modPage cur (idx, i) (fun pg =>
        { pg with pid := (arrGet cur.processes idx).pid, page_number := i,
                  frame_index := -1, swap_index := -1 })) = get_free_swap_slot cur := rfl
    rw [e1, e2]
    cases F with
    | cons f F' =>
      simp only at hgr
      have h0 : (0 : Int) ≤ (f : Int) := Int.ofNat_nonneg f
      rw [hgr, if_pos h0]
      have L2 := L.step_ram hi (arrGet cur.processes idx).pid i _ hgr h0
      have hF2 : freeIdxs (put_in_ram (modPage cur (idx, i) (fun pg =>
          { pg with pid := (arrGet cur.processes idx).pid, page_number := i,
                    frame_index := -1, swap_index := -1 })) (idx, i) (f : Int)).ram_frames = F' := by
        show freeIdxs (cur.ram_frames.set (f : Int).toNat _) = F'
        rw [Int.toNat_ofNat]
        exact freeIdxs_set_head hF _
      obtain ⟨fin, h1, h2, _⟩ := ih (i + 1) _ F' S (by omega) L2 hF2 hS
        (by simp only [List.length_cons] at hk; omega)
      exact ⟨fin, h1, h2, fun hh => by cases hh⟩
    | nil =>
      simp only at hgr
      rw [hgr, if_neg (by omega)]
      cases S with
      | nil =>
        simp only at hgs
        rw [hgs, if_pos (by omega)]
        exact ⟨_, rfl, end_simulation_running _, fun _ _ => by
          unfold end_simulation
          split <;> exact ⟨rfl, rfl⟩⟩
      | cons s S' =>
        simp only at hgs
        have h0 : ¬ ((s : Int) < 0) := by
          have := Int.ofNat_nonneg s
          omega
        rw [hgs, if_neg h0]
        have L2 := L.step_swap hi (arrGet cur.processes idx).pid i _ hgs (Int.ofNat_nonneg s)
        have hS2 : freeIdxs (put_in_swap (modPage cur (idx, i) (fun pg =>
            { pg with pid := (arrGet cur.processes idx).pid, page_number := i,
                      frame_index := -1, swap_index := -1 })) (idx, i) (s : Int)).swap_slots
            = S' := by
          show freeIdxs (cur.swap_slots.set (s : Int).toNat _) = S'
          rw [Int.toNat_ofNat]
          exact freeIdxs_set_head hS _
        obtain ⟨fin, h1, h2, _⟩ := ih (i + 1) _ [] S' (by omega) L2 hF hS2
          (by simp only [List.length_cons, List.length_nil] at hk ⊢; omega)
        exact ⟨fin, h1, h2, fun _ hh => by cases hh⟩

/-- The facts on which the analysis of `create_process` rests. -/
theorem create_setup {st : State} (h : Inv st) (r : Nat) (hrun : st.simulation_running = true) :
    ∃ q : Nat, proc_pages st r = (q : Int) ∧ 0 < q ∧
      CreateLoop (create_entry st r) st.process_count q 0 (create_entry st r) ∧
      st.free_ram_frames = ((freeIdxs st.ram_frames).length : Nat) ∧
      st.free_swap_slots = ((freeIdxs st.swap_slots).length : Nat) := by
  obtain ⟨hs1, hs2⟩ := proc_size_bounds r
  obtain ⟨q, hq, hq0, _, _, _⟩ := num_pages_spec h.psz_pos h.psz_lt hs1 hs2
  exact ⟨q, hq, hq0, createLoop_entry h r hrun hq, h.core.free_ram_eq, h.core.free_swap_eq⟩

theorem countP_placed (pid : Nat) (F S : List Nat) (ps : List Page) :
    ∀ n : Nat, ps.length = n → (∀ j, j < n → ps[j]? = some (placedPage pid j F S j)) →
    ps.countP (fun pg => pg.in_ram) = min n F.length ∧
    ps.countP (fun pg => pg.in_swap) = n - min n F.length := by
  intro n
  induction n generalizing ps with
  | zero =>
    intro hl _
    have : ps = [] := List.length_eq_zero.mp hl
    subst this
    simp
  | succ m ih =>
    intro hl hp
    have hne : ps ≠ [] := by
      intro he; subst he; simp at hl
    obtain ⟨init, last, rfl⟩ : ∃ init last, ps = init ++ [last] :=
      ⟨ps.dropLast, ps.getLast hne, (List.dropLast_append_getLast hne).symm⟩
    have hil : init.length = m := by simp at hl; exact hl
    have hlast : last = placedPage pid m F S m := by
      have := hp m (by omega)
      rw [List.getElem?_append_right (by omega), hil] at this
      simpa using this
    have hinit : ∀ j, j < m → init[j]? = some (placedPage pid j F S j) := by
      intro j hj
      have := hp j (by omega)
      rwa [List.getElem?_append_left (by omega)] at this
    obtain ⟨h1, h2⟩ := ih init hil hinit
    rw [List.countP_append, List.countP_append, h1, h2, hlast]
    by_cases hm : m < F.length
    · simp [placedPage, hm, List.countP_cons]
      omega
    · simp [placedPage, hm, List.countP_cons]
      omega

/-! ## What `kill_random_process` releases -/

theorem poolIdxs_length (sel : Page → Bool × Int) (ps : List Page) :
    (poolIdxs sel ps).length = ps.countP (fun pg => (sel pg).1) := by
  induction ps with
  | nil => rfl
  | cons a t ih =>
    rw [poolIdxs_cons, List.length_append, ih, List.countP_cons]
    by_cases h : (sel a).1 = true
    · simp [h]; omega
    · simp [h]

theorem ramIdxs_length (ps : List Page) :
    (ramIdxs ps).length = ps.countP (fun pg => pg.in_ram) := by
  rw [ramIdxs_eq, poolIdxs_length]; rfl

theorem swapIdxs_length (ps : List Page) :
    (swapIdxs ps).length = ps.countP (fun pg => pg.in_swap) := by
  rw [swapIdxs_eq, poolIdxs_length]; rfl

/-- Entry `f` of a pool after the release of the entries of the pages `ps` of process
`idx`: free when one of the pages was there, untouched otherwise. -/
theorem freeAll_pool {pool : List Frame} {V : View} (h : Linked pool V) (idx : Nat)
    (sel : Page → Bool × Int) (ps : List Page)
    (hV : ∀ j, V idx j = (ps[j]?).map sel) (f : Nat) :
    ((∃ (j : Nat) (pg : Page), ps[j]? = some pg ∧ (sel pg).1 = true ∧ (sel pg).2 = (f : Int)) →
      pool[f]? ≠ none ∧ (freeAll pool (poolIdxs sel ps))[f]? = some ⟨false, none⟩) ∧
    (¬ (∃ (j : Nat) (pg : Page), ps[j]? = some pg ∧ (sel pg).1 = true ∧
        (sel pg).2 = (f : Int)) →
      (freeAll pool (poolIdxs sel ps))[f]? = pool[f]?) := by
  rw [freeAll_getElem?]
  constructor
  · rintro ⟨j, pg, hj, h1, h2⟩
    have hv : V idx j = some (true, (f : Int)) := by
      rw [hV, hj]
      simp only [Option.map_some', Option.some.injEq]
      rw [← h1, ← h2]
    obtain ⟨g, hg, hpg⟩ := h.2 idx j _ hv
    have hgf : g = f := by omega
    subst hgf
    have hmem : g ∈ poolIdxs sel ps := mem_poolIdxs.mpr ⟨j, pg, hj, h1, by rw [h2]; simp⟩
    simp [hmem, hpg]
  · intro hno
    have hmem : ¬ f ∈ poolIdxs sel ps := by
      intro hm
      obtain ⟨j, pg, hj, h1, h2⟩ := mem_poolIdxs.mp hm
      apply hno
      refine ⟨j, pg, hj, h1, ?_⟩
      have hv : V idx j = some (true, (sel pg).2) := by
        rw [hV, hj]
        simp only [Option.map_some', Option.some.injEq]
        rw [← h1]
      obtain ⟨g, hg, _⟩ := h.2 idx j _ hv
      omega
    simp [hmem]

/-! ## A swapped-out page that is accessed -/

/-- After `load_page` of a swapped-out page into a free frame: the page is InRam in that
frame, its old slot is free, the frame is the last ledger entry. -/
theorem load_page_facts {s : State} (hc : Core s) (hlen : s.fifo_queue.length = s.fifo_capacity)
    (hcap : (s.fifo_capacity : Int) = s.ram_frame_count)
    {i0 j0 : Nat} {pg : Page} {f : Int} {fr : Frame}
    (hpg : pageAt s i0 j0 = some pg) (hsw : pg.in_swap = true)
    (hf : s.ram_frames[f.toNat]? = some fr) :
    pageAt (load_page s (i0, j0) f) i0 j0 =
      some { pg with in_ram := true, frame_index := f, in_swap := false, swap_index := -1 } ∧
    (load_page s (i0, j0) f).ram_frames[f.toNat]? = some ⟨true, some (i0, j0)⟩ ∧
    (load_page s (i0, j0) f).swap_slots[pg.swap_index.toNat]? = some ⟨false, none⟩ ∧
    0 < (load_page s (i0, j0) f).fifo_size ∧
    (load_page s (i0, j0) f).fifo_queue[((load_page s (i0, j0) f).fifo_head +
      (load_page s (i0, j0) f).fifo_size - 1) % (load_page s (i0, j0) f).fifo_capacity]? =
        some f ∧
    (load_page s (i0, j0) f).simulation_running = s.simulation_running := by
  have hview : swapView s i0 j0 = some (true, pg.swap_index) := by
    simp [swapView, hpg, hsw]
  obtain ⟨k, hk, hslot⟩ := hc.swap_link.2 i0 j0 _ hview
  have hold : 0 ≤ pg.swap_index := by omega
  have hkn : pg.swap_index.toNat = k := by omega
  have hflt : f.toNat < s.ram_frames.length := (List.getElem?_eq_some.mp hf).1
  have hcpos : 0 < s.fifo_capacity := by
    have := hc.ram_len
    omega
  have hP : pageAt (load_page s (i0, j0) f) i0 j0 =
      if i0 = i0 ∧ j0 = j0 then
        (pageAt s i0 j0).map
          (fun pg => { pg with in_ram := true, frame_index := f, in_swap := false,
                               swap_index := -1 })
      else pageAt s i0 j0 := by
    rw [load_page_eq f hpg hold, ← pageAt_modPage]
    exact pageAt_congr rfl i0 j0
  refine ⟨?_, ?_, ?_, ?_, ?_, ?_⟩
  · rw [hP]; simp [hpg]
  · rw [load_page_eq f hpg hold]
    show (s.ram_frames.set f.toNat _)[f.toNat]? = _
    rw [getElem?_set_self_map, hf]; rfl
  · rw [load_page_eq f hpg hold]
    show (s.swap_slots.set pg.swap_index.toNat _)[pg.swap_index.toNat]? = _
    rw [getElem?_set_self_map, hkn, hslot]; rfl
  · rw [load_page_eq f hpg hold]
    show 0 < s.fifo_size + 1
    omega
  · rw [load_page_eq f hpg hold]
    show (s.fifo_queue.set ((s.fifo_head + s.fifo_size) % s.fifo_capacity) f)[
      (s.fifo_head + (s.fifo_size + 1) - 1) % s.fifo_capacity]? = some f
    have e : s.fifo_head + (s.fifo_size + 1) - 1 = s.fifo_head + s.fifo_size := by omega
    rw [e, getElem?_set_self_map,
      List.getElem?_eq_getElem (by rw [hlen]; exact Nat.mod_lt _ hcpos)]
    rfl
  · rw [load_page_eq f hpg hold]
    rfl

/-- The fault path for a page that is in swap: if it does not end the simulation, the page
ends InRam, its slot free, its frame last in the ledger. -/
theorem fault_load_facts {st : State} (h : Inv st) {i0 j0 : Nat} {pg : Page}
    (hpg : pageAt st i0 j0 = some pg) (hnr : pg.in_ram = false) (hsw : pg.in_swap = true)
    (hlive : (fault_load st (i0, j0)).simulation_running = true) :
    ∃ f : Nat,
      pageAt (fault_load st (i0, j0)) i0 j0 =
        some { pg with in_ram := true, frame_index := (f : Int), in_swap := false,
                       swap_index := -1 } ∧
      (fault_load st (i0, j0)).ram_frames[f]? = some ⟨true, some (i0, j0)⟩ ∧
      (fault_load st (i0, j0)).swap_slots[pg.swap_index.toNat]? = some ⟨false, none⟩ ∧
      0 < (fault_load st (i0, j0)).fifo_size ∧
      (fault_load st (i0, j0)).fifo_queue[((fault_load st (i0, j0)).fifo_head +
        (fault_load st (i0, j0)).fifo_size - 1) % (fault_load st (i0, j0)).fifo_capacity]? =
          some (f : Int) := by
  revert hlive
  unfold fault_load
  by_cases hf : get_free_ram_frame st < 0
  · simp only [hf, if_true, show dequeue_frame_fifo st = dequeue_loop st.fifo_size st from rfl]
    obtain ⟨heq, hocc⟩ := dequeue_loop_spec st.fifo_size st
    have h1 : Inv (dequeue_loop st.fifo_size st).2 := by
      rw [heq]
      exact h.set_fifo _ _
    have hram : (dequeue_loop st.fifo_size st).2.ram_frames = st.ram_frames := by
      rw [heq]
    have hpr : (dequeue_loop st.fifo_size st).2.processes = st.processes := by
      rw [heq]
    by_cases hv : (dequeue_loop st.fifo_size st).1 < 0
    · simp only [hv, if_true]
      intro hlive
      rw [end_simulation_running] at hlive
      cases hlive
    · simp only [hv, if_false]
      by_cases hs : get_free_swap_slot (dequeue_loop st.fifo_size st).2 < 0
      · simp only [hs, if_true]
        intro hlive
        rw [end_simulation_running] at hlive
        cases hlive
      · simp only [hs, if_false]
        intro _
        obtain ⟨fr, hfr, hfo⟩ := hocc (by omega)
        rw [← hram] at hfr
        obtain ⟨hc, hfree, iv, jv, _, hprocs, pv, hpv, hpvr⟩ :=
          core_evict_victim h1.core hfr hfo rfl (by omega)
        have hpg1 : pageAt (dequeue_loop st.fifo_size st).2 i0 j0 = some pg := by
          rw [pageAt_congr hpr]; exact hpg
        have hpg2 : pageAt (evict_victim (dequeue_loop st.fifo_size st).2
            (dequeue_loop st.fifo_size st).1
            (get_free_swap_slot (dequeue_loop st.fifo_size st).2)) i0 j0 = some pg := by
          rw [pageAt_congr hprocs, pageAt_modPage]
          have : ¬ (i0 = iv ∧ j0 = jv) := by
            intro ⟨h1, h2⟩
            subst h1; subst h2
            rw [hpg1] at hpv
            simp at hpv
            subst hpv
            rw [hnr] at hpvr
            simp at hpvr
          simp only [this, if_false]
          exact hpg1
        have hfn : (dequeue_loop st.fifo_size st).1 =
            (((dequeue_loop st.fifo_size st).1.toNat : Nat) : Int) := by omega
        have hsp := evict_victim_sameParams (dequeue_loop st.fifo_size st).2
          (dequeue_loop st.fifo_size st).1 (get_free_swap_slot (dequeue_loop st.fifo_size st).2)
        have hfacts := load_page_facts hc (by rw [hsp.fifo_len, hsp.fifo_capacity]; exact h1.fifo_len)
          (by rw [hsp.fifo_capacity, hsp.ram_frame_count]; exact h1.fifo_cap)
          hpg2 hsw hfree
        refine ⟨(dequeue_loop st.fifo_size st).1.toNat, ?_⟩
        rw [← hfn]
        exact ⟨hfacts.1, hfacts.2.1, hfacts.2.2.1, hfacts.2.2.2.1, hfacts.2.2.2.2.1⟩
  · simp only [hf, if_false]
    intro _
    obtain ⟨fr, hfr, hfree, hfn⟩ := h.core.free_frame rfl (by omega)
    have hfacts := load_page_facts h.core h.fifo_len h.fifo_cap hpg hsw hfr
    refine ⟨(get_free_ram_frame st).toNat, ?_⟩
    rw [← hfn]
    exact ⟨hfacts.1, hfacts.2.1, hfacts.2.2.1, hfacts.2.2.2.1, hfacts.2.2.2.2.1⟩

/-- The statement of `access_eq` with the addressed page named. -/
theorem access_eq_ptr {st : State} {r1 : Nat} (r2 : Nat) (hrun : st.simulation_running = true)
    (hac : st.alive_count ≠ 0)
    (hal : (arrGet st.processes (accessed_ptr st r1 r2).1).alive = true) :
    simulate_random_access st r1 r2 =
      if (getPage st (accessed_ptr st r1 r2)).in_ram = true then st
      else if (getPage st (accessed_ptr st r1 r2)).in_swap = true then
        fault_load { st with total_page_faults := st.total_page_faults + 1 }
          (accessed_ptr st r1 r2)
      else if get_free_swap_slot { st with total_page_faults := st.total_page_faults + 1 } < 0
        then end_simulation { st with total_page_faults := st.total_page_faults + 1 }
      else fault_load (put_in_swap { st with total_page_faults := st.total_page_faults + 1 }
          (accessed_ptr st r1 r2)
          (get_free_swap_slot { st with total_page_faults := st.total_page_faults + 1 }))
          (accessed_ptr st r1 r2) :=
  access_eq r2 hrun hac hal

/-! ## `dequeue_frame_fifo` on the ledger entries -/

theorem ledger_from_length (q : List Int) (cap : Nat) : ∀ (n h : Nat),
    (ledger_from q cap n h).length = n := by
  intro n
  induction n with
  | zero => intro h; rfl
  | succ n ih => intro h; simp [ledger_from, ih]

theorem ledger_length (st : State) : (ledger st).length = st.fifo_size :=
  ledger_from_length _ _ _ _

/-- The first element of a list that satisfies a test splits the list. -/
theorem exists_first {α : Type} (p : α → Bool) : ∀ (l : List α), (∃ x ∈ l, p x = true) →
    ∃ pre e post, l = pre ++ e :: post ∧ (∀ x ∈ pre, p x = false) ∧ p e = true := by
  intro l
  induction l with
  | nil => rintro ⟨x, hx, _⟩; cases hx
  | cons a t ih =>
    rintro ⟨x, hx, hp⟩
    by_cases ha : p a = true
    · exact ⟨[], a, t, rfl, (by intro y hy; cases hy), ha⟩
    · have hx' : x ∈ t := by
        rcases List.mem_cons.mp hx with h | h
        · subst h; exact absurd hp ha
        · exact h
      obtain ⟨pre, e, post, h1, h2, h3⟩ := ih ⟨x, hx', hp⟩
      refine ⟨a :: pre, e, post, by rw [h1]; rfl, ?_, h3⟩
      intro y hy
      rcases List.mem_cons.mp hy with h | h
      · subst h; simpa using ha
      · exact h2 y h

/-- The loop of `dequeue_frame_fifo` on a ledger of `n` entries: it returns the first entry
whose frame is occupied and leaves the entries after it; without such an entry it returns
`-1` and leaves no entry. -/
theorem dequeue_loop_ledger : ∀ (n : Nat) (st : State), st.fifo_size = n →
    (∀ pre e post, ledger st = pre ++ e :: post →
      (∀ x ∈ pre, frame_occupied st x = false) → frame_occupied st e = true →
      (dequeue_loop n st).1 = e ∧ ledger (dequeue_loop n st).2 = post ∧
      (dequeue_loop n st).2.fifo_size = post.length) ∧
    ((∀ x ∈ ledger st, frame_occupied st x = false) →
      (dequeue_loop n st).1 = -1 ∧ (dequeue_loop n st).2.fifo_size = 0) := by
  intro n
  induction n with
  | zero =>
    intro st hn
    refine ⟨?_, fun _ => ⟨rfl, hn⟩⟩
    intro pre e post hl
    have : (ledger st).length = 0 := by rw [ledger_length, hn]
    rw [hl] at this
    simp at this
  | succ n ih =>
    intro st hn
    have hpos : 0 < st.fifo_size := by omega
    have hl : ledger st = st.fifo_queue.getD st.fifo_head 0 ::
        ledger { st with fifo_head := (st.fifo_head + 1) % st.fifo_capacity
                         fifo_size := st.fifo_size - 1 } := by
      unfold ledger
      rw [hn]
      rfl
    have ih' := ih { st with fifo_head := (st.fifo_head + 1) % st.fifo_capacity
                             fifo_size := st.fifo_size - 1 } (by show st.fifo_size - 1 = n; omega)
    unfold dequeue_loop
    rw [if_pos hpos]
    dsimp only
    by_cases ho : (st.ram_frames.getD (st.fifo_queue.getD st.fifo_head 0).toNat default).occupied
        = true
    · rw [if_pos ho]
      refine ⟨?_, ?_⟩
      · intro pre e post hsplit hpre he
        rw [hl] at hsplit
        cases pre with
        | nil =>
          simp only [List.nil_append, List.cons.injEq] at hsplit
          obtain ⟨h1, h2⟩ := hsplit
          refine ⟨h1, h2, ?_⟩
          rw [← h2, ledger_length]
        | cons a pre' =>
          simp only [List.cons_append, List.cons.injEq] at hsplit
          have := hpre a (by simp)
          rw [← hsplit.1] at this
          unfold frame_occupied at this
          rw [ho] at this
          cases this
      · intro hall
        have := hall (st.fifo_queue.getD st.fifo_head 0) (by rw [hl]; simp)
        unfold frame_occupied at this
        rw [ho] at this
        cases this
    · rw [if_neg ho]
      refine ⟨?_, ?_⟩
      · intro pre e post hsplit hpre he
        rw [hl] at hsplit
        cases pre with
        | nil =>
          simp only [List.nil_append, List.cons.injEq] at hsplit
          rw [← hsplit.1] at he
          exact absurd he ho
        | cons a pre' =>
          simp only [List.cons_append, List.cons.injEq] at hsplit
          exact ih'.1 pre' e post hsplit.2 (fun x hx => hpre x (by simp [hx])) he
      · intro hall
        exact ih'.2 (fun x hx => hall x (by rw [hl]; simp [hx]))

/-- The loop of `dequeue_frame_fifo` keeps the head inside a buffer of positive
capacity. -/
theorem dequeue_loop_head_lt : ∀ (n : Nat) (st : State), 0 < st.fifo_capacity →
    st.fifo_head < st.fifo_capacity → (dequeue_loop n st).2.fifo_head < st.fifo_capacity := by
  intro n
  induction n with
  | zero => intro st _ h; exact h
  | succ n ih =>
    intro st hcap h
    unfold dequeue_loop
    by_cases hpos : 0 < st.fifo_size
    · rw [if_pos hpos]
      dsimp only
      by_cases ho : (st.ram_frames.getD (st.fifo_queue.getD st.fifo_head 0).toNat
          default).occupied = true
      · rw [if_pos ho]
        exact Nat.mod_lt _ hcap
      · rw [if_neg ho]
        exact ih { st with fifo_head := (st.fifo_head + 1) % st.fifo_capacity
                           fifo_size := st.fifo_size - 1 } hcap (Nat.mod_lt _ hcap)
    · rw [if_neg hpos]
      exact h

/-! ## The ledger invariant -/

theorem getD_set_of_lt (l : List Int) (n m : Nat) (a d : Int) (h : n < l.length) :
    (l.set n a).getD m d = if m = n then a else l.getD m d := by
  rw [List.getD_eq_getElem?_getD, List.getD_eq_getElem?_getD, List.getElem?_set]
  by_cases hm : m = n
  · subst hm
    simp [h]
  · have : ¬ n = m := fun e => hm e.symm
    simp [hm, this]

theorem occupiedCount_set_le (l : List Frame) (i : Nat) (v : Frame) :
    occupiedCount (l.set i v) ≤ occupiedCount l + 1 ∧
    (v.occupied = false → occupiedCount (l.set i v) ≤ occupiedCount l) ∧
    (v.occupied = false → (l.getD i default).occupied = true →
      occupiedCount (l.set i v) + 1 = occupiedCount l) := by
  by_cases hi : i < l.length
  · have hget : l[i]? = some l[i] := List.getElem?_eq_getElem hi
    have hc := countP_set_occ l i l[i] v hget
    have hd : l.getD i default = l[i] := by
      rw [List.getD_eq_getElem?_getD, hget]; rfl
    rw [hd]
    cases hv : v.occupied <;> cases ho : l[i].occupied <;> simp [hv, ho] at hc ⊢ <;> omega
  · have hs : l.set i v = l := List.set_eq_of_length_le (by omega)
    have hd : l.getD i default = default := by
      rw [List.getD_eq_getElem?_getD, List.getElem?_eq_none (by omega)]; rfl
    rw [hs, hd]
    refine ⟨by omega, fun _ => le_refl _, ?_⟩
    intro _ h
    exact absurd h (by decide)

/-- The invariant only reads the frames, the ledger and the running flag. -/
theorem LedgerInv.same_ledger {k : Nat} {st st' : State} (h : LedgerInv k st)
    (e1 : st'.ram_frames = st.ram_frames) (e2 : st'.ram_frame_count = st.ram_frame_count)
    (e3 : st'.fifo_queue = st.fifo_queue) (e4 : st'.fifo_head = st.fifo_head)
    (e5 : st'.fifo_size = st.fifo_size) (e6 : st'.fifo_capacity = st.fifo_capacity)
    (e7 : st'.simulation_running = true → st.simulation_running = true) :
    LedgerInv k st' := by
  refine ⟨?_, ?_, ?_, ?_, ?_, ?_⟩
  · rw [e1, e2]; exact h.ram_len
  · rw [e3, e6]; exact h.fifo_len
  · rw [e6, e2]; exact h.fifo_cap
  · rw [e6, e4]; exact h.head_lt
  · intro i hi
    have := h.entries i (by omega)
    unfold ledger_entry at this ⊢
    rw [e3, e4, e6, e2]
    exact this
  · intro hr
    rw [e1, e5]
    exact h.size_ge (e7 hr)

/-- Freeing frames keeps the invariant; freeing `j` occupied ones gains `j` of slack. -/
theorem LedgerInv.frames {k k' : Nat} {st st' : State} (h : LedgerInv k st)
    (e1 : st'.ram_frames.length = st.ram_frames.length)
    (hocc : occupiedCount st'.ram_frames + k ≤ occupiedCount st.ram_frames + k')
    (e2 : st'.ram_frame_count = st.ram_frame_count)
    (e3 : st'.fifo_queue = st.fifo_queue) (e4 : st'.fifo_head = st.fifo_head)
    (e5 : st'.fifo_size = st.fifo_size) (e6 : st'.fifo_capacity = st.fifo_capacity)
    (e7 : st'.simulation_running = true → st.simulation_running = true) :
    LedgerInv k' st' := by
  refine ⟨?_, ?_, ?_, ?_, ?_, ?_⟩
  · rw [e1, e2]; exact h.ram_len
  · rw [e3, e6]; exact h.fifo_len
  · rw [e6, e2]; exact h.fifo_cap
  · rw [e6, e4]; exact h.head_lt
  · intro i hi
    have := h.entries i (by omega)
    unfold ledger_entry at this ⊢
    rw [e3, e4, e6, e2]
    exact this
  · intro hr
    have := h.size_ge (e7 hr)
    rw [e5]
    omega

/-- One pop of `dequeue_frame_fifo` (lines 234-235) costs one entry of slack. -/
theorem LedgerInv.pop {k : Nat} {st st' : State} (h : LedgerInv k st) (hpos : 0 < st.fifo_size)
    (e1 : st'.ram_frames = st.ram_frames) (e2 : st'.ram_frame_count = st.ram_frame_count)
    (e3 : st'.fifo_queue = st.fifo_queue)
    (e4 : st'.fifo_head = (st.fifo_head + 1) % st.fifo_capacity)
    (e5 : st'.fifo_size = st.fifo_size - 1) (e6 : st'.fifo_capacity = st.fifo_capacity)
    (e7 : st'.simulation_running = true → st.simulation_running = true) :
    LedgerInv (k + 1) st' := by
  refine ⟨?_, ?_, ?_, ?_, ?_, ?_⟩
  · rw [e1, e2]; exact h.ram_len
  · rw [e3, e6]; exact h.fifo_len
  · rw [e6, e2]; exact h.fifo_cap
  · intro hc
    rw [e4, e6]
    rw [e6] at hc
    exact Nat.mod_lt _ hc
  · intro i hi
    have := h.entries (i + 1) (by omega)
    unfold ledger_entry at this ⊢
    rw [e3, e4, e6, e2, Nat.add_mod, Nat.mod_mod, ← Nat.add_mod,
      show st.fifo_head + 1 + i = st.fifo_head + (i + 1) by omega]
    exact this
  · intro hr
    have := h.size_ge (e7 hr)
    rw [e1, e5]
    omega

/-- A frame becomes occupied and goes to the ledger (lines 297-301 and 457-470). -/
theorem LedgerInv.occupy_enqueue {k : Nat} {st st' : State} (h : LedgerInv k st) {f : Int}
    (hf0 : 0 ≤ f) (hf1 : f < st.ram_frame_count) {v : Frame}
    (e1 : st'.ram_frames = st.ram_frames.set f.toNat v)
    (e2 : st'.ram_frame_count = st.ram_frame_count)
    (e3 : st'.fifo_queue =
      st.fifo_queue.set ((st.fifo_head + st.fifo_size) % st.fifo_capacity) f)
    (e4 : st'.fifo_head = st.fifo_head)
    (e5 : st'.fifo_size = st.fifo_size + 1) (e6 : st'.fifo_capacity = st.fifo_capacity)
    (e7 : st'.simulation_running = true → st.simulation_running = true) :
    LedgerInv k st' := by
  have hcap : 0 < st.fifo_capacity := by have := h.fifo_cap; omega
  have hpos : (st.fifo_head + st.fifo_size) % st.fifo_capacity < st.fifo_queue.length := by
    rw [h.fifo_len]; exact Nat.mod_lt _ hcap
  refine ⟨?_, ?_, ?_, ?_, ?_, ?_⟩
  · rw [e1, e2, List.length_set]; exact h.ram_len
  · rw [e3, e6, List.length_set]; exact h.fifo_len
  · rw [e6, e2]; exact h.fifo_cap
  · rw [e6, e4]; exact h.head_lt
  · intro i hi
    unfold ledger_entry
    rw [e3, e4, e6, e2, getD_set_of_lt _ _ _ _ _ hpos]
    by_cases hc : (st.fifo_head + i) % st.fifo_capacity =
        (st.fifo_head + st.fifo_size) % st.fifo_capacity
    · rw [if_pos hc]; exact ⟨hf0, hf1⟩
    · rw [if_neg hc]
      have hi' : i < st.fifo_size := by
        rcases Nat.lt_or_ge i st.fifo_size with h1 | h1
        · exact h1
        · have : i = st.fifo_size := by omega
          subst this
          exact absurd rfl hc
      exact h.entries i hi'
  · intro hr
    have := h.size_ge (e7 hr)
    have := (occupiedCount_set_le st.ram_frames f.toNat v).1
    rw [e1, e5]
    omega

theorem LedgerInv.ledger_ended {k k' : Nat} {st : State} (h : LedgerInv k st) :
    LedgerInv k' (end_simulation st) := by
  have hr := end_simulation_running st
  have e : ∀ s : State, end_simulation s = s ∨
      end_simulation s = { s with simulation_running := false } := by
    intro s
    unfold end_simulation
    cases s.simulation_running
    · left; rfl
    · right; rfl
  refine ⟨?_, ?_, ?_, ?_, ?_, ?_⟩
  · rcases e st with e | e <;> rw [e] <;> exact h.ram_len
  · rcases e st with e | e <;> rw [e] <;> exact h.fifo_len
  · rcases e st with e | e <;> rw [e] <;> exact h.fifo_cap
  · rcases e st with e | e <;> rw [e] <;> exact h.head_lt
  · rcases e st with e | e <;> rw [e] <;> exact h.entries
  · intro hr'
    rw [hr] at hr'
    cases hr'

theorem get_free_ram_frame_lt (st : State) (h0 : 0 ≤ get_free_ram_frame st) :
    get_free_ram_frame st < st.ram_frame_count := by
  unfold get_free_ram_frame at h0 ⊢
  rcases scan_free_spec st.ram_frames st.ram_frame_count.toNat 0 with ⟨h1, _⟩ | ⟨g, h1, _, h3, _⟩
  · omega
  · omega

theorem LedgerInv.ledger_put_in_ram {st : State} (h : LedgerInv 0 st) (ptr : PagePtr)
    (h0 : 0 ≤ get_free_ram_frame st) :
    LedgerInv 0 (put_in_ram st ptr (get_free_ram_frame st)) :=
  h.occupy_enqueue h0 (get_free_ram_frame_lt st h0) rfl rfl rfl rfl rfl rfl id

theorem LedgerInv.ledger_put_in_swap {k : Nat} {st : State} (h : LedgerInv k st) (ptr : PagePtr)
    (s : Int) : LedgerInv k (put_in_swap st ptr s) :=
  h.same_ledger rfl rfl rfl rfl rfl rfl id

theorem LedgerInv.ledger_modPage {k : Nat} {st : State} (h : LedgerInv k st) (ptr : PagePtr)
    (g : Page → Page) : LedgerInv k (modPage st ptr g) :=
  h.same_ledger rfl rfl rfl rfl rfl rfl id

/-- The placement loop of `create_process` keeps the ledger invariant, on both exits. -/
theorem create_pages_ledger (idx : Nat) : ∀ (k i : Nat) (cur : State), LedgerInv 0 cur →
    match create_pages idx k i cur with
    | .ok fin => LedgerInv 0 fin
    | .error fin => LedgerInv 0 fin := by
  intro k
  induction k with
  | zero => intro i cur h; exact h
  | succ k ih =>
    intro i cur h
    unfold create_pages
    dsimp only
    have h1 := h.ledger_modPage (idx, i) (fun pg =>
        { pg with pid := (arrGet cur.processes idx).pid, page_number := i,
                  frame_index := -1, swap_index := -1 })
    generalize SimPag.modPage cur (idx, i) (fun pg =>
        { pg with pid := (arrGet cur.processes idx).pid, page_number := i,
                  frame_index := -1, swap_index := -1 }) = cur1 at h1 ⊢
    by_cases hf : 0 ≤ get_free_ram_frame cur1
    · rw [if_pos hf]
      exact ih (i + 1) _ (h1.ledger_put_in_ram _ hf)
    · rw [if_neg hf]
      by_cases hs : get_free_swap_slot cur1 < 0
      · rw [if_pos hs]
        exact h1.ledger_ended
      · rw [if_neg hs]
        exact ih (i + 1) _ (h1.ledger_put_in_swap _ _)

theorem ledger_create {st : State} (h : LedgerInv 0 st) (r : Nat) :
    LedgerInv 0 (create_process st r) := by
  by_cases hrun : st.simulation_running = true
  · by_cases hcnt : st.process_count < MAX_PROCESSES
    · rw [create_eq r hrun hcnt]
      have h0 : LedgerInv 0 (create_entry st r) := h.same_ledger rfl rfl rfl rfl rfl rfl id
      have hl := create_pages_ledger st.process_count (proc_pages st r).toNat 0 _ h0
      cases hres : create_pages st.process_count (proc_pages st r).toNat 0 (create_entry st r) with
      | ok fin =>
        rw [hres] at hl
        exact LedgerInv.same_ledger hl rfl rfl rfl rfl rfl rfl id
      | error fin =>
        rw [hres] at hl
        exact hl
    · unfold create_process
      have : MAX_PROCESSES ≤ st.process_count := by omega
      simp [hrun, this]
      exact h
  · unfold create_process
    simp [hrun]
    exact h

theorem LedgerInv.ledger_release_page {k : Nat} {st : State} (h : LedgerInv k st) (pg : Page) :
    LedgerInv k (release_page st pg) := by
  unfold SimPag.release_page
  cases pg.in_ram <;> cases pg.in_swap
  · exact h
  · exact h.same_ledger rfl rfl rfl rfl rfl rfl id
  · refine h.frames (by simp) ?_ rfl rfl rfl rfl rfl id
    have := (occupiedCount_set_le st.ram_frames pg.frame_index.toNat ⟨false, none⟩).2.1 rfl
    simpa using this
  · refine h.frames (by simp) ?_ rfl rfl rfl rfl rfl id
    have := (occupiedCount_set_le st.ram_frames pg.frame_index.toNat ⟨false, none⟩).2.1 rfl
    simpa using this

theorem kill_pages_ledger (idx : Nat) : ∀ (k i : Nat) (st : State), LedgerInv 0 st →
    LedgerInv 0 (kill_pages idx k i st) := by
  intro k
  induction k with
  | zero => intro i st h; exact h
  | succ k ih =>
    intro i st h
    unfold kill_pages
    exact ih (i + 1) _ (h.ledger_release_page _)

theorem ledger_kill {st : State} (h : LedgerInv 0 st) (r : Nat) :
    LedgerInv 0 (kill_random_process st r) := by
  unfold kill_random_process
  by_cases c1 : (!st.simulation_running) = true
  · rw [if_pos c1]; exact h
  · rw [if_neg c1]
    by_cases c2 : st.alive_count = 0
    · rw [if_pos c2]; exact h
    · rw [if_neg c2]
      dsimp only
      by_cases c3 : (!(arrGet st.processes
          (arrGet st.alive_indices (r % st.alive_count))).alive) = true
      · rw [if_pos c3]; exact h
      · rw [if_neg c3]
        exact LedgerInv.same_ledger (kill_pages_ledger _ _ _ st h) rfl rfl rfl rfl rfl rfl id

theorem occupiedCount_of_all {l : List Frame}
    (h : ∀ (j : Nat) (fr : Frame), l[j]? = some fr → fr.occupied = true) :
    occupiedCount l = l.length := by
  unfold occupiedCount
  rw [List.countP_eq_length]
  intro a ha
  obtain ⟨j, hj⟩ := List.getElem?_of_mem ha
  exact h j a hj

theorem evict_victim_fields (st : State) (v s : Int) :
    (evict_victim st v s).ram_frames = st.ram_frames.set v.toNat ⟨false, none⟩ ∧
    (evict_victim st v s).ram_frame_count = st.ram_frame_count ∧
    (evict_victim st v s).fifo_queue = st.fifo_queue ∧
    (evict_victim st v s).fifo_head = st.fifo_head ∧
    (evict_victim st v s).fifo_size = st.fifo_size ∧
    (evict_victim st v s).fifo_capacity = st.fifo_capacity ∧
    (evict_victim st v s).simulation_running = st.simulation_running := by
  unfold evict_victim
  cases (st.ram_frames.getD v.toNat default).page <;> exact ⟨rfl, rfl, rfl, rfl, rfl, rfl, rfl⟩

theorem load_page_fields (st : State) (ptr : PagePtr) (f : Int) :
    (load_page st ptr f).ram_frames = st.ram_frames.set f.toNat ⟨true, some ptr⟩ ∧
    (load_page st ptr f).ram_frame_count = st.ram_frame_count ∧
    (load_page st ptr f).fifo_queue =
      st.fifo_queue.set ((st.fifo_head + st.fifo_size) % st.fifo_capacity) f ∧
    (load_page st ptr f).fifo_head = st.fifo_head ∧
    (load_page st ptr f).fifo_size = st.fifo_size + 1 ∧
    (load_page st ptr f).fifo_capacity = st.fifo_capacity ∧
    (load_page st ptr f).simulation_running = st.simulation_running := by
  unfold load_page
  by_cases h : 0 ≤ (getPage st ptr).swap_index
  · simp only [h, if_true]
    exact ⟨rfl, rfl, rfl, rfl, rfl, rfl, rfl⟩
  · simp only [h, if_false]
    exact ⟨rfl, rfl, rfl, rfl, rfl, rfl, rfl⟩

theorem LedgerInv.ledger_load_page {st : State} (h : LedgerInv 0 st) (ptr : PagePtr) {f : Int}
    (hf0 : 0 ≤ f) (hf1 : f < st.ram_frame_count) : LedgerInv 0 (load_page st ptr f) := by
  obtain ⟨e1, e2, e3, e4, e5, e6, e7⟩ := load_page_fields st ptr f
  exact h.occupy_enqueue hf0 hf1 e1 e2 e3 e4 e5 e6 (by rw [e7]; exact id)

/-- When the simulation runs, there is at least one frame and every frame is occupied, the
first pop of `dequeue_frame_fifo` yields a valid entry whose frame is occupied. -/
theorem victim_found {st : State} (h : LedgerInv 0 st) (hrun : st.simulation_running = true)
    (hfr : 1 ≤ st.ram_frame_count) (hfull : get_free_ram_frame st < 0) :
    0 < st.fifo_size ∧
    dequeue_frame_fifo st = (ledger_entry st 0,
      { st with fifo_head := (st.fifo_head + 1) % st.fifo_capacity
                fifo_size := st.fifo_size - 1 }) ∧
    0 ≤ ledger_entry st 0 ∧ ledger_entry st 0 < st.ram_frame_count ∧
    frame_occupied st (ledger_entry st 0) = true := by
  have hlen : st.ram_frames.length = st.ram_frame_count.toNat := by
    have := h.ram_len; omega
  have hall := scan_free_none hlen (f := get_free_ram_frame st) rfl hfull
  have hocc := occupiedCount_of_all hall
  have hsz := h.size_ge hrun
  have hpos : 0 < st.fifo_size := by omega
  have hcap : 0 < st.fifo_capacity := by have := h.fifo_cap; omega
  have hhead := h.head_lt hcap
  obtain ⟨e0, e1⟩ := h.entries 0 hpos
  have hent : ledger_entry st 0 = st.fifo_queue.getD st.fifo_head 0 := by
    unfold ledger_entry
    rw [Nat.add_zero, Nat.mod_eq_of_lt hhead]
  have hfo : frame_occupied st (ledger_entry st 0) = true := by
    unfold frame_occupied
    have hlt : (ledger_entry st 0).toNat < st.ram_frames.length := by omega
    have hget : st.ram_frames[(ledger_entry st 0).toNat]? =
        some st.ram_frames[(ledger_entry st 0).toNat] := List.getElem?_eq_getElem hlt
    rw [List.getD_eq_getElem?_getD, hget]
    exact hall _ _ hget
  refine ⟨hpos, ?_, e0, e1, hfo⟩
  obtain ⟨n, hn⟩ : ∃ n, st.fifo_size = n + 1 := ⟨st.fifo_size - 1, by omega⟩
  unfold frame_occupied at hfo
  rw [hent] at hfo ⊢
  unfold dequeue_frame_fifo
  rw [hn]
  unfold dequeue_loop
  rw [if_pos hpos]
  dsimp only
  rw [if_pos hfo, hn]

/-- Without frames nothing is in the ledger, and `dequeue_frame_fifo` finds no victim. -/
theorem no_frames_dequeue {st : State} (h : LedgerInv 0 st) (hfr : st.ram_frame_count ≤ 0) :
    dequeue_frame_fifo st = (-1, st) := by
  have hsz : st.fifo_size = 0 := by
    by_contra hne
    have := h.entries 0 (by omega)
    omega
  unfold dequeue_frame_fifo
  rw [hsz]
  rfl

theorem ledger_fault_load {st : State} (h : LedgerInv 0 st)
    (hrun : st.simulation_running = true) (ptr : PagePtr) :
    LedgerInv 0 (fault_load st ptr) := by
  unfold fault_load
  dsimp only
  by_cases hf : get_free_ram_frame st < 0
  · rw [if_pos hf]
    by_cases hfr : 1 ≤ st.ram_frame_count
    · obtain ⟨hpos, hdq, e0, e1, hfo⟩ := victim_found h hrun hfr hf
      rw [hdq]
      dsimp only
      rw [if_neg (by omega)]
      have h1 : LedgerInv 1 { st with fifo_head := (st.fifo_head + 1) % st.fifo_capacity
                                      fifo_size := st.fifo_size - 1 } :=
        h.pop hpos rfl rfl rfl rfl rfl rfl id
      split_ifs
      · exact h1.ledger_ended
      · obtain ⟨v1, v2, v3, v4, v5, v6, v7⟩ := evict_victim_fields
          { st with fifo_head := (st.fifo_head + 1) % st.fifo_capacity
                    fifo_size := st.fifo_size - 1 } (ledger_entry st 0)
          (get_free_swap_slot { st with fifo_head := (st.fifo_head + 1) % st.fifo_capacity
                                        fifo_size := st.fifo_size - 1 })
        have hc := (occupiedCount_set_le st.ram_frames (ledger_entry st 0).toNat
          ⟨false, none⟩).2.2 rfl hfo
        have h2 : LedgerInv 0 (evict_victim
            { st with fifo_head := (st.fifo_head + 1) % st.fifo_capacity
                      fifo_size := st.fifo_size - 1 } (ledger_entry st 0)
            (get_free_swap_slot { st with fifo_head := (st.fifo_head + 1) % st.fifo_capacity
                                          fifo_size := st.fifo_size - 1 })) :=
          h1.frames (by rw [v1]; simp) (by rw [v1]; exact le_of_eq hc)
            v2 v3 v4 v5 v6 (by rw [v7]; exact id)
        exact h2.ledger_load_page ptr e0 (by rw [v2]; exact e1)
    · rw [no_frames_dequeue h (by omega)]
      dsimp only
      rw [if_pos (by decide)]
      exact h.ledger_ended
  · rw [if_neg hf]
    exact h.ledger_load_page ptr (by omega) (get_free_ram_frame_lt st (by omega))

theorem ledger_access {st : State} (h : LedgerInv 0 st) (r1 r2 : Nat) :
    LedgerInv 0 (simulate_random_access st r1 r2) := by
  unfold simulate_random_access
  by_cases c1 : (!st.simulation_running) = true
  · rw [if_pos c1]; exact h
  · rw [if_neg c1]
    have hrun : st.simulation_running = true := by simpa using c1
    by_cases c2 : st.alive_count = 0
    · rw [if_pos c2]; exact h
    · rw [if_neg c2]
      dsimp only
      have h1 : LedgerInv 0 { st with total_page_faults := st.total_page_faults + 1 } :=
        h.same_ledger rfl rfl rfl rfl rfl rfl id
      split_ifs
      · exact h
      · exact h
      · exact h1.ledger_ended
      · exact ledger_fault_load (h1.ledger_put_in_swap _ _) hrun _
      · exact ledger_fault_load h1 hrun _

theorem ledger_init {pm pk : Int} {vm : Nat} (h : ValidConfig pm pk vm) :
    LedgerInv 0 (init_memory pm pk vm) := by
  have hi := inv_init h
  refine ⟨hi.core.ram_len, hi.fifo_len, hi.fifo_cap, ?_, ?_, ?_⟩
  · intro hc; exact hc
  · intro i hi
    exact absurd hi (Nat.not_lt_zero _)
  · intro _
    show occupiedCount (List.replicate _ default) ≤ 0 + 0
    rw [occupiedCount_replicate]

theorem ledger_step {st : State} (h : LedgerInv 0 st) (op : Op) : LedgerInv 0 (step st op) := by
  cases op with
  | create r => exact ledger_create h r
  | kill r => exact ledger_kill h r
  | access r1 r2 => exact ledger_access h r1 r2
  | stop => exact h.ledger_ended

/-- Every reachable state has the ledger invariant. -/
theorem Reachable.ledgerInv {st : State} (h : Reachable st) : LedgerInv 0 st := by
  induction h with
  | init pm pk vm hv => exact ledger_init hv
  | step st op _ ih => exact ledger_step ih op

theorem ledger_pop (st : State) (hpos : 0 < st.fifo_size) :
    ledger st = st.fifo_queue.getD st.fifo_head 0 ::
      ledger { st with fifo_head := (st.fifo_head + 1) % st.fifo_capacity
                       fifo_size := st.fifo_size - 1 } := by
  obtain ⟨n, hn⟩ : ∃ n, st.fifo_size = n + 1 := ⟨st.fifo_size - 1, by omega⟩
  unfold ledger
  rw [hn]
  rfl

/-- A scan of a pool whose entries are all occupied fails. -/
theorem scan_free_full {a : List Frame} {n : Nat} (hlen : a.length = n)
    (h : ∀ (j : Nat) (fr : Frame), a[j]? = some fr → fr.occupied = true) :
    scan_free a n 0 = -1 := by
  rcases scan_free_spec a n 0 with ⟨h1, _⟩ | ⟨g, _, _, h3, h4, _⟩
  · exact h1
  · have hlt : g < a.length := by omega
    have hget : a[g]? = some a[g] := List.getElem?_eq_getElem hlt
    have := h g _ hget
    rw [List.getD_eq_getElem?_getD, hget] at h4
    simp only [Option.getD_some] at h4
    rw [this] at h4
    cases h4

/-- The fault path when no frame is free, in a state with the ledger invariant: the head
entry is the victim, one entry is popped, and the fatal branch for a missing victim is not
taken. -/
theorem fault_load_full {st : State} (h : LedgerInv 0 st) (hrun : st.simulation_running = true)
    (hfr : 1 ≤ st.ram_frame_count) (hfull : get_free_ram_frame st < 0) (ptr : PagePtr) :
    fault_load st ptr =
      if get_free_swap_slot (dequeue_frame_fifo st).2 < 0 then
        end_simulation (dequeue_frame_fifo st).2
      else
        load_page (evict_victim (dequeue_frame_fifo st).2 (dequeue_frame_fifo st).1
          (get_free_swap_slot (dequeue_frame_fifo st).2)) ptr (dequeue_frame_fifo st).1 := by
  obtain ⟨_, hdq, e0, _, _⟩ := victim_found h hrun hfr hfull
  unfold fault_load
  dsimp only
  rw [if_pos hfull, hdq]
  dsimp only
  rw [if_neg (by omega)]

/-! ## The live set -/

theorem LiveSame.live_refl (st : State) : LiveSame st st := ⟨rfl, rfl, rfl, fun _ => rfl⟩

theorem LiveSame.live_trans {a b c : State} (h1 : LiveSame a b) (h2 : LiveSame b c) :
    LiveSame a c :=
  ⟨h2.1.trans h1.1, h2.2.trans h1.2, h2.3.trans h1.3,
    fun i => (h2.4 i).trans (h1.4 i)⟩

/-- States with the same table and the same live set. -/
theorem LiveSame.live_of_eq {st st' : State} (e1 : st'.processes = st.processes)
    (e2 : st'.alive_indices = st.alive_indices) (e3 : st'.alive_count = st.alive_count)
    (e4 : st'.process_count = st.process_count) : LiveSame st st' :=
  ⟨e2, e3, e4, fun i => by rw [e1]⟩

theorem alive_modPage (st : State) (ptr : PagePtr) (g : Page → Page) (i : Nat) :
    (arrGet (modPage st ptr g).processes i).alive = (arrGet st.processes i).alive := by
  have h := modPage_hdr st ptr g i
  unfold arrGet
  rw [List.getD_eq_getElem?_getD, List.getD_eq_getElem?_getD]
  cases h1 : (modPage st ptr g).processes[i]? with
  | none =>
    cases h2 : st.processes[i]? with
    | none => rfl
    | some p => rw [h1, h2] at h; cases h
  | some p' =>
    cases h2 : st.processes[i]? with
    | none => rw [h1, h2] at h; cases h
    | some p =>
      rw [h1, h2] at h
      simp only [Option.map_some', Option.some.injEq, Process.hdr, Prod.mk.injEq] at h
      exact h.2.2.2.1

theorem LiveSame.live_modPage (st : State) (ptr : PagePtr) (g : Page → Page) :
    LiveSame st (modPage st ptr g) :=
  ⟨rfl, rfl, rfl, fun i => alive_modPage st ptr g i⟩

theorem LiveSame.live_put_in_ram (st : State) (ptr : PagePtr) (f : Int) :
    LiveSame st (put_in_ram st ptr f) :=
  ⟨rfl, rfl, rfl, fun i => alive_modPage
    { st with ram_frames := st.ram_frames.set f.toNat ⟨true, some ptr⟩ } ptr
    (fun pg => { pg with in_ram := true, frame_index := f }) i⟩

theorem LiveSame.live_put_in_swap (st : State) (ptr : PagePtr) (s : Int) :
    LiveSame st (put_in_swap st ptr s) :=
  ⟨rfl, rfl, rfl, fun i => alive_modPage
    { st with swap_slots := st.swap_slots.set s.toNat ⟨true, some ptr⟩ } ptr
    (fun pg => { pg with in_swap := true, swap_index := s }) i⟩

theorem LiveSame.live_ended (st : State) : LiveSame st (end_simulation st) := by
  unfold end_simulation
  cases st.simulation_running
  · exact LiveSame.live_refl st
  · exact ⟨rfl, rfl, rfl, fun _ => rfl⟩

theorem LiveSame.live_evict_victim (st : State) (v s : Int) : LiveSame st (evict_victim st v s) := by
  unfold SimPag.evict_victim
  cases (st.ram_frames.getD v.toNat default).page with
  | none => exact ⟨rfl, rfl, rfl, fun _ => rfl⟩
  | some p =>
    exact ⟨rfl, rfl, rfl, fun i => alive_modPage
      { st with swap_slots := st.swap_slots.set s.toNat ⟨true, some p⟩ } p
      (fun pg => { pg with in_ram := false, in_swap := true, swap_index := s }) i⟩

theorem LiveSame.live_load_page (st : State) (ptr : PagePtr) (f : Int) :
    LiveSame st (load_page st ptr f) := by
  unfold SimPag.load_page
  by_cases h : 0 ≤ (getPage st ptr).swap_index
  · simp only [h, if_true]
    exact ⟨rfl, rfl, rfl, fun i => alive_modPage _ ptr
      (fun pg => { pg with in_ram := true, frame_index := f, in_swap := false,
                           swap_index := -1 }) i⟩
  · simp only [h, if_false]
    exact ⟨rfl, rfl, rfl, fun i => alive_modPage _ ptr
      (fun pg => { pg with in_ram := true, frame_index := f, in_swap := false,
                           swap_index := -1 }) i⟩

theorem LiveSame.live_dequeue (st : State) : LiveSame st (dequeue_frame_fifo st).2 := by
  have h := (dequeue_loop_spec st.fifo_size st).1
  have e : (dequeue_frame_fifo st).2 =
      { st with fifo_head := (dequeue_frame_fifo st).2.fifo_head
                fifo_size := (dequeue_frame_fifo st).2.fifo_size } := h
  rw [e]
  exact ⟨rfl, rfl, rfl, fun _ => rfl⟩

theorem LiveSame.live_fault_load (st : State) (ptr : PagePtr) : LiveSame st (fault_load st ptr) := by
  unfold SimPag.fault_load
  dsimp only
  have hd := LiveSame.live_dequeue st
  split_ifs
  · exact hd.live_trans (LiveSame.live_ended _)
  · exact hd.live_trans (LiveSame.live_ended _)
  · exact hd.live_trans ((LiveSame.live_evict_victim _ _ _).live_trans (LiveSame.live_load_page _ _ _))
  · exact LiveSame.live_load_page _ _ _

theorem LiveSame.live_access (st : State) (r1 r2 : Nat) :
    LiveSame st (simulate_random_access st r1 r2) := by
  unfold simulate_random_access
  by_cases c1 : (!st.simulation_running) = true
  · rw [if_pos c1]; exact LiveSame.live_refl st
  · rw [if_neg c1]
    by_cases c2 : st.alive_count = 0
    · rw [if_pos c2]; exact LiveSame.live_refl st
    · rw [if_neg c2]
      dsimp only
      have h1 : LiveSame st { st with total_page_faults := st.total_page_faults + 1 } :=
        ⟨rfl, rfl, rfl, fun _ => rfl⟩
      split_ifs
      · exact LiveSame.live_refl st
      · exact LiveSame.live_refl st
      · exact h1.live_trans (LiveSame.live_ended _)
      · exact h1.live_trans ((LiveSame.live_put_in_swap _ _ _).live_trans (LiveSame.live_fault_load _ _))
      · exact h1.live_trans (LiveSame.live_fault_load _ _)

/-- The live-set invariant only reads the live set and the flags of the table entries
below `process_count`. -/
theorem LiveOk.congr_fields {st st' : State} (h : LiveOk st)
    (e1 : st'.alive_indices = st.alive_indices) (e2 : st'.alive_count = st.alive_count)
    (e3 : st'.process_count = st.process_count)
    (e4 : ∀ i, i < st.process_count →
      (arrGet st'.processes i).alive = (arrGet st.processes i).alive) : LiveOk st' := by
  refine ⟨?_, ?_, ?_, ?_, ?_, ?_⟩
  · rw [e2, e3]; exact h.count_le
  · rw [e3]; exact h.procs_le
  · intro k hk
    rw [e1, e3]
    exact h.lt k (by omega)
  · intro k hk
    rw [e1, e4 _ (h.lt k (by omega))]
    exact h.alive k (by omega)
  · intro k l hk hl
    rw [e1]
    exact h.distinct k l (by omega) (by omega)
  · intro i hi ha
    rw [e3] at hi
    rw [e4 i hi] at ha
    rw [e1, e2]
    exact h.cover i hi ha

theorem LiveOk.same_live {st st' : State} (h : LiveOk st) (e : LiveSame st st') : LiveOk st' :=
  h.congr_fields e.1 e.2 e.3 (fun i _ => e.4 i)

/-- The placement loop of `create_process` writes neither the live set nor an `alive`
flag, on both exits. -/
theorem create_pages_live (idx : Nat) : ∀ (k i : Nat) (cur : State),
    match create_pages idx k i cur with
    | .ok fin => LiveSame cur fin
    | .error fin => LiveSame cur fin := by
  intro k
  induction k with
  | zero => intro i cur; exact LiveSame.live_refl cur
  | succ k ih =>
    intro i cur
    unfold create_pages
    dsimp only
    have h1 := LiveSame.live_modPage cur (idx, i) (fun pg =>
        { pg with pid := (arrGet cur.processes idx).pid, page_number := i,
                  frame_index := -1, swap_index := -1 })
    generalize SimPag.modPage cur (idx, i) (fun pg =>
        { pg with pid := (arrGet cur.processes idx).pid, page_number := i,
                  frame_index := -1, swap_index := -1 }) = cur1 at h1 ⊢
    by_cases hf : 0 ≤ get_free_ram_frame cur1
    · rw [if_pos hf]
      have h2 := h1.live_trans (LiveSame.live_put_in_ram cur1 (idx, i) (get_free_ram_frame cur1))
      have h3 := ih (i + 1) (put_in_ram cur1 (idx, i) (get_free_ram_frame cur1))
      cases hres : create_pages idx k (i + 1)
          (put_in_ram cur1 (idx, i) (get_free_ram_frame cur1)) with
      | ok fin => rw [hres] at h3; exact h2.live_trans h3
      | error fin => rw [hres] at h3; exact h2.live_trans h3
    · rw [if_neg hf]
      by_cases hs : get_free_swap_slot cur1 < 0
      · rw [if_pos hs]
        exact h1.live_trans (LiveSame.live_ended cur1)
      · rw [if_neg hs]
        have h2 := h1.live_trans (LiveSame.live_put_in_swap cur1 (idx, i) (get_free_swap_slot cur1))
        have h3 := ih (i + 1) (put_in_swap cur1 (idx, i) (get_free_swap_slot cur1))
        cases hres : create_pages idx k (i + 1)
            (put_in_swap cur1 (idx, i) (get_free_swap_slot cur1)) with
        | ok fin => rw [hres] at h3; exact h2.live_trans h3
        | error fin => rw [hres] at h3; exact h2.live_trans h3

theorem live_create {st : State} (h : LiveOk st) (r : Nat) :
    LiveOk (create_process st r) := by
  by_cases hrun : st.simulation_running = true
  · by_cases hcnt : st.process_count < MAX_PROCESSES
    · rw [create_eq r hrun hcnt]
      have hl := create_pages_live st.process_count (proc_pages st r).toNat 0
        (create_entry st r)
      have hentry : ∀ i, (arrGet (create_entry st r).processes i).alive =
          if i = st.process_count then true else (arrGet st.processes i).alive := by
        intro i
        show (arrGet (arrSet st.processes st.process_count (new_process st r)) i).alive = _
        rw [arrGet_arrSet]
        by_cases hi : i = st.process_count
        · rw [if_pos hi, if_pos hi]; rfl
        · rw [if_neg hi, if_neg hi]
      cases hres : create_pages st.process_count (proc_pages st r).toNat 0
          (create_entry st r) with
      | error fin =>
        rw [hres] at hl
        obtain ⟨e1, e2, e3, e4⟩ := hl
        refine h.congr_fields e1 e2 e3 ?_
        intro i hi
        rw [e4 i, hentry i, if_neg (by omega)]
      | ok fin =>
        rw [hres] at hl
        obtain ⟨e1, e2, e3, e4⟩ := hl
        have e1' : fin.alive_indices = st.alive_indices := e1
        have e2' : fin.alive_count = st.alive_count := e2
        have e3' : fin.process_count = st.process_count := e3
        have hfl : ∀ i, (arrGet fin.processes i).alive =
            if i = st.process_count then true else (arrGet st.processes i).alive := by
          intro i; rw [e4 i, hentry i]
        have hai : ∀ k, arrGet (arrSet fin.alive_indices fin.alive_count fin.process_count) k =
            if k = st.alive_count then st.process_count else arrGet st.alive_indices k := by
          intro k
          rw [arrGet_arrSet, e1', e2', e3']
        refine ⟨?_, ?_, ?_, ?_, ?_, ?_⟩
        · show fin.alive_count + 1 ≤ fin.process_count + 1
          have := h.count_le; omega
        · show fin.process_count + 1 ≤ MAX_PROCESSES
          omega
        · intro k hk
          have hk' : k < st.alive_count + 1 := by rw [← e2']; exact hk
          show arrGet (arrSet fin.alive_indices fin.alive_count fin.process_count) k <
            fin.process_count + 1
          rw [hai k, e3']
          by_cases hc : k = st.alive_count
          · rw [if_pos hc]; omega
          · rw [if_neg hc]
            have := h.lt k (by omega)
            omega
        · intro k hk
          have hk' : k < st.alive_count + 1 := by rw [← e2']; exact hk
          show (arrGet fin.processes
            (arrGet (arrSet fin.alive_indices fin.alive_count fin.process_count) k)).alive = true
          rw [hai k, hfl]
          by_cases hc : k = st.alive_count
          · rw [if_pos hc, if_pos rfl]
          · rw [if_neg hc]
            have := h.lt k (by omega)
            rw [if_neg (by omega)]
            exact h.alive k (by omega)
        · intro k l hk hl'
          have hk' : k < st.alive_count + 1 := by rw [← e2']; exact hk
          have hl'' : l < st.alive_count + 1 := by rw [← e2']; exact hl'
          show arrGet (arrSet fin.alive_indices fin.alive_count fin.process_count) k =
            arrGet (arrSet fin.alive_indices fin.alive_count fin.process_count) l → k = l
          rw [hai k, hai l]
          by_cases hc : k = st.alive_count <;> by_cases hd : l = st.alive_count
          · intro _; omega
          · rw [if_pos hc, if_neg hd]
            intro he
            have := h.lt l (by omega)
            omega
          · rw [if_neg hc, if_pos hd]
            intro he
            have := h.lt k (by omega)
            omega
          · rw [if_neg hc, if_neg hd]
            exact h.distinct k l (by omega) (by omega)
        · intro i hi ha
          have hi' : i < st.process_count + 1 := by rw [← e3']; exact hi
          have ha' : (arrGet fin.processes i).alive = true := ha
          show ∃ k, k < fin.alive_count + 1 ∧
            arrGet (arrSet fin.alive_indices fin.alive_count fin.process_count) k = i
          by_cases hc : i = st.process_count
          · refine ⟨st.alive_count, by omega, ?_⟩
            rw [hai, if_pos rfl, hc]
          · rw [hfl, if_neg hc] at ha'
            obtain ⟨k, hk, hki⟩ := h.cover i (by omega) ha'
            refine ⟨k, by omega, ?_⟩
            rw [hai, if_neg (by omega), hki]
    · unfold create_process
      have : MAX_PROCESSES ≤ st.process_count := by omega
      simp [hrun, this]
      exact h
  · unfold create_process
    simp [hrun]
    exact h

theorem live_kill {st : State} (h : LiveOk st) (hI : Inv st) (r : Nat) :
    LiveOk (kill_random_process st r) := by
  by_cases hrun : st.simulation_running = true
  · by_cases hac : st.alive_count = 0
    · unfold kill_random_process
      simp [hrun, hac]
      exact h
    · have hpos : r % st.alive_count < st.alive_count := Nat.mod_lt _ (by omega)
      have hal := h.alive _ hpos
      have hlt : arrGet st.alive_indices (r % st.alive_count) < st.processes.length :=
        (List.getElem?_eq_some.mp (getElem?_of_alive hal)).1
      rw [kill_eq hI hrun hac hal]
      generalize hpd : r % st.alive_count = pos at hpos hal hlt ⊢
      have hproc : ∀ i, (arrGet (st.processes.set (arrGet st.alive_indices pos)
          { arrGet st.processes (arrGet st.alive_indices pos) with
            alive := false, pages := [] }) i).alive =
          if i = arrGet st.alive_indices pos then false
          else (arrGet st.processes i).alive := by
        intro i
        rw [← arrSet_of_lt hlt, arrGet_arrSet]
        by_cases hi : i = arrGet st.alive_indices pos
        · rw [if_pos hi, if_pos hi]
        · rw [if_neg hi, if_neg hi]
      have hai : ∀ k, arrGet (arrSet st.alive_indices pos
          (arrGet st.alive_indices (st.alive_count - 1))) k =
          if k = pos then arrGet st.alive_indices (st.alive_count - 1)
          else arrGet st.alive_indices k := fun k => arrGet_arrSet _ _ _ _
      refine ⟨?_, ?_, ?_, ?_, ?_, ?_⟩
      · show st.alive_count - 1 ≤ st.process_count
        have := h.count_le; omega
      · exact h.procs_le
      · intro k hk
        have hk' : k < st.alive_count - 1 := hk
        show arrGet (arrSet st.alive_indices pos
          (arrGet st.alive_indices (st.alive_count - 1))) k < st.process_count
        rw [hai]
        by_cases hc : k = pos
        · rw [if_pos hc]; exact h.lt _ (by omega)
        · rw [if_neg hc]; exact h.lt _ (by omega)
      · intro k hk
        have hk' : k < st.alive_count - 1 := hk
        show (arrGet (st.processes.set (arrGet st.alive_indices pos)
          { arrGet st.processes (arrGet st.alive_indices pos) with
            alive := false, pages := [] })
          (arrGet (arrSet st.alive_indices pos
            (arrGet st.alive_indices (st.alive_count - 1))) k)).alive = true
        rw [hai, hproc]
        by_cases hc : k = pos
        · rw [if_pos hc]
          have hne : arrGet st.alive_indices (st.alive_count - 1) ≠
              arrGet st.alive_indices pos := by
            intro he
            have := h.distinct _ _ (by omega) hpos he
            omega
          rw [if_neg hne]
          exact h.alive _ (by omega)
        · rw [if_neg hc]
          have hne : arrGet st.alive_indices k ≠ arrGet st.alive_indices pos := by
            intro he
            exact hc (h.distinct _ _ (by omega) hpos he)
          rw [if_neg hne]
          exact h.alive _ (by omega)
      · intro k l hk hl
        have hk' : k < st.alive_count - 1 := hk
        have hl' : l < st.alive_count - 1 := hl
        show arrGet (arrSet st.alive_indices pos
            (arrGet st.alive_indices (st.alive_count - 1))) k =
          arrGet (arrSet st.alive_indices pos
            (arrGet st.alive_indices (st.alive_count - 1))) l → k = l
        rw [hai, hai]
        by_cases hc : k = pos <;> by_cases hd : l = pos
        · intro _; omega
        · rw [if_pos hc, if_neg hd]
          intro he
          have := h.distinct _ _ (by omega) (by omega) he
          omega
        · rw [if_neg hc, if_pos hd]
          intro he
          have := h.distinct _ _ (by omega) (by omega) he
          omega
        · rw [if_neg hc, if_neg hd]
          exact h.distinct k l (by omega) (by omega)
      · intro i hi ha
        have hi' : i < st.process_count := hi
        have ha' : (arrGet (st.processes.set (arrGet st.alive_indices pos)
          { arrGet st.processes (arrGet st.alive_indices pos) with
            alive := false, pages := [] }) i).alive = true := ha
        show ∃ k, k < st.alive_count - 1 ∧
          arrGet (arrSet st.alive_indices pos
            (arrGet st.alive_indices (st.alive_count - 1))) k = i
        rw [hproc] at ha'
        by_cases hc : i = arrGet st.alive_indices pos
        · rw [if_pos hc] at ha'; cases ha'
        · rw [if_neg hc] at ha'
          obtain ⟨k, hk, hki⟩ := h.cover i hi' ha'
          have hkp : k ≠ pos := by
            intro he
            rw [he] at hki
            exact hc hki.symm
          by_cases hlast : k = st.alive_count - 1
          · refine ⟨pos, by omega, ?_⟩
            rw [hai, if_pos rfl, ← hlast, hki]
          · refine ⟨k, by omega, ?_⟩
            rw [hai, if_neg hkp, hki]
  · unfold kill_random_process
    simp [hrun]
    exact h

theorem live_init (pm pk : Int) (vm : Nat) : LiveOk (init_memory pm pk vm) := by
  refine ⟨?_, ?_, ?_, ?_, ?_, ?_⟩
  · exact le_refl _
  · show 0 ≤ MAX_PROCESSES
    exact Nat.zero_le _
  · intro k hk; exact absurd hk (Nat.not_lt_zero _)
  · intro k hk; exact absurd hk (Nat.not_lt_zero _)
  · intro k l hk; exact absurd hk (Nat.not_lt_zero _)
  · intro i hi; exact absurd hi (Nat.not_lt_zero _)

theorem live_step {st : State} (h : LiveOk st) (hI : Inv st) (op : Op) :
    LiveOk (step st op) := by
  cases op with
  | create r => exact live_create h r
  | kill r => exact live_kill h hI r
  | access r1 r2 => exact h.same_live (LiveSame.live_access st r1 r2)
  | stop => exact h.same_live (LiveSame.live_ended st)

/-- Every reachable state has the live-set invariant. -/
theorem Reachable.liveOk {st : State} (h : Reachable st) : LiveOk st := by
  induction h with
  | init pm pk vm _ => exact live_init pm pk vm
  | step st op hr ih => exact live_step ih hr.inv op

/-! ## The claims -/

set_option maxRecDepth 100000

theorem reachable_run {st : State} (h : Reachable st) (ops : List Op) :
    Reachable (run st ops) := by
  induction ops generalizing st with
  | nil => exact h
  | cons op t ih => exact ih (Reachable.step st op h)

theorem smallInit_valid : ValidConfig 1 1024 (2 * 2 ^ 20) := by
  unfold ValidConfig; decide

theorem smallInit_reachable : Reachable smallInit :=
  Reachable.init 1 1024 (2 * 2 ^ 20) smallInit_valid

theorem scenarioA_reachable : Reachable scenarioA :=
  Reachable.step smallInit (Op.create 1) smallInit_reachable

theorem scenarioB_reachable : Reachable scenarioB :=
  Reachable.step scenarioA (Op.access 0 (2 ^ 20)) scenarioA_reachable

theorem scenarioD_reachable : Reachable scenarioD :=
  Reachable.step scenarioA (Op.kill 0) scenarioA_reachable

theorem fourFrames_reachable : Reachable fourFrames :=
  Reachable.init 80 20480 377487360 (by unfold ValidConfig; decide)

theorem fifoBefore_reachable : Reachable fifoBefore :=
  reachable_run (reachable_run fourFrames_reachable _) _

/-- C1 (occupancy invariant): in every state reachable from `init_memory` by any sequence
of `create_process`, `kill_random_process`, `simulate_random_access` and
`end_simulation`, with any `rand()` values, the number of occupied frames plus
`free_ram_frames` is `ram_frame_count`, the number of occupied swap slots plus
`free_swap_slots` is `swap_slot_count`, and the two pools have `ram_frame_count` and
`swap_slot_count` entries. -/
theorem occupancy_invariant (st : State) (h : Reachable st) :
    (occupiedCount st.ram_frames : Int) + st.free_ram_frames = st.ram_frame_count ∧
    (occupiedCount st.swap_slots : Int) + st.free_swap_slots = st.swap_slot_count ∧
    (st.ram_frames.length : Int) = st.ram_frame_count ∧
    (st.swap_slots.length : Int) = st.swap_slot_count :=
  ⟨h.inv.core.ram_occ, h.inv.core.swap_occ, h.inv.core.ram_len, h.inv.core.swap_len⟩

/-- Witness of C1: the state after the fatal access of Scenario B. -/
theorem occupancy_invariant_witness :
    Reachable scenarioB ∧
    ((occupiedCount scenarioB.ram_frames : Int) + scenarioB.free_ram_frames =
        scenarioB.ram_frame_count ∧
     (occupiedCount scenarioB.swap_slots : Int) + scenarioB.free_swap_slots =
        scenarioB.swap_slot_count ∧
     (scenarioB.ram_frames.length : Int) = scenarioB.ram_frame_count ∧
     (scenarioB.swap_slots.length : Int) = scenarioB.swap_slot_count) :=
  ⟨scenarioB_reachable, occupancy_invariant scenarioB scenarioB_reachable⟩

/-- C2 (exclusivity invariant): in every reachable state, a process of the table
(`i < process_count`) with `alive = 1` has its `num_pages` pages, and each of them has
exactly one of `in_ram` and `in_swap` set.  The entries of the live set are indices of the
table, so this covers every live process that `alive_indices` names. -/
theorem exclusivity_invariant (st : State) (h : Reachable st) (i : Nat) (p : Process)
    (hp : st.processes[i]? = some p) (hi : i < st.process_count) (ha : p.alive = true) :
    (p.pages.length : Int) = p.num_pages ∧
    (∀ pg ∈ p.pages, (pg.in_ram = true ∧ pg.in_swap = false) ∨
                      (pg.in_ram = false ∧ pg.in_swap = true)) ∧
    (∀ k, k < st.alive_count → arrGet st.alive_indices k < st.process_count) := by
  obtain ⟨_, _, _, h4, h5⟩ := h.inv.procs i p hp hi ha
  refine ⟨h4, ?_, h.inv.alive_lt⟩
  intro pg hmem
  obtain ⟨j, hj⟩ := List.mem_iff_getElem?.mp hmem
  have hnb := h.inv.core.not_both i j pg (by simp [pageAt, hp, hj])
  rcases h5 j pg hj with h1 | h1
  · left
    refine ⟨h1, ?_⟩
    cases hs : pg.in_swap
    · rfl
    · exact absurd ⟨h1, hs⟩ hnb
  · right
    refine ⟨?_, h1⟩
    cases hr : pg.in_ram
    · rfl
    · exact absurd ⟨hr, h1⟩ hnb

/-- Witness of C2: the two-page process of Scenario A. -/
theorem exclusivity_invariant_witness :
    Reachable scenarioA ∧ scenarioA.processes[0]? = some (arrGet scenarioA.processes 0) ∧
    0 < scenarioA.process_count ∧ (arrGet scenarioA.processes 0).alive = true ∧
    (((arrGet scenarioA.processes 0).pages.length : Int) =
        (arrGet scenarioA.processes 0).num_pages ∧
     (∀ pg ∈ (arrGet scenarioA.processes 0).pages,
        (pg.in_ram = true ∧ pg.in_swap = false) ∨ (pg.in_ram = false ∧ pg.in_swap = true)) ∧
     (∀ k, k < scenarioA.alive_count →
        arrGet scenarioA.alive_indices k < scenarioA.process_count)) :=
  ⟨scenarioA_reachable, by decide, by decide, by decide,
    exclusivity_invariant scenarioA scenarioA_reachable 0 _ (by decide) (by decide)
      (by decide)⟩

/-- C3, evaluated at a trace that `main` can issue.  After the creations of `fifoEarly`
the pages of P2, P3 and P4 are resident (frames 1, 2, 3) and the page of P5 is in swap; in
`fifoBefore` they are all resident, the page of P5 having been loaded last (frame 0, at
second 30), and no frame is free.  The access to the page of P7 is then resolved by an
eviction, and the page evicted is that of P5: the pages of P2, P3 and P4, loaded earlier,
stay in RAM. -/
theorem fifo_evicts_latest_loaded :
    (getPage fifoEarly (1, 0)).in_ram = true ∧ (getPage fifoEarly (2, 0)).in_ram = true ∧
    (getPage fifoEarly (3, 0)).in_ram = true ∧ (getPage fifoEarly (4, 0)).in_ram = false ∧
    (getPage fifoBefore (1, 0)).in_ram = true ∧ (getPage fifoBefore (1, 0)).frame_index = 1 ∧
    (getPage fifoBefore (2, 0)).in_ram = true ∧ (getPage fifoBefore (2, 0)).frame_index = 2 ∧
    (getPage fifoBefore (3, 0)).in_ram = true ∧ (getPage fifoBefore (3, 0)).frame_index = 3 ∧
    (getPage fifoBefore (4, 0)).in_ram = true ∧ (getPage fifoBefore (4, 0)).frame_index = 0 ∧
    fifoBefore.simulation_running = true ∧ get_free_ram_frame fifoBefore = -1 ∧
    accessed_ptr fifoBefore 6 0 = (6, 0) ∧ (getPage fifoBefore (6, 0)).in_swap = true ∧
    fifoAfter.simulation_running = true ∧
    fifoAfter.total_fifo_replacements = fifoBefore.total_fifo_replacements + 1 ∧
    (getPage fifoAfter (4, 0)).in_ram = false ∧ (getPage fifoAfter (4, 0)).in_swap = true ∧
    (getPage fifoAfter (1, 0)).in_ram = true ∧ (getPage fifoAfter (2, 0)).in_ram = true ∧
    (getPage fifoAfter (3, 0)).in_ram = true ∧
    (getPage fifoAfter (6, 0)).in_ram = true ∧ (getPage fifoAfter (6, 0)).frame_index = 0 := by
  decide

/-- C4, as stated, fails: `scenarioA` is the state of Scenario A (1 frame, 1 slot, page 0
in frame 0, page 1 in slot 0, nothing free), address `2 ^ 20` lies in page 1, and after the
access page 1 is not InRam, page 0 is not InSwap and no replacement is counted. -/
theorem scenarioB_counterexample :
    (scenarioA.ram_frame_count = 1 ∧ scenarioA.swap_slot_count = 1 ∧
     scenarioA.free_ram_frames = 0 ∧ scenarioA.free_swap_slots = 0 ∧
     (getPage scenarioA (0, 0)).in_ram = true ∧ (getPage scenarioA (0, 0)).frame_index = 0 ∧
     (getPage scenarioA (0, 1)).in_swap = true ∧ (getPage scenarioA (0, 1)).swap_index = 0 ∧
     accessed_ptr scenarioA 0 (2 ^ 20) = (0, 1)) ∧
    ¬ ((getPage scenarioB (0, 1)).in_ram = true ∧ (getPage scenarioB (0, 1)).frame_index = 0 ∧
       (getPage scenarioB (0, 0)).in_swap = true ∧ (getPage scenarioB (0, 0)).swap_index = 0 ∧
       scenarioB.total_page_faults = 1 ∧ scenarioB.total_fifo_replacements = 1) := by
  decide

/-- C4, amended: from the state of Scenario A, an access to any address of page 1 is a
page fault (`total_page_faults = 1`) that pops frame 0 from the ledger, finds no free swap
slot for the victim and ends the simulation; nothing else changes: page 0 stays InRam in
frame 0, page 1 stays InSwap in slot 0, and `total_fifo_replacements` stays 0. -/
theorem scenarioB_access (r1 r2 : Nat) (hpage : (accessed_ptr scenarioA r1 r2).2 = 1) :
    simulate_random_access scenarioA r1 r2 =
      { scenarioA with total_page_faults := 1, fifo_size := 0, simulation_running := false } ∧
    (getPage (simulate_random_access scenarioA r1 r2) (0, 0)).in_ram = true ∧
    (getPage (simulate_random_access scenarioA r1 r2) (0, 0)).frame_index = 0 ∧
    (getPage (simulate_random_access scenarioA r1 r2) (0, 1)).in_swap = true ∧
    (getPage (simulate_random_access scenarioA r1 r2) (0, 1)).swap_index = 0 ∧
    (simulate_random_access scenarioA r1 r2).total_fifo_replacements = 0 := by
  have hc : scenarioA.alive_count = 1 := by decide
  have hidx : (accessed_ptr scenarioA r1 r2).1 = 0 := by
    show arrGet scenarioA.alive_indices (r1 % scenarioA.alive_count) = 0
    rw [hc, Nat.mod_one]
    decide
  have hptr : accessed_ptr scenarioA r1 r2 = (0, 1) := Prod.ext hidx hpage
  have heq : simulate_random_access scenarioA r1 r2 =
      { scenarioA with total_page_faults := 1, fifo_size := 0, simulation_running := false } := by
    rw [access_eq_ptr r2 (by decide) (by decide) (by rw [hidx]; decide), hptr]
    decide
  rw [heq]
  exact ⟨rfl, by decide, by decide, by decide, by decide, by decide⟩

/-- Witness of the amended C4: the access of Scenario B, address `2 ^ 20`. -/
theorem scenarioB_access_witness :
    (accessed_ptr scenarioA 0 (2 ^ 20)).2 = 1 ∧
    simulate_random_access scenarioA 0 (2 ^ 20) =
      { scenarioA with total_page_faults := 1, fifo_size := 0, simulation_running := false } :=
  ⟨by decide, (scenarioB_access 0 (2 ^ 20) (by decide)).1⟩

/-- C5, as stated, fails in a state that `main` reaches.  The input `1073741823 256` is
accepted and `init_memory` leaves `ram_frame_count = free_ram_frames = -4` and 13 swap
slots.  The first `create_process` (1 MB) has 4 pages, and `4 ≤ -4 + 13`; it stays
running, but no page becomes InRam, which is not `min 4 (-4)` pages; the 4 pages are
InSwap, `free_ram_frames` stays `-4` and `free_swap_slots` drops by 4. -/
theorem create_placement_counterexample :
    main_start (some 1073741823) (some 256) 2251799816044544 = .ok wrappedFrames ∧
    wrappedFrames.simulation_running = true ∧
    wrappedFrames.process_count < MAX_PROCESSES ∧
    wrappedFrames.ram_frame_count = -4 ∧ wrappedFrames.free_ram_frames = -4 ∧
    wrappedFrames.swap_slot_count = 13 ∧ wrappedFrames.free_swap_slots = 13 ∧
    proc_pages wrappedFrames 0 = 4 ∧
    proc_pages wrappedFrames 0 ≤
      wrappedFrames.free_ram_frames + wrappedFrames.free_swap_slots ∧
    (create_process wrappedFrames 0).simulation_running = true ∧
    (arrGet (create_process wrappedFrames 0).processes 0).pages.countP
      (fun pg => pg.in_ram) = 0 ∧
    (arrGet (create_process wrappedFrames 0).processes 0).pages.countP
      (fun pg => pg.in_swap) = 4 ∧
    (create_process wrappedFrames 0).free_ram_frames = -4 ∧
    (create_process wrappedFrames 0).free_swap_slots = 9 ∧
    ¬ ((((arrGet (create_process wrappedFrames 0).processes 0).pages.countP
        (fun pg => pg.in_ram) : Nat) : Int) =
      min (proc_pages wrappedFrames 0) wrappedFrames.free_ram_frames) ∧
    ¬ ((create_process wrappedFrames 0).free_ram_frames =
      wrappedFrames.free_ram_frames -
        min (proc_pages wrappedFrames 0) wrappedFrames.free_ram_frames) :=
  ⟨rfl, by decide⟩

/-- C5, amended with the configuration made explicit (placement on creation): in a
running state with a non-full process table that is reachable from a valid configuration
(`Reachable` starts from `ValidConfig`: physical memory of at least 0 MB, page size of more
than 0 KB, derived frame and swap-slot counts not negative), when the page count `n` of
the new process is at most
`free_ram_frames + free_swap_slots`, `create_process` keeps the simulation running and adds
the process to the table and to the live set; with `F` the free frames and `S` the free
swap slots of the state before, lowest index first (their numbers are the two free
counters), page `j` is InRam in frame `F[j]` when `j < free_ram_frames` and InSwap in slot
`S[j - free_ram_frames]` otherwise, so `min n free_ram_frames` pages are InRam and the
others InSwap; the frame or slot of each page points back at it; the two free counters
drop by these two numbers; and the ledger is the old one after `enqueue_frame_fifo` of the
frames used, in page order. -/
theorem create_placement (st : State) (h : Reachable st)
    (hrun : st.simulation_running = true) (hcnt : st.process_count < MAX_PROCESSES)
    (r : Nat) (hroom : proc_pages st r ≤ st.free_ram_frames + st.free_swap_slots) :
    (create_process st r).simulation_running = true ∧
    (create_process st r).process_count = st.process_count + 1 ∧
    (create_process st r).alive_count = st.alive_count + 1 ∧
    arrGet (create_process st r).alive_indices st.alive_count = st.process_count ∧
    ((freeIdxs st.ram_frames).length : Int) = st.free_ram_frames ∧
    ((freeIdxs st.swap_slots).length : Int) = st.free_swap_slots ∧
    (∃ p, (create_process st r).processes[st.process_count]? = some p ∧
      p.alive = true ∧ p.pid = st.next_pid ∧ p.size_bytes = proc_size r ∧
      (p.pages.length : Int) = proc_pages st r ∧
      (∀ j : Nat, (j : Int) < proc_pages st r →
        p.pages[j]? = some (placedPage st.next_pid j (freeIdxs st.ram_frames)
          (freeIdxs st.swap_slots) j)) ∧
      ((p.pages.countP (fun pg => pg.in_ram) : Nat) : Int) =
        min (proc_pages st r) st.free_ram_frames ∧
      ((p.pages.countP (fun pg => pg.in_swap) : Nat) : Int) =
        proc_pages st r - min (proc_pages st r) st.free_ram_frames ∧
      (∀ (j : Nat) (pg : Page), p.pages[j]? = some pg →
        (pg.in_ram = true → (create_process st r).ram_frames[pg.frame_index.toNat]? =
          some ⟨true, some (st.process_count, j)⟩) ∧
        (pg.in_swap = true → (create_process st r).swap_slots[pg.swap_index.toNat]? =
          some ⟨true, some (st.process_count, j)⟩))) ∧
    (create_process st r).free_ram_frames =
      st.free_ram_frames - min (proc_pages st r) st.free_ram_frames ∧
    (create_process st r).free_swap_slots =
      st.free_swap_slots - (proc_pages st r - min (proc_pages st r) st.free_ram_frames) ∧
    ((create_process st r).fifo_queue, (create_process st r).fifo_head,
      (create_process st r).fifo_size) =
      enqueueAll st ((freeIdxs st.ram_frames).take (proc_pages st r).toNat) := by
  have hinv' : Inv (create_process st r) := (Reachable.step st (Op.create r) h).inv
  obtain ⟨q, hq, hq0, L0, hfr, hfs⟩ := create_setup h.inv r hrun
  have hqn : (proc_pages st r).toNat = q := by omega
  have hq' : q ≤ (freeIdxs st.ram_frames).length + (freeIdxs st.swap_slots).length := by omega
  obtain ⟨fin, h1, h2, h3, h4, _, h6⟩ := create_pages_ok (create_entry st r) st.process_count
    q q 0 (create_entry st r) (freeIdxs st.ram_frames) (freeIdxs st.swap_slots) (by omega) L0
    rfl rfl hq'
  have hloop := create_pages_loop (create_entry st r) st.process_count q q 0
    (create_entry st r) (by omega) L0
  rw [h1] at hloop
  have hP := hloop.params
  have hentry : (create_entry st r).processes[st.process_count]? =
      some (new_process st r) := by
    show (arrSet st.processes st.process_count (new_process st r))[st.process_count]? = _
    rw [← h.inv.table_len hrun, arrSet_length]
    simp
  obtain ⟨p, hp, hplen⟩ := hloop.len
  have hhdr := hloop.entry
  rw [hp, hentry] at hhdr
  simp only [Option.map_some', Option.some.injEq, Process.hdr, new_process,
    Prod.mk.injEq] at hhdr
  obtain ⟨e1, e2, _, e4, _⟩ := hhdr
  have hpid : (arrGet (create_entry st r).processes st.process_count).pid = st.next_pid := by
    rw [arrGet_eq_of_getElem? hentry]; rfl
  have hpages : ∀ j, j < q → p.pages[j]? = some (placedPage st.next_pid j
      (freeIdxs st.ram_frames) (freeIdxs st.swap_slots) j) := by
    intro j hj
    have := h6 j hj
    rw [hpid, Nat.zero_add] at this
    simpa [pageAt, hp] using this
  obtain ⟨hc1, hc2⟩ := countP_placed st.next_pid (freeIdxs st.ram_frames)
    (freeIdxs st.swap_slots) p.pages q hplen hpages
  have hres : create_process st r =
      { fin with alive_indices := arrSet fin.alive_indices fin.alive_count fin.process_count
                 alive_count := fin.alive_count + 1
                 process_count := fin.process_count + 1 } := by
    rw [create_eq r hrun hcnt, hqn, h1]
  have hprocs : (create_process st r).processes = fin.processes := by rw [hres]
  have hmin : ((min q (freeIdxs st.ram_frames).length : Nat) : Int) =
      min (proc_pages st r) st.free_ram_frames := by
    rw [hq, hfr]
    omega
  refine ⟨?_, ?_, ?_, ?_, by omega, by omega, ⟨p, ?_, e4, e1, e2, by omega, ?_, ?_, ?_, ?_⟩,
    ?_, ?_, ?_⟩
  · rw [hres]
    show fin.simulation_running = true
    rw [hP.simulation_running]; exact hrun
  · rw [hres]
    show fin.process_count + 1 = _
    rw [hP.process_count]; rfl
  · rw [hres]
    show fin.alive_count + 1 = _
    rw [hP.alive_count]; rfl
  · rw [hres]
    show arrGet (arrSet fin.alive_indices fin.alive_count fin.process_count) st.alive_count = _
    rw [arrGet_arrSet, hP.alive_count, hP.process_count]
    simp [create_entry]
  · rw [hprocs]; exact hp
  · intro j hj
    exact hpages j (by omega)
  · rw [hc1]; exact hmin
  · rw [hc2, ← hmin, hq]
    have : min q (freeIdxs st.ram_frames).length ≤ q := Nat.min_le_left _ _
    omega
  · intro j pg hj
    have hpa : pageAt (create_process st r) st.process_count j = some pg := by
      simp [pageAt, hprocs, hp, hj]
    constructor
    · intro hin
      obtain ⟨f, hf, hfr'⟩ := hinv'.core.ram_link.2 st.process_count j pg.frame_index
        (by simp [ramView, hpa, hin])
      rw [hf, Int.toNat_ofNat]; exact hfr'
    · intro hin
      obtain ⟨f, hf, hfr'⟩ := hinv'.core.swap_link.2 st.process_count j pg.swap_index
        (by simp [swapView, hpa, hin])
      rw [hf, Int.toNat_ofNat]; exact hfr'
  · rw [hres]
    show fin.free_ram_frames = _
    rw [h2, ← hmin]; rfl
  · rw [hres]
    show fin.free_swap_slots = _
    rw [h3, ← hmin, hq]
    have : min q (freeIdxs st.ram_frames).length ≤ q := Nat.min_le_left _ _
    show st.free_swap_slots - _ = _
    omega
  · rw [hres, hqn]
    show (fin.fifo_queue, fin.fifo_head, fin.fifo_size) = _
    rw [h4]
    exact enqueueAll_congr _ _ _ rfl rfl rfl rfl

/-- Witness of C5 (Scenario A): in `smallInit`, with 1 free frame and 1 free slot, a
process of 2 pages. -/
theorem create_placement_witness :
    Reachable smallInit ∧ smallInit.simulation_running = true ∧
    smallInit.process_count < MAX_PROCESSES ∧
    proc_pages smallInit 1 ≤ smallInit.free_ram_frames + smallInit.free_swap_slots ∧
    (create_process smallInit 1).simulation_running = true ∧
    (create_process smallInit 1).free_ram_frames =
      smallInit.free_ram_frames - min (proc_pages smallInit 1) smallInit.free_ram_frames ∧
    (create_process smallInit 1).free_swap_slots =
      smallInit.free_swap_slots -
        (proc_pages smallInit 1 - min (proc_pages smallInit 1) smallInit.free_ram_frames) :=
  have w := create_placement smallInit smallInit_reachable (by decide) (by decide) 1
    (by decide)
  ⟨smallInit_reachable, by decide, by decide, by decide, w.1, w.2.2.2.2.2.2.2.1,
    w.2.2.2.2.2.2.2.2.1⟩

/-- Scenario A evaluated: page 0 is in frame 0, page 1 in swap slot 0, both free counters
are 0, and frame 0 is the only ledger entry. -/
theorem scenarioA_eval :
    (arrGet scenarioA.processes 0).pages =
      [⟨1, 0, true, 0, false, -1⟩, ⟨1, 1, false, -1, true, 0⟩] ∧
    scenarioA.ram_frames = [⟨true, some (0, 0)⟩] ∧
    scenarioA.swap_slots = [⟨true, some (0, 1)⟩] ∧
    scenarioA.free_ram_frames = 0 ∧ scenarioA.free_swap_slots = 0 ∧
    scenarioA.fifo_queue = [0] ∧ scenarioA.fifo_head = 0 ∧ scenarioA.fifo_size = 1 ∧
    scenarioA.simulation_running = true := by
  decide

/-- C6, as stated, fails in a state that `main` reaches.  The input `1073741825 256` is
accepted and `init_memory` leaves 4 frames and `swap_slot_count = free_swap_slots =
-2147483646`.  The first `create_process` (1 MB) has 4 pages, more than
`free_ram_frames + free_swap_slots`; yet it places the 4 pages in frames 0 to 3 and the
simulation stays running. -/
theorem create_out_of_memory_counterexample :
    main_start (some 1073741825) (some 256) 1688849861836800 = .ok wrappedSwap ∧
    wrappedSwap.simulation_running = true ∧
    wrappedSwap.process_count < MAX_PROCESSES ∧
    wrappedSwap.ram_frame_count = 4 ∧ wrappedSwap.free_ram_frames = 4 ∧
    wrappedSwap.swap_slot_count = -2147483646 ∧
    wrappedSwap.free_swap_slots = -2147483646 ∧
    proc_pages wrappedSwap 0 = 4 ∧
    wrappedSwap.free_ram_frames + wrappedSwap.free_swap_slots < proc_pages wrappedSwap 0 ∧
    (create_process wrappedSwap 0).simulation_running = true ∧
    (create_process wrappedSwap 0).ram_frames =
      [⟨true, some (0, 0)⟩, ⟨true, some (0, 1)⟩, ⟨true, some (0, 2)⟩, ⟨true, some (0, 3)⟩] ∧
    ¬ ((create_process wrappedSwap 0).simulation_running = false ↔
      wrappedSwap.free_ram_frames + wrappedSwap.free_swap_slots <
        proc_pages wrappedSwap 0) :=
  ⟨rfl, by decide⟩

/-- C6, amended with the configuration made explicit (out of memory on creation): in a
running state with a non-full process table that is reachable from a valid configuration
(`Reachable` starts from `ValidConfig`: physical memory of at least 0 MB, page size of more
than 0 KB, derived frame and swap-slot counts not negative), `create_process` ends the
simulation if and only if the page count of the new
process exceeds `free_ram_frames + free_swap_slots`; every new process has at least one
page, and when both counters are 0 the simulation ends with the frame pool and the swap
pool unchanged. -/
theorem create_out_of_memory (st : State) (h : Reachable st)
    (hrun : st.simulation_running = true) (hcnt : st.process_count < MAX_PROCESSES)
    (r : Nat) :
    ((create_process st r).simulation_running = false ↔
      st.free_ram_frames + st.free_swap_slots < proc_pages st r) ∧
    0 < proc_pages st r ∧
    (st.free_ram_frames = 0 → st.free_swap_slots = 0 →
      (create_process st r).simulation_running = false ∧
      (create_process st r).ram_frames = st.ram_frames ∧
      (create_process st r).swap_slots = st.swap_slots) := by
  obtain ⟨q, hq, hq0, L0, hfr, hfs⟩ := create_setup h.inv r hrun
  have hqn : (proc_pages st r).toNat = q := by omega
  rw [create_eq r hrun hcnt, hqn, hq, hfr, hfs]
  by_cases hroom : q ≤ (freeIdxs st.ram_frames).length + (freeIdxs st.swap_slots).length
  · obtain ⟨fin, h1, _⟩ := create_pages_ok (create_entry st r) st.process_count q q 0
      (create_entry st r) (freeIdxs st.ram_frames) (freeIdxs st.swap_slots) (by omega) L0 rfl rfl
      hroom
    have hloop := create_pages_loop (create_entry st r) st.process_count q q 0
      (create_entry st r) (by omega) L0
    rw [h1] at hloop ⊢
    have hr : fin.simulation_running = true := by
      rw [hloop.params.simulation_running]; exact hrun
    refine ⟨?_, by omega, ?_⟩
    · constructor
      · intro hc
        have : fin.simulation_running = false := hc
        rw [hr] at this
        cases this
      · intro hc
        omega
    · intro ha hb
      omega
  · obtain ⟨fin, h1, h2, h3⟩ := create_pages_error (create_entry st r) st.process_count q q 0
      (create_entry st r) (freeIdxs st.ram_frames) (freeIdxs st.swap_slots) (by omega) L0 rfl rfl
      (by omega)
    rw [h1]
    refine ⟨?_, by omega, ?_⟩
    · constructor
      · intro _
        omega
      · intro _
        exact h2
    · intro ha hb
      have hF : freeIdxs st.ram_frames = [] := List.length_eq_zero.mp (by omega)
      have hS : freeIdxs st.swap_slots = [] := List.length_eq_zero.mp (by omega)
      exact ⟨h2, h3 hF hS⟩

/-- Witness of C6: a second process in Scenario A, where no frame and no slot is free. -/
theorem create_out_of_memory_witness :
    Reachable scenarioA ∧ scenarioA.simulation_running = true ∧
    scenarioA.process_count < MAX_PROCESSES ∧
    (((create_process scenarioA 0).simulation_running = false ↔
        scenarioA.free_ram_frames + scenarioA.free_swap_slots < proc_pages scenarioA 0) ∧
     0 < proc_pages scenarioA 0 ∧
     (scenarioA.free_ram_frames = 0 → scenarioA.free_swap_slots = 0 →
        (create_process scenarioA 0).simulation_running = false ∧
        (create_process scenarioA 0).ram_frames = scenarioA.ram_frames ∧
        (create_process scenarioA 0).swap_slots = scenarioA.swap_slots)) :=
  ⟨scenarioA_reachable, by decide, by decide,
    create_out_of_memory scenarioA scenarioA_reachable (by decide) (by decide) 0⟩

/-- C7 (release on termination): in a reachable running state, when
`kill_random_process` picks a live process `p` (table index `idx`) with `r` pages InRam
and `s` pages InSwap, it adds `r` to `free_ram_frames` and `s` to `free_swap_slots`, the
numbers of occupied frames and slots drop by `r` and `s`, a frame or slot that held a page
of `p` is free afterwards and every other frame and slot is as before, the ledger fields
are unchanged, `p` is marked not alive, `alive_count` drops by 1 and `process_count` is
unchanged. -/
theorem kill_releases (st : State) (h : Reachable st) (hrun : st.simulation_running = true)
    (r : Nat) (hac : st.alive_count ≠ 0)
    (hal : (arrGet st.processes (arrGet st.alive_indices (r % st.alive_count))).alive = true) :
    (kill_random_process st r).free_ram_frames = st.free_ram_frames +
      (((arrGet st.processes (arrGet st.alive_indices (r % st.alive_count))).pages.countP
        (fun pg => pg.in_ram) : Nat) : Int) ∧
    (kill_random_process st r).free_swap_slots = st.free_swap_slots +
      (((arrGet st.processes (arrGet st.alive_indices (r % st.alive_count))).pages.countP
        (fun pg => pg.in_swap) : Nat) : Int) ∧
    occupiedCount (kill_random_process st r).ram_frames +
      (arrGet st.processes (arrGet st.alive_indices (r % st.alive_count))).pages.countP
        (fun pg => pg.in_ram) = occupiedCount st.ram_frames ∧
    occupiedCount (kill_random_process st r).swap_slots +
      (arrGet st.processes (arrGet st.alive_indices (r % st.alive_count))).pages.countP
        (fun pg => pg.in_swap) = occupiedCount st.swap_slots ∧
    (∀ f : Nat,
      ((∃ (j : Nat) (pg : Page),
          (arrGet st.processes (arrGet st.alive_indices (r % st.alive_count))).pages[j]? =
            some pg ∧ pg.in_ram = true ∧ pg.frame_index = (f : Int)) →
        st.ram_frames[f]? ≠ none ∧
        (kill_random_process st r).ram_frames[f]? = some ⟨false, none⟩) ∧
      (¬ (∃ (j : Nat) (pg : Page),
          (arrGet st.processes (arrGet st.alive_indices (r % st.alive_count))).pages[j]? =
            some pg ∧ pg.in_ram = true ∧ pg.frame_index = (f : Int)) →
        (kill_random_process st r).ram_frames[f]? = st.ram_frames[f]?)) ∧
    (∀ s : Nat,
      ((∃ (j : Nat) (pg : Page),
          (arrGet st.processes (arrGet st.alive_indices (r % st.alive_count))).pages[j]? =
            some pg ∧ pg.in_swap = true ∧ pg.swap_index = (s : Int)) →
        st.swap_slots[s]? ≠ none ∧
        (kill_random_process st r).swap_slots[s]? = some ⟨false, none⟩) ∧
      (¬ (∃ (j : Nat) (pg : Page),
          (arrGet st.processes (arrGet st.alive_indices (r % st.alive_count))).pages[j]? =
            some pg ∧ pg.in_swap = true ∧ pg.swap_index = (s : Int)) →
        (kill_random_process st r).swap_slots[s]? = st.swap_slots[s]?)) ∧
    (kill_random_process st r).fifo_queue = st.fifo_queue ∧
    (kill_random_process st r).fifo_head = st.fifo_head ∧
    (kill_random_process st r).fifo_size = st.fifo_size ∧
    (kill_random_process st r).fifo_capacity = st.fifo_capacity ∧
    (arrGet (kill_random_process st r).processes
      (arrGet st.alive_indices (r % st.alive_count))).alive = false ∧
    (kill_random_process st r).alive_count = st.alive_count - 1 ∧
    (kill_random_process st r).process_count = st.process_count := by
  rw [kill_eq h.inv hrun hac hal]
  have hp := getElem?_of_alive hal
  generalize arrGet st.alive_indices (r % st.alive_count) = idx at hp hal ⊢
  generalize arrGet st.processes idx = p at hp hal ⊢
  have hVr : ∀ j, ramView st idx j = (p.pages[j]?).map ramSel := by
    intro j; simp [ramView, pageAt, hp]; rfl
  have hVs : ∀ j, swapView st idx j = (p.pages[j]?).map swapSel := by
    intro j; simp [swapView, pageAt, hp]; rfl
  have hr := (linked_kill (fun i j => if i = idx then none else ramView st i j)
    h.inv.core.ram_link idx ramSel p.pages hVr (fun _ _ => rfl)).2
  have hs := (linked_kill (fun i j => if i = idx then none else swapView st i j)
    h.inv.core.swap_link idx swapSel p.pages hVs (fun _ _ => rfl)).2
  rw [← ramIdxs_eq, ramIdxs_length] at hr
  rw [← swapIdxs_eq, swapIdxs_length] at hs
  refine ⟨?_, ?_, ?_, ?_, ?_, ?_, rfl, rfl, rfl, rfl, ?_, rfl, rfl⟩
  · simp only [ramIdxs_length]
  · simp only [swapIdxs_length]
  · simp only
    omega
  · simp only
    omega
  · intro f
    exact freeAll_pool h.inv.core.ram_link idx ramSel p.pages hVr f
  · intro s
    exact freeAll_pool h.inv.core.swap_link idx swapSel p.pages hVs s
  · simp only [arrGet, List.getD_eq_getElem?_getD]
    rw [getElem?_set_self_map, hp]
    rfl

/-- Witness of C7 (Scenario D): the process of Scenario A, one page InRam and one InSwap,
is terminated. -/
theorem kill_releases_witness :
    Reachable scenarioA ∧ scenarioA.simulation_running = true ∧ scenarioA.alive_count ≠ 0 ∧
    (arrGet scenarioA.processes
      (arrGet scenarioA.alive_indices (0 % scenarioA.alive_count))).alive = true ∧
    (kill_random_process scenarioA 0).free_ram_frames = scenarioA.free_ram_frames +
      (((arrGet scenarioA.processes
        (arrGet scenarioA.alive_indices (0 % scenarioA.alive_count))).pages.countP
          (fun pg => pg.in_ram) : Nat) : Int) ∧
    (kill_random_process scenarioA 0).free_swap_slots = scenarioA.free_swap_slots +
      (((arrGet scenarioA.processes
        (arrGet scenarioA.alive_indices (0 % scenarioA.alive_count))).pages.countP
          (fun pg => pg.in_swap) : Nat) : Int) :=
  have w := kill_releases scenarioA scenarioA_reachable (by decide) 0 (by decide) (by decide)
  ⟨scenarioA_reachable, by decide, by decide, by decide, w.1, w.2.1⟩

/-- Scenario D evaluated: both free counters go from 0 to 1, the frame and the slot are
free, the ledger still holds the stale entry, and the process is no longer alive. -/
theorem scenarioD_eval :
    scenarioD.free_ram_frames = 1 ∧ scenarioD.free_swap_slots = 1 ∧
    scenarioD.ram_frames = [⟨false, none⟩] ∧ scenarioD.swap_slots = [⟨false, none⟩] ∧
    scenarioD.fifo_queue = [0] ∧ scenarioD.fifo_head = 0 ∧ scenarioD.fifo_size = 1 ∧
    (arrGet scenarioD.processes 0).alive = false ∧ scenarioD.alive_count = 0 ∧
    scenarioD.process_count = 1 := by
  decide

/-- C8 (operations on a terminated process are no-ops).  `kill_random_process` and
`simulate_random_access` are `kill_process` and `access_process` at the table index they
draw from the live set.  In every reachable state and for every table entry `idx` with
`alive = 0`, such as a process terminated before, `kill_process` at `idx` (from any
position) and `access_process` at `idx` (any address) return the state unchanged, every
pool, counter, ledger field, table entry and statistic included, so nothing is released
twice; and no draw from the live set yields `idx`. -/
theorem terminated_process_noop (st : State) (h : Reachable st) (idx : Nat)
    (hdead : (arrGet st.processes idx).alive = false) :
    (∀ pos, kill_process st pos idx = st) ∧
    (∀ r2, access_process st idx r2 = st) ∧
    (∀ r, st.alive_count ≠ 0 → arrGet st.alive_indices (r % st.alive_count) ≠ idx) ∧
    (∀ r, kill_random_process st r =
      if !st.simulation_running then st
      else if st.alive_count = 0 then st
      else kill_process st (r % st.alive_count)
        (arrGet st.alive_indices (r % st.alive_count))) ∧
    (∀ r1 r2, simulate_random_access st r1 r2 =
      if !st.simulation_running then st
      else if st.alive_count = 0 then st
      else access_process st (arrGet st.alive_indices (r1 % st.alive_count)) r2) := by
  refine ⟨?_, ?_, ?_, fun _ => rfl, fun _ _ => rfl⟩
  · intro pos
    unfold kill_process
    simp [hdead]
  · intro r2
    unfold access_process
    simp [hdead]
  · intro r hac he
    have := h.liveOk.alive _ (Nat.mod_lt r (Nat.pos_of_ne_zero hac))
    rw [he, hdead] at this
    cases this

/-- The state `fifoBefore`, where P1 (table index 0) has been terminated and 15 processes
are alive: terminating P1 again or accessing it changes nothing. -/
theorem terminated_process_noop_witness :
    (Reachable fifoBefore ∧ (arrGet fifoBefore.processes 0).alive = false ∧
      fifoBefore.alive_count = 15 ∧ fifoBefore.simulation_running = true) ∧
    (∀ pos, kill_process fifoBefore pos 0 = fifoBefore) ∧
    (∀ r2, access_process fifoBefore 0 r2 = fifoBefore) :=
  have w := terminated_process_noop fifoBefore fifoBefore_reachable 0 (by decide)
  ⟨⟨fifoBefore_reachable, by decide, by decide, by decide⟩, w.1, w.2.1⟩

/-- C9 (round trip through swap): in a reachable running state, let
`simulate_random_access` address a page of a live process that is InSwap in slot `k`.
If the access does not end the simulation, then afterwards the page has `in_ram = 1`,
`in_swap = 0`, `swap_index = -1`, its `frame_index` is a frame `f` that is occupied and
holds that page, swap slot `k` is free, and `f` is the ledger entry at position
`(fifo_head + fifo_size - 1) mod fifo_capacity`. -/
theorem swap_round_trip (st : State) (h : Reachable st)
    (hrun : st.simulation_running = true) (r1 r2 : Nat) (hac : st.alive_count ≠ 0)
    (hal : (arrGet st.processes (accessed_ptr st r1 r2).1).alive = true) (k : Nat)
    (hsw : (getPage st (accessed_ptr st r1 r2)).in_swap = true)
    (hk : (getPage st (accessed_ptr st r1 r2)).swap_index = (k : Int))
    (hlive : (simulate_random_access st r1 r2).simulation_running = true) :
    (getPage (simulate_random_access st r1 r2) (accessed_ptr st r1 r2)).in_ram = true ∧
    (getPage (simulate_random_access st r1 r2) (accessed_ptr st r1 r2)).in_swap = false ∧
    (getPage (simulate_random_access st r1 r2) (accessed_ptr st r1 r2)).swap_index = -1 ∧
    ∃ f : Nat,
      (getPage (simulate_random_access st r1 r2) (accessed_ptr st r1 r2)).frame_index =
        (f : Int) ∧
      (simulate_random_access st r1 r2).ram_frames[f]? =
        some ⟨true, some (accessed_ptr st r1 r2)⟩ ∧
      (simulate_random_access st r1 r2).swap_slots[k]? = some ⟨false, none⟩ ∧
      0 < (simulate_random_access st r1 r2).fifo_size ∧
      (simulate_random_access st r1 r2).fifo_queue[
        ((simulate_random_access st r1 r2).fifo_head +
          (simulate_random_access st r1 r2).fifo_size - 1) %
            (simulate_random_access st r1 r2).fifo_capacity]? = some (f : Int) := by
  have hal' : (arrGet st.processes (arrGet st.alive_indices (r1 % st.alive_count))).alive
      = true := hal
  obtain ⟨pg, hpg, _, _⟩ := selected_page h.inv hrun hal' r2
  have hpg' : pageAt st (accessed_ptr st r1 r2).1 (accessed_ptr st r1 r2).2 = some pg := hpg
  have hgp : getPage st (accessed_ptr st r1 r2) = pg := getPage_of_pageAt hpg'
  rw [hgp] at hsw hk
  have hnr : pg.in_ram = false := by
    have := h.inv.core.not_both _ _ pg hpg'
    cases hr : pg.in_ram
    · rfl
    · exact absurd ⟨hr, hsw⟩ this
  have heq : simulate_random_access st r1 r2 =
      fault_load { st with total_page_faults := st.total_page_faults + 1 }
        (accessed_ptr st r1 r2) := by
    rw [access_eq r2 hrun hac hal']
    have hgp2 : getPage st (arrGet st.alive_indices (r1 % st.alive_count),
          (toInt32 ((r2 % (arrGet st.processes
            (arrGet st.alive_indices (r1 % st.alive_count))).size_bytes) /
              st.page_size_bytes)).toNat) = pg := hgp
    rw [hgp2, if_neg (by simp [hnr]), if_pos hsw]
    rfl
  rw [heq] at hlive ⊢
  obtain ⟨f, h1, h2, h3, h4, h5⟩ :=
    fault_load_facts (h.inv.set_faults (st.total_page_faults + 1)) hpg' hnr hsw hlive
  have hg := getPage_of_pageAt h1
  have hkn : pg.swap_index.toNat = k := by omega
  rw [hkn] at h3
  rw [show accessed_ptr st r1 r2 = ((accessed_ptr st r1 r2).1, (accessed_ptr st r1 r2).2)
    from rfl, hg]
  exact ⟨rfl, rfl, rfl, f, rfl, h2, h3, h4, h5⟩

/-- Witness of C9: in `fifoBefore` the page of P7, which is in swap slot 2, is accessed. -/
theorem swap_round_trip_witness :
    Reachable fifoBefore ∧ fifoBefore.simulation_running = true ∧
    fifoBefore.alive_count ≠ 0 ∧
    (arrGet fifoBefore.processes (accessed_ptr fifoBefore 6 0).1).alive = true ∧
    (getPage fifoBefore (accessed_ptr fifoBefore 6 0)).in_swap = true ∧
    (getPage fifoBefore (accessed_ptr fifoBefore 6 0)).swap_index = ((2 : Nat) : Int) ∧
    (simulate_random_access fifoBefore 6 0).simulation_running = true ∧
    (getPage (simulate_random_access fifoBefore 6 0) (accessed_ptr fifoBefore 6 0)).in_ram
      = true ∧
    (getPage (simulate_random_access fifoBefore 6 0) (accessed_ptr fifoBefore 6 0)).in_swap
      = false ∧
    (getPage (simulate_random_access fifoBefore 6 0) (accessed_ptr fifoBefore 6 0)).swap_index
      = -1 :=
  have w := swap_round_trip fifoBefore fifoBefore_reachable (by decide) 6 0 (by decide)
    (by decide) 2 (by decide) (by decide) (by decide)
  ⟨fifoBefore_reachable, by decide, by decide, by decide, by decide, by decide, by decide,
    w.1, w.2.1, w.2.2.1⟩

/-- C10 (Terminated is absorbing): in every state with `simulation_running = 0`, each of
`create_process`, `kill_random_process`, `simulate_random_access` and `end_simulation`
returns the state unchanged, whatever the `rand()` values. -/
theorem terminated_absorbing (st : State) (h : st.simulation_running = false)
    (r r1 r2 : Nat) :
    create_process st r = st ∧ kill_random_process st r = st ∧
    simulate_random_access st r1 r2 = st ∧ end_simulation st = st := by
  simp [create_process, kill_random_process, simulate_random_access, end_simulation, h]

/-- Witness of C10: the state after the fatal access of Scenario B. -/
theorem terminated_absorbing_witness :
    scenarioB.simulation_running = false ∧
    (create_process scenarioB 7 = scenarioB ∧ kill_random_process scenarioB 7 = scenarioB ∧
     simulate_random_access scenarioB 3 5 = scenarioB ∧ end_simulation scenarioB = scenarioB) :=
  ⟨by decide, terminated_absorbing scenarioB (by decide) 7 3 5⟩

/-! ### Claims on the ledger and on the back-pointers -/

/-- C13 (back-pointer invariant). In every reachable state the frame array has
`ram_frame_count` entries and the slot array `swap_slot_count`; every occupied frame `f`
holds a page of the table with `in_ram = 1` and `frame_index = f`; every occupied swap
slot `s` holds a page with `in_swap = 1` and `swap_index = s`; and no page is held by two
different frames, by two different slots, or by a frame and a slot at once. -/
theorem back_pointer_invariant (st : State) (h : Reachable st) :
    ((st.ram_frames.length : Int) = st.ram_frame_count ∧
      (st.swap_slots.length : Int) = st.swap_slot_count) ∧
    (∀ (f : Nat) (fr : Frame), st.ram_frames[f]? = some fr → fr.occupied = true →
      ∃ i j pg, fr.page = some (i, j) ∧ pageAt st i j = some pg ∧
        pg.in_ram = true ∧ pg.frame_index = (f : Int)) ∧
    (∀ (s : Nat) (sl : SwapSlot), st.swap_slots[s]? = some sl → sl.occupied = true →
      ∃ i j pg, sl.page = some (i, j) ∧ pageAt st i j = some pg ∧
        pg.in_swap = true ∧ pg.swap_index = (s : Int)) ∧
    (∀ (f g : Nat) (fr gr : Frame) (ptr : PagePtr),
      st.ram_frames[f]? = some fr → fr.occupied = true → fr.page = some ptr →
      st.ram_frames[g]? = some gr → gr.occupied = true → gr.page = some ptr → f = g) ∧
    (∀ (s t : Nat) (sl tl : SwapSlot) (ptr : PagePtr),
      st.swap_slots[s]? = some sl → sl.occupied = true → sl.page = some ptr →
      st.swap_slots[t]? = some tl → tl.occupied = true → tl.page = some ptr → s = t) ∧
    (∀ (f s : Nat) (fr : Frame) (sl : SwapSlot) (ptr : PagePtr),
      st.ram_frames[f]? = some fr → fr.occupied = true → fr.page = some ptr →
      st.swap_slots[s]? = some sl → sl.occupied = true → sl.page = some ptr → False) := by
  have hc := h.inv.core
  have hram : ∀ (f : Nat) (fr : Frame), st.ram_frames[f]? = some fr → fr.occupied = true →
      ∃ i j pg, fr.page = some (i, j) ∧ pageAt st i j = some pg ∧
        pg.in_ram = true ∧ pg.frame_index = (f : Int) := by
    intro f fr hf ho
    obtain ⟨i, j, hp, hv⟩ := hc.ram_link.1 f fr hf ho
    unfold ramView at hv
    cases hpg : pageAt st i j with
    | none => rw [hpg] at hv; cases hv
    | some pg =>
      rw [hpg] at hv
      simp only [Option.map_some', Option.some.injEq, Prod.mk.injEq] at hv
      exact ⟨i, j, pg, hp, hpg, hv.1, hv.2⟩
  have hswap : ∀ (s : Nat) (sl : SwapSlot), st.swap_slots[s]? = some sl → sl.occupied = true →
      ∃ i j pg, sl.page = some (i, j) ∧ pageAt st i j = some pg ∧
        pg.in_swap = true ∧ pg.swap_index = (s : Int) := by
    intro s sl hs ho
    obtain ⟨i, j, hp, hv⟩ := hc.swap_link.1 s sl hs ho
    unfold swapView at hv
    cases hpg : pageAt st i j with
    | none => rw [hpg] at hv; cases hv
    | some pg =>
      rw [hpg] at hv
      simp only [Option.map_some', Option.some.injEq, Prod.mk.injEq] at hv
      exact ⟨i, j, pg, hp, hpg, hv.1, hv.2⟩
  refine ⟨⟨hc.ram_len, hc.swap_len⟩, hram, hswap, ?_, ?_, ?_⟩
  · intro f g fr gr ptr hf ho hp hg hgo hgp
    obtain ⟨i, j, pg, h1, h2, _, h4⟩ := hram f fr hf ho
    obtain ⟨i', j', pg', h1', h2', _, h4'⟩ := hram g gr hg hgo
    rw [hp] at h1
    rw [hgp] at h1'
    cases h1
    cases h1'
    rw [h2] at h2'
    cases h2'
    rw [h4] at h4'
    exact_mod_cast h4'
  · intro s t sl tl ptr hf ho hp hg hgo hgp
    obtain ⟨i, j, pg, h1, h2, _, h4⟩ := hswap s sl hf ho
    obtain ⟨i', j', pg', h1', h2', _, h4'⟩ := hswap t tl hg hgo
    rw [hp] at h1
    rw [hgp] at h1'
    cases h1
    cases h1'
    rw [h2] at h2'
    cases h2'
    rw [h4] at h4'
    exact_mod_cast h4'
  · intro f s fr sl ptr hf ho hp hg hgo hgp
    obtain ⟨i, j, pg, h1, h2, h3, _⟩ := hram f fr hf ho
    obtain ⟨i', j', pg', h1', h2', h3', _⟩ := hswap s sl hg hgo
    rw [hp] at h1
    rw [hgp] at h1'
    cases h1
    cases h1'
    rw [h2] at h2'
    cases h2'
    exact hc.not_both _ _ _ h2 ⟨h3, h3'⟩

/-- The back-pointer invariant at the state of Scenario A. -/
theorem back_pointer_invariant_witness :
    Reachable scenarioA ∧
    (∀ (f : Nat) (fr : Frame), scenarioA.ram_frames[f]? = some fr → fr.occupied = true →
      ∃ i j pg, fr.page = some (i, j) ∧ pageAt scenarioA i j = some pg ∧
        pg.in_ram = true ∧ pg.frame_index = (f : Int)) :=
  ⟨scenarioA_reachable, (back_pointer_invariant scenarioA scenarioA_reachable).2.1⟩

/-- C14 (`dequeue_frame_fifo` as a function). For every state whose ledger has
`fifo_capacity > 0` and only valid frame indices as entries: if the ledger is
`pre ++ e :: post` where no entry of `pre` refers to an occupied frame and the frame of `e`
is occupied, `dequeue_frame_fifo` returns `e` and leaves exactly `post` as the ledger; it
returns `-1` if and only if no entry refers to an occupied frame, and then it leaves
`fifo_size = 0`; it writes no field other than `fifo_head` and `fifo_size`, and a head
inside the buffer stays inside it. -/
theorem dequeue_frame_fifo_ledger (st : State) (hcap : 0 < st.fifo_capacity)
    (hvalid : ∀ e ∈ ledger st, 0 ≤ e ∧ e < st.ram_frame_count) :
    (∀ pre e post, ledger st = pre ++ e :: post →
      (∀ x ∈ pre, frame_occupied st x = false) → frame_occupied st e = true →
      (dequeue_frame_fifo st).1 = e ∧ ledger (dequeue_frame_fifo st).2 = post ∧
      (dequeue_frame_fifo st).2.fifo_size = post.length) ∧
    ((dequeue_frame_fifo st).1 = -1 ↔ ∀ x ∈ ledger st, frame_occupied st x = false) ∧
    ((dequeue_frame_fifo st).1 = -1 → (dequeue_frame_fifo st).2.fifo_size = 0) ∧
    (dequeue_frame_fifo st).2 =
      { st with fifo_head := (dequeue_frame_fifo st).2.fifo_head
                fifo_size := (dequeue_frame_fifo st).2.fifo_size } ∧
    (st.fifo_head < st.fifo_capacity →
      (dequeue_frame_fifo st).2.fifo_head < st.fifo_capacity) := by
  have hl := dequeue_loop_ledger st.fifo_size st rfl
  have hiff : (dequeue_frame_fifo st).1 = -1 ↔ ∀ x ∈ ledger st, frame_occupied st x = false := by
    constructor
    · intro hm
      by_contra hne
      have hex : ∃ x ∈ ledger st, frame_occupied st x = true := by
        by_contra hno
        apply hne
        intro x hx
        cases hfo : frame_occupied st x with
        | false => rfl
        | true => exact absurd ⟨x, hx, hfo⟩ hno
      obtain ⟨pre, e, post, h1, h2, h3⟩ := exists_first (frame_occupied st) _ hex
      have h4 := (hl.1 pre e post h1 h2 h3).1
      have h5 := (hvalid e (by rw [h1]; simp)).1
      have h6 : (dequeue_frame_fifo st).1 = e := h4
      omega
    · intro hall
      exact (hl.2 hall).1
  refine ⟨hl.1, hiff, ?_, (dequeue_loop_spec st.fifo_size st).1,
    dequeue_loop_head_lt st.fifo_size st hcap⟩
  intro hm
  exact (hl.2 (hiff.mp hm)).2

/-- The characterisation of `dequeue_frame_fifo` at a ledger with a stale entry in front:
the entries are `0, 1`, frame 0 is free and frame 1 occupied, so `1` is returned and the
ledger is left empty. -/
theorem dequeue_frame_fifo_ledger_witness :
    (0 < staleHead.fifo_capacity ∧
      (∀ e ∈ ledger staleHead, 0 ≤ e ∧ e < staleHead.ram_frame_count)) ∧
    ledger staleHead = [0] ++ 1 :: [] ∧
    ((dequeue_frame_fifo staleHead).1 = 1 ∧ ledger (dequeue_frame_fifo staleHead).2 = [] ∧
      (dequeue_frame_fifo staleHead).2.fifo_size = ([] : List Int).length) :=
  ⟨⟨by decide, by decide⟩, by decide,
    (dequeue_frame_fifo_ledger staleHead (by decide) (by decide)).1 [0] 1 [] (by decide)
      (by decide) (by decide)⟩

/-! ### The page count -/

/-- C17 (page count is the ceiling). For every page size `psz > 0` and process size
`size > 0` for which line 273 does not overflow (`size + psz - 1` fits `size_t` and the
quotient fits `int`), the `num_pages` computed by `create_process` is the unique `n` with
`(n - 1) * psz < size ≤ n * psz`; hence for every address `addr < size` the page number
`(int)(addr / psz)` of `simulate_random_access` is non-negative and below `num_pages`. -/
theorem num_pages_ceiling (psz size : Nat) (hp : 0 < psz) (hs : 0 < size)
    (h64 : size + psz - 1 < 2 ^ 64) (h31 : (size + psz - 1) / psz < 2 ^ 31) :
    ∃ n : Nat, num_pages_of size psz = (n : Int) ∧
      ((n : Int) - 1) * psz < size ∧ (size : Int) ≤ n * psz ∧
      (∀ m : Int, (m - 1) * psz < size → (size : Int) ≤ m * psz → m = n) ∧
      ∀ addr : Nat, addr < size →
        0 ≤ toInt32 (addr / psz) ∧ toInt32 (addr / psz) < num_pages_of size psz := by
  have hmod : (size + psz - 1) % 2 ^ 64 = size + psz - 1 := Nat.mod_eq_of_lt h64
  have hq : num_pages_of size psz = (((size + psz - 1) / psz : Nat) : Int) := by
    unfold num_pages_of
    rw [hmod]
    exact toInt32_of_lt h31
  have hpos : 0 < (size + psz - 1) / psz := Nat.div_pos (by omega) hp
  have hle : size ≤ (size + psz - 1) / psz * psz := by
    have := Nat.lt_mul_div_succ (size + psz - 1) hp
    have e : psz * ((size + psz - 1) / psz + 1) = (size + psz - 1) / psz * psz + psz := by ring
    omega
  have hgt : ((size + psz - 1) / psz - 1) * psz < size := by
    have h1 := Nat.div_mul_le_self (size + psz - 1) psz
    have e : ((size + psz - 1) / psz - 1) * psz + psz = (size + psz - 1) / psz * psz := by
      have : (size + psz - 1) / psz = ((size + psz - 1) / psz - 1) + 1 := by omega
      nth_rewrite 2 [this]
      ring
    omega
  refine ⟨(size + psz - 1) / psz, hq, ?_, by exact_mod_cast hle, ?_, ?_⟩
  · have e : (((size + psz - 1) / psz : Nat) : Int) - 1 =
        (((size + psz - 1) / psz - 1 : Nat) : Int) := by omega
    rw [e]
    exact_mod_cast hgt
  · intro m h1 h2
    have hle' : (size : Int) ≤ (((size + psz - 1) / psz : Nat) : Int) * psz := by
      exact_mod_cast hle
    have hgt' : ((((size + psz - 1) / psz : Nat) : Int) - 1) * psz < size := by
      have e : (((size + psz - 1) / psz : Nat) : Int) - 1 =
          (((size + psz - 1) / psz - 1 : Nat) : Int) := by omega
      rw [e]
      exact_mod_cast hgt
    have hp' : (0 : Int) < psz := by exact_mod_cast hp
    have a1 : m - 1 < (((size + psz - 1) / psz : Nat) : Int) := by
      by_contra hc
      have : (((size + psz - 1) / psz : Nat) : Int) * psz ≤ (m - 1) * psz :=
        mul_le_mul_of_nonneg_right (by omega) (le_of_lt hp')
      omega
    have a2 : (((size + psz - 1) / psz : Nat) : Int) - 1 < m := by
      by_contra hc
      have : m * psz ≤ ((((size + psz - 1) / psz : Nat) : Int) - 1) * psz :=
        mul_le_mul_of_nonneg_right (by omega) (le_of_lt hp')
      omega
    omega
  · intro addr ha
    have hlt : addr / psz < (size + psz - 1) / psz := by
      rw [Nat.div_lt_iff_lt_mul hp]
      omega
    rw [hq, toInt32_of_lt (by omega)]
    constructor
    · exact Int.ofNat_nonneg _
    · exact_mod_cast hlt

/-- The page count for a process of 10 bytes with pages of 4 bytes. -/
theorem num_pages_ceiling_witness :
    (0 < 4 ∧ 0 < 10 ∧ 10 + 4 - 1 < 2 ^ 64 ∧ (10 + 4 - 1) / 4 < 2 ^ 31) ∧
    ∃ n : Nat, num_pages_of 10 4 = (n : Int) ∧
      ((n : Int) - 1) * (4 : Nat) < (10 : Nat) ∧ ((10 : Nat) : Int) ≤ n * (4 : Nat) ∧
      (∀ m : Int, (m - 1) * (4 : Nat) < (10 : Nat) → ((10 : Nat) : Int) ≤ m * (4 : Nat) →
        m = n) ∧
      ∀ addr : Nat, addr < 10 →
        0 ≤ toInt32 (addr / 4) ∧ toInt32 (addr / 4) < num_pages_of 10 4 :=
  ⟨by decide, num_pages_ceiling 4 10 (by decide) (by decide) (by decide) (by decide)⟩

/-! ### Victims -/

/-- C19 (a victim is always found). In every reachable running state with at least one
frame, let `simulate_random_access` address a page of a live process that is not in RAM
(a page fault) while `get_free_ram_frame` finds no free frame.  Then `dequeue_frame_fifo`,
called after the fault has been counted, returns the head entry of the ledger, which is the
index of an occupied frame, having popped exactly that one entry; and the access continues
with the search for a swap slot for the victim: the branch for a missing victim is not
taken. -/
theorem victim_always_found (st : State) (h : Reachable st)
    (hrun : st.simulation_running = true) (hfr : 1 ≤ st.ram_frame_count) (r1 r2 : Nat)
    (hac : st.alive_count ≠ 0)
    (hal : (arrGet st.processes (accessed_ptr st r1 r2).1).alive = true)
    (hfault : (getPage st (accessed_ptr st r1 r2)).in_ram = false)
    (hfull : get_free_ram_frame st < 0) :
    0 ≤ (dequeue_frame_fifo { st with total_page_faults := st.total_page_faults + 1 }).1 ∧
    (dequeue_frame_fifo { st with total_page_faults := st.total_page_faults + 1 }).1 <
      st.ram_frame_count ∧
    frame_occupied st
      (dequeue_frame_fifo { st with total_page_faults := st.total_page_faults + 1 }).1 = true ∧
    (dequeue_frame_fifo { st with total_page_faults := st.total_page_faults + 1 }).2.fifo_size
      + 1 = st.fifo_size ∧
    ledger st =
      (dequeue_frame_fifo { st with total_page_faults := st.total_page_faults + 1 }).1 ::
      ledger (dequeue_frame_fifo { st with total_page_faults := st.total_page_faults + 1 }).2 ∧
    simulate_random_access st r1 r2 =
      if get_free_swap_slot
          (dequeue_frame_fifo { st with total_page_faults := st.total_page_faults + 1 }).2 < 0
      then end_simulation
          (dequeue_frame_fifo { st with total_page_faults := st.total_page_faults + 1 }).2
      else
        load_page
          (evict_victim
            (dequeue_frame_fifo { st with total_page_faults := st.total_page_faults + 1 }).2
            (dequeue_frame_fifo { st with total_page_faults := st.total_page_faults + 1 }).1
            (get_free_swap_slot
              (dequeue_frame_fifo { st with total_page_faults := st.total_page_faults + 1 }).2))
          (accessed_ptr st r1 r2)
          (dequeue_frame_fifo { st with total_page_faults := st.total_page_faults + 1 }).1 := by
  have hl : LedgerInv 0 { st with total_page_faults := st.total_page_faults + 1 } :=
    h.ledgerInv.same_ledger rfl rfl rfl rfl rfl rfl id
  obtain ⟨hpos, hdq, e0, e1, hfo⟩ := victim_found hl hrun hfr hfull
  have hal' : (arrGet st.processes (arrGet st.alive_indices (r1 % st.alive_count))).alive
      = true := hal
  obtain ⟨pg, hpg, hor, _⟩ := selected_page h.inv hrun hal' r2
  have hpg' : pageAt st (accessed_ptr st r1 r2).1 (accessed_ptr st r1 r2).2 = some pg := hpg
  have hgp : getPage st (accessed_ptr st r1 r2) = pg := getPage_of_pageAt hpg'
  rw [hgp] at hfault
  have hsw : pg.in_swap = true := by
    rcases hor with h1 | h1
    · rw [hfault] at h1; cases h1
    · exact h1
  have heq : simulate_random_access st r1 r2 =
      fault_load { st with total_page_faults := st.total_page_faults + 1 }
        (accessed_ptr st r1 r2) := by
    rw [access_eq_ptr r2 hrun hac hal, hgp, if_neg (by simp [hfault]), if_pos hsw]
  have hpop := ledger_pop { st with total_page_faults := st.total_page_faults + 1 } hpos
  have hent : ledger_entry { st with total_page_faults := st.total_page_faults + 1 } 0 =
      st.fifo_queue.getD st.fifo_head 0 := by
    have hc : (st.fifo_capacity : Int) = st.ram_frame_count := hl.fifo_cap
    have hcap : 0 < st.fifo_capacity := by omega
    have hhead : st.fifo_head < st.fifo_capacity := hl.head_lt hcap
    unfold ledger_entry
    show st.fifo_queue.getD ((st.fifo_head + 0) % st.fifo_capacity) 0 = _
    rw [Nat.add_zero, Nat.mod_eq_of_lt hhead]
  rw [heq, fault_load_full hl hrun hfr hfull, hdq]
  have hpos' : 0 < st.fifo_size := hpos
  refine ⟨e0, e1, hfo, ?_, ?_, rfl⟩
  · show st.fifo_size - 1 + 1 = st.fifo_size
    omega
  · rw [hent]
    exact hpop

/-- The victim search in `fifoBefore`, where the ledger holds five entries for four frames
(`fifo_size` exceeds `fifo_capacity`): the access to the page of P7 pops the head entry,
frame 0. -/
theorem victim_always_found_witness :
    (Reachable fifoBefore ∧ fifoBefore.simulation_running = true ∧
      1 ≤ fifoBefore.ram_frame_count ∧ fifoBefore.alive_count ≠ 0 ∧
      (arrGet fifoBefore.processes (accessed_ptr fifoBefore 6 0).1).alive = true ∧
      (getPage fifoBefore (accessed_ptr fifoBefore 6 0)).in_ram = false ∧
      get_free_ram_frame fifoBefore < 0 ∧ fifoBefore.fifo_capacity < fifoBefore.fifo_size) ∧
    0 ≤ (dequeue_frame_fifo
      { fifoBefore with total_page_faults := fifoBefore.total_page_faults + 1 }).1 ∧
    (dequeue_frame_fifo
      { fifoBefore with total_page_faults := fifoBefore.total_page_faults + 1 }).1 <
        fifoBefore.ram_frame_count :=
  have w := victim_always_found fifoBefore fifoBefore_reachable (by decide) (by decide) 6 0
    (by decide) (by decide) (by decide) (by decide)
  ⟨⟨fifoBefore_reachable, by decide, by decide, by decide, by decide, by decide, by decide,
    by decide⟩, w.1, w.2.1⟩

/-- C16 (eviction needs a free swap slot). In every reachable running state with at least
one frame, let `simulate_random_access` address a page of a live process that is InSwap
while every frame and every swap slot is occupied.  Then the access counts the fault, pops
the head entry of the ledger as victim, finds no swap slot for it and ends the simulation:
the result is the state before with `total_page_faults + 1`, one ledger entry less and
`simulation_running = 0`.  No page, frame or slot changes, nor do `total_fifo_replacements`,
`total_pages_evicted_to_swap` and `total_pages_loaded_from_swap`. -/
theorem eviction_needs_swap_slot (st : State) (h : Reachable st)
    (hrun : st.simulation_running = true) (hfr : 1 ≤ st.ram_frame_count) (r1 r2 : Nat)
    (hac : st.alive_count ≠ 0)
    (hal : (arrGet st.processes (accessed_ptr st r1 r2).1).alive = true)
    (hsw : (getPage st (accessed_ptr st r1 r2)).in_swap = true)
    (hnf : ∀ (f : Nat) (fr : Frame), st.ram_frames[f]? = some fr → fr.occupied = true)
    (hns : ∀ (s : Nat) (sl : SwapSlot), st.swap_slots[s]? = some sl → sl.occupied = true) :
    simulate_random_access st r1 r2 =
      { st with total_page_faults := st.total_page_faults + 1
                fifo_head := (st.fifo_head + 1) % st.fifo_capacity
                fifo_size := st.fifo_size - 1
                simulation_running := false } ∧
    (simulate_random_access st r1 r2).simulation_running = false ∧
    (simulate_random_access st r1 r2).processes = st.processes ∧
    (simulate_random_access st r1 r2).ram_frames = st.ram_frames ∧
    (simulate_random_access st r1 r2).swap_slots = st.swap_slots ∧
    (simulate_random_access st r1 r2).total_fifo_replacements = st.total_fifo_replacements ∧
    (simulate_random_access st r1 r2).total_pages_evicted_to_swap =
      st.total_pages_evicted_to_swap ∧
    (simulate_random_access st r1 r2).total_pages_loaded_from_swap =
      st.total_pages_loaded_from_swap := by
  have hl : LedgerInv 0 { st with total_page_faults := st.total_page_faults + 1 } :=
    h.ledgerInv.same_ledger rfl rfl rfl rfl rfl rfl id
  have hrlen : st.ram_frames.length = st.ram_frame_count.toNat := by
    have := h.inv.core.ram_len; omega
  have hslen : st.swap_slots.length = st.swap_slot_count.toNat := by
    have := h.inv.core.swap_len; omega
  have hfull : get_free_ram_frame { st with total_page_faults := st.total_page_faults + 1 }
      < 0 := by
    show scan_free st.ram_frames st.ram_frame_count.toNat 0 < 0
    rw [scan_free_full hrlen hnf]
    decide
  obtain ⟨_, hdq, _, _, _⟩ := victim_found hl hrun hfr hfull
  have hal' : (arrGet st.processes (arrGet st.alive_indices (r1 % st.alive_count))).alive
      = true := hal
  obtain ⟨pg, hpg, _, _⟩ := selected_page h.inv hrun hal' r2
  have hpg' : pageAt st (accessed_ptr st r1 r2).1 (accessed_ptr st r1 r2).2 = some pg := hpg
  have hgp : getPage st (accessed_ptr st r1 r2) = pg := getPage_of_pageAt hpg'
  rw [hgp] at hsw
  have hnr : pg.in_ram = false := by
    have := h.inv.core.not_both _ _ pg hpg'
    cases hr : pg.in_ram
    · rfl
    · exact absurd ⟨hr, hsw⟩ this
  have heq : simulate_random_access st r1 r2 =
      { st with total_page_faults := st.total_page_faults + 1
                fifo_head := (st.fifo_head + 1) % st.fifo_capacity
                fifo_size := st.fifo_size - 1
                simulation_running := false } := by
    rw [access_eq_ptr r2 hrun hac hal, hgp, if_neg (by simp [hnr]), if_pos hsw,
      fault_load_full hl hrun hfr hfull, hdq]
    have hs : get_free_swap_slot
        { st with total_page_faults := st.total_page_faults + 1
                  fifo_head := (st.fifo_head + 1) % st.fifo_capacity
                  fifo_size := st.fifo_size - 1 } < 0 := by
      show scan_free st.swap_slots st.swap_slot_count.toNat 0 < 0
      rw [scan_free_full hslen hns]
      decide
    dsimp only
    rw [if_pos hs]
    unfold end_simulation
    have c : ¬ ((!st.simulation_running) = true) := by simp [hrun]
    exact if_neg c
  rw [heq]
  exact ⟨rfl, rfl, rfl, rfl, rfl, rfl, rfl, rfl⟩

/-- The access of Scenario B: one frame and one slot, both occupied, and the page in
swap is addressed. -/
theorem eviction_needs_swap_slot_witness :
    (Reachable scenarioA ∧ scenarioA.simulation_running = true ∧
      1 ≤ scenarioA.ram_frame_count ∧ scenarioA.alive_count ≠ 0 ∧
      (arrGet scenarioA.processes (accessed_ptr scenarioA 0 (2 ^ 20)).1).alive = true ∧
      (getPage scenarioA (accessed_ptr scenarioA 0 (2 ^ 20))).in_swap = true ∧
      (∀ (f : Nat) (fr : Frame), scenarioA.ram_frames[f]? = some fr → fr.occupied = true) ∧
      (∀ (s : Nat) (sl : SwapSlot), scenarioA.swap_slots[s]? = some sl →
        sl.occupied = true)) ∧
    (simulate_random_access scenarioA 0 (2 ^ 20)).simulation_running = false ∧
    (simulate_random_access scenarioA 0 (2 ^ 20)).processes = scenarioA.processes :=
  have hnf : ∀ (f : Nat) (fr : Frame), scenarioA.ram_frames[f]? = some fr →
      fr.occupied = true :=
    scan_free_none (n := 1) (f := -1) (by decide) (by decide) (by decide)
  have hns : ∀ (s : Nat) (sl : SwapSlot), scenarioA.swap_slots[s]? = some sl →
      sl.occupied = true :=
    scan_free_none (n := 1) (f := -1) (by decide) (by decide) (by decide)
  have w := eviction_needs_swap_slot scenarioA scenarioA_reachable (by decide) (by decide)
    0 (2 ^ 20) (by decide) (by decide) (by decide) hnf hns
  ⟨⟨scenarioA_reachable, by decide, by decide, by decide, by decide, by decide, hnf, hns⟩,
    w.2.1, w.2.2.1⟩

/-! ### The ledger against the frames -/

/-- C11, evaluated at a trace that `main` can issue.  In `fifoBefore` there are four
frames, all occupied, `fifo_capacity = 4` and `fifo_size = 5`; the five ledger entries
from `fifo_head` are `0, 1, 2, 3, 0`, so five entries refer to an occupied frame: the entry
that the terminated P1 left for frame 0 counts again since the page of P5 occupies that
frame, and the entry of P5 was written over it in cell 0. -/
theorem ledger_exceeds_frames :
    fifoBefore.simulation_running = true ∧
    fifoBefore.ram_frame_count = 4 ∧ fifoBefore.fifo_capacity = 4 ∧
    fifoBefore.fifo_head = 0 ∧ fifoBefore.fifo_size = 5 ∧
    fifoBefore.fifo_queue = [0, 1, 2, 3] ∧
    fifoBefore.ram_frames = [⟨true, some (4, 0)⟩, ⟨true, some (1, 0)⟩, ⟨true, some (2, 0)⟩,
      ⟨true, some (3, 0)⟩] ∧
    ledger fifoBefore = [0, 1, 2, 3, 0] ∧
    ((ledger fifoBefore).filter (frame_occupied fifoBefore)).length = 5 ∧
    ¬ ((((ledger fifoBefore).filter (frame_occupied fifoBefore)).length : Int) ≤
      fifoBefore.ram_frame_count) := by
  decide

/-- C12, evaluated at a trace that `main` can issue.  In `fifoAfter`, the state after
the access of second 35, the page of P2 is InRam in frame 1 and frame 1 is occupied by it,
but the ledger entries from `fifo_head` are `0, 2, 3, 0, 0`: the entry of frame 1 was in
cell 1, and `enqueue_frame_fifo` wrote the entry of the page of P7 over it. -/
theorem resident_missing_from_ledger :
    fifoAfter.simulation_running = true ∧
    (getPage fifoAfter (1, 0)).in_ram = true ∧ (getPage fifoAfter (1, 0)).frame_index = 1 ∧
    fifoAfter.ram_frames[1]? = some ⟨true, some (1, 0)⟩ ∧
    (arrGet fifoAfter.processes 1).alive = true ∧
    fifoBefore.fifo_queue = [0, 1, 2, 3] ∧ fifoAfter.fifo_queue = [0, 0, 2, 3] ∧
    fifoAfter.fifo_head = 1 ∧ fifoAfter.fifo_size = 5 ∧ fifoAfter.fifo_capacity = 4 ∧
    ledger fifoAfter = [0, 2, 3, 0, 0] ∧
    ¬ ((getPage fifoAfter (1, 0)).frame_index ∈ ledger fifoAfter) := by
  decide

/-! ### Configuration -/

/-- C18, as stated, fails.  With 0 MB of physical memory `main` gets no error from its
start: `init_memory` returns a state with no frame, no slot and `simulation_running = 1`,
and the simulation loop is entered.  With `10 ^ 9` MB and pages of 1024 KB the derived
swap-slot count is negative, and again there is no error: the simulation runs, the check
at the end of the loop iteration does not stop it, and `get_free_ram_frame` offers frame 0
to the first `create_process`. -/
theorem invalid_config_accepted :
    (main_start (some 0) (some 4) 0 = .ok (init_memory 0 4 0) ∧
      (init_memory 0 4 0).ram_frame_count = 0 ∧ (init_memory 0 4 0).swap_slot_count = 0 ∧
      (init_memory 0 4 0).simulation_running = true) ∧
    (main_start (some 1000000000) (some 1024) 4718592000000000 = .ok hugeConfig ∧
      hugeConfig.ram_frame_count = 1000000000 ∧ hugeConfig.swap_slot_count = -794967296 ∧
      hugeConfig.simulation_running = true ∧
      (main_memory_check hugeConfig).simulation_running = true ∧
      get_free_ram_frame hugeConfig = 0) :=
  ⟨⟨rfl, by decide, by decide, rfl⟩, ⟨rfl, by decide, by decide, rfl, by decide, by decide⟩⟩

/-- C18, amended: `main` rejects an input only when `scanf` reads no `int`.  For every
pair of `int`s with a page size other than 0, `init_memory` checks nothing and returns a
state with a positive page size, no process and `simulation_running = 1`, whatever the
physical memory and the derived counts, so the simulation loop is entered.  With 0 MB of
physical memory there are no frames and no swap slots, and the check at the end of the
first loop iteration ends the simulation. -/
theorem main_start_accepts (pm pk : Int) (vm : Nat) (hpk : pk ≠ 0)
    (hlo : -(2 ^ 31) ≤ pk) (hhi : pk < 2 ^ 31) :
    main_start (some pm) (some pk) vm = .ok (init_memory pm pk vm) ∧
    (init_memory pm pk vm).simulation_running = true ∧
    0 < (init_memory pm pk vm).page_size_bytes ∧
    (init_memory pm pk vm).process_count = 0 ∧
    (pm = 0 → vm = 0 →
      (init_memory pm pk vm).ram_frame_count = 0 ∧
      (init_memory pm pk vm).swap_slot_count = 0 ∧
      (init_memory pm pk vm).free_ram_frames = 0 ∧
      (init_memory pm pk vm).free_swap_slots = 0 ∧
      (main_memory_check (init_memory pm pk vm)).simulation_running = false) := by
  refine ⟨rfl, rfl, ?_, rfl, ?_⟩
  · show 0 < ((pk * 1024) % 2 ^ 64).toNat
    norm_num at hlo hhi ⊢
    omega
  · intro h0 hv
    subst h0
    subst hv
    have hm : mb_to_bytes 0 = 0 := by decide
    have ht : toInt32 0 = 0 := by decide
    have hr : (init_memory 0 pk 0).ram_frame_count = 0 := by
      simp only [init_memory, hm, Nat.zero_div, ht]
    have hs : (init_memory 0 pk 0).swap_slot_count = 0 := by
      simp only [init_memory, hm, Nat.zero_div, ht, sub_self]
    have hfr : (init_memory 0 pk 0).free_ram_frames = 0 := hr
    have hfs : (init_memory 0 pk 0).free_swap_slots = 0 := hs
    refine ⟨hr, hs, hfr, hfs, ?_⟩
    unfold main_memory_check
    rw [hfr, hfs]
    have : (init_memory 0 pk 0).simulation_running = true := rfl
    rw [this]
    simp only [beq_self_eq_true, Bool.and_self, if_true]
    exact end_simulation_running _

/-- The amended C18 at 0 MB of physical memory and pages of 4 KB. -/
theorem main_start_accepts_witness :
    ((4 : Int) ≠ 0 ∧ -(2 ^ 31) ≤ (4 : Int) ∧ (4 : Int) < 2 ^ 31) ∧
    main_start (some 0) (some 4) 0 = .ok (init_memory 0 4 0) ∧
    (init_memory 0 4 0).simulation_running = true :=
  have w := main_start_accepts 0 4 0 (by decide) (by decide) (by decide)
  ⟨⟨by decide, by decide, by decide⟩, w.1, w.2.1⟩

/-! ### The live set -/

/-- C20 (live-set invariant). In every reachable state the entries
`alive_indices[0 .. alive_count - 1]` are pairwise distinct; a table index is among them
exactly if it is below `process_count` and its process has `alive = 1`; hence
`alive_count ≤ process_count ≤ MAX_PROCESSES`; and the process at an index drawn from the
live set, `alive_indices[r % alive_count]`, has `alive = 1`, so the guard
`if (!p->alive) return;` of `kill_random_process` and `simulate_random_access` is not
taken. -/
theorem live_set_invariant (st : State) (h : Reachable st) :
    (∀ k l, k < st.alive_count → l < st.alive_count →
      arrGet st.alive_indices k = arrGet st.alive_indices l → k = l) ∧
    (∀ i, (∃ k, k < st.alive_count ∧ arrGet st.alive_indices k = i) ↔
      (i < st.process_count ∧ (arrGet st.processes i).alive = true)) ∧
    st.alive_count ≤ st.process_count ∧ st.process_count ≤ MAX_PROCESSES ∧
    (∀ r, st.alive_count ≠ 0 →
      (!(arrGet st.processes (arrGet st.alive_indices (r % st.alive_count))).alive) = false) := by
  have hl := h.liveOk
  refine ⟨hl.distinct, ?_, hl.count_le, hl.procs_le, ?_⟩
  · intro i
    constructor
    · rintro ⟨k, hk, hki⟩
      rw [← hki]
      exact ⟨hl.lt k hk, hl.alive k hk⟩
    · rintro ⟨hi, ha⟩
      exact hl.cover i hi ha
  · intro r hac
    rw [hl.alive _ (Nat.mod_lt _ (by omega))]
    rfl

/-- The live set of `fifoBefore`: 15 live processes out of 17 created. -/
theorem live_set_invariant_witness :
    Reachable fifoBefore ∧ fifoBefore.alive_count = 15 ∧ fifoBefore.process_count = 17 ∧
    (∀ k l, k < fifoBefore.alive_count → l < fifoBefore.alive_count →
      arrGet fifoBefore.alive_indices k = arrGet fifoBefore.alive_indices l → k = l) :=
  ⟨fifoBefore_reachable, by decide, by decide,
    (live_set_invariant fifoBefore fifoBefore_reachable).1⟩

end SimPag
